import Mathlib

/-!
BME688 driver (Soldered BME688 Arduino library): a shallow embedding.

The driver class `BME688` of `src/BME688-Soldered.cpp` is embedded as a record of its
member variables together with a transcript of everything it does on the bus and on the
serial line.  Member functions become functions from a state to a result and a new state.

* Unsigned machine integers are naturals, signed ones are integers; conversions wrap
  explicitly.
* `float` and `double` are IEEE-754 binary32 and binary64 with round-to-nearest-even:
  every operation is the exact rational operation followed by `Fmt.rnd`.
* The I2C device is an arbitrary function of the transcript so far (`Env`).
-/

namespace BME688Model

/-! ## IEEE-754 arithmetic -/

/-- Two to an integer power, as a rational. -/
def pow2 (e : ℤ) : ℚ :=
  if 0 ≤ e then ((2 ^ e.toNat : ℕ) : ℚ) else 1 / ((2 ^ (-e).toNat : ℕ) : ℚ)

/-- Position of the leading one bit of `n` (zero for `n < 2`), by repeated halving. -/
def bitLog : ℕ → ℕ → ℕ
  | 0, _ => 0
  | fuel + 1, n => if n < 2 then 0 else bitLog fuel (n / 2) + 1

/-- The integer `k` with `2^k ≤ |x| < 2^(k+1)`, for `x ≠ 0`. -/
def ilog2 (x : ℚ) : ℤ :=
  let k : ℤ := (bitLog x.num.natAbs x.num.natAbs : ℤ) - (bitLog x.den x.den : ℤ)
  if pow2 k ≤ |x| then k else k - 1

/-- Nearest integer, ties to the even one. -/
def roundHalfEven (x : ℚ) : ℤ :=
  let f := ⌊x⌋
  let r := x - f
  if r < 1 / 2 then f else if 1 / 2 < r then f + 1 else if f % 2 = 0 then f else f + 1

/-- A binary floating-point format: precision in bits, exponent of the least positive
subnormal, and the exponent of the overflow threshold. -/
structure Fmt where
  prec : ℕ
  emin : ℤ
  emax : ℤ

/-- IEEE-754 binary64, the `double` of the driver. -/
def binary64 : Fmt := ⟨53, -1074, 1024⟩

/-- IEEE-754 binary32, the `float` of the driver. -/
def binary32 : Fmt := ⟨24, -149, 128⟩

/-- Round-to-nearest-even into the format, exponent unbounded above. -/
def Fmt.rnd (F : Fmt) (x : ℚ) : ℚ :=
  if x = 0 then 0 else
    let e := max (ilog2 x - ((F.prec : ℤ) - 1)) F.emin
    (roundHalfEven (x / pow2 e) : ℚ) * pow2 e

/-- A floating-point datum: a finite value, or `nonfin` for an infinity or a NaN.
The sign of a zero is not tracked.  An operation with a non-finite operand is non-finite;
the driver never divides by a non-finite value. -/
inductive FP where
  | fin (v : ℚ)
  | nonfin
  deriving DecidableEq

/-- Round a real result into the format; overflow gives a non-finite value. -/
def Fmt.ofRat (F : Fmt) (x : ℚ) : FP :=
  let r := F.rnd x
  if |r| < pow2 F.emax then FP.fin r else FP.nonfin

/-- Conversion of an integer to the format. -/
def Fmt.ofInt (F : Fmt) (n : ℤ) : FP := F.ofRat (n : ℚ)

/-- Conversion between formats (`float` to `double` and back). -/
def Fmt.conv (F : Fmt) : FP → FP
  | FP.fin x => F.ofRat x
  | FP.nonfin => FP.nonfin

/-- Floating-point addition. -/
def Fmt.add (F : Fmt) : FP → FP → FP
  | FP.fin x, FP.fin y => F.ofRat (x + y)
  | _, _ => FP.nonfin

/-- Floating-point subtraction. -/
def Fmt.sub (F : Fmt) : FP → FP → FP
  | FP.fin x, FP.fin y => F.ofRat (x - y)
  | _, _ => FP.nonfin

/-- Floating-point multiplication. -/
def Fmt.mul (F : Fmt) : FP → FP → FP
  | FP.fin x, FP.fin y => F.ofRat (x * y)
  | _, _ => FP.nonfin

/-- Floating-point division; division by zero is non-finite. -/
def Fmt.div (F : Fmt) : FP → FP → FP
  | FP.fin x, FP.fin y => if y = 0 then FP.nonfin else F.ofRat (x / y)
  | _, _ => FP.nonfin

/-- Truncation toward zero. -/
def truncate (x : ℚ) : ℤ := if 0 ≤ x then ⌊x⌋ else ⌈x⌉

/-- The C++ conversion `(uint8_t)x` of a floating-point value: truncation toward zero when
the truncated value is representable; otherwise the behaviour is undefined and the byte is
whatever the platform (`ub`) yields. -/
def castU8 (ub : FP → ℕ) : FP → ℕ
  | FP.fin x => if 0 ≤ truncate x ∧ truncate x < 256 then (truncate x).toNat else ub (FP.fin x) % 256
  | FP.nonfin => ub FP.nonfin % 256

/-! ## Integer types of the bit-width decoders -/

/-- An integer type `T` of the templates: width and signedness.  Values of `T` are kept as
bit patterns below `2 ^ bits`. -/
structure IntTy where
  bits : ℕ
  signed : Bool

/-- The type `uint8_t`. -/
def u8 : IntTy := ⟨8, false⟩
/-- The type `int8_t`. -/
def i8 : IntTy := ⟨8, true⟩
/-- The type `uint16_t`. -/
def u16 : IntTy := ⟨16, false⟩
/-- The type `int16_t`. -/
def i16 : IntTy := ⟨16, true⟩
/-- The type `int32_t`. -/
def i32 : IntTy := ⟨32, true⟩

/-- Conversion of a natural to `T`: the low `bits` bits. -/
def IntTy.wrap (T : IntTy) (n : ℕ) : ℕ := n % 2 ^ T.bits

/-- The value a bit pattern of `T` denotes. -/
def IntTy.toInt (T : IntTy) (p : ℕ) : ℤ :=
  if T.signed ∧ 2 ^ (T.bits - 1) ≤ p then (p : ℤ) - 2 ^ T.bits else (p : ℤ)

/-- Conversion of an integer to `T`: its residue modulo `2 ^ bits`. -/
def IntTy.ofInt (T : IntTy) (z : ℤ) : ℕ := (z % 2 ^ T.bits).toNat

/-- The operator `>>=` on `T`: logical for unsigned `T`, arithmetic for signed `T`. -/
def IntTy.shr (T : IntTy) (p s : ℕ) : ℕ := T.ofInt (T.toInt p >>> s)

/-! ## Registers and constants of `BME688-Soldered.h` -/

def BME_688_CTRL_MEAS_REG : ℕ := 0x74
def BME_688_CTRL_MEAS_HUM_REG : ℕ := 0x72
def BME_688_OSS_1 : ℕ := 0x01
def BME_688_OSS_16 : ℕ := 0x05
def BME_688_FORCED_MODE : ℕ := 0x01
def BME_688_PARALLEL_MODE : ℕ := 0x02
def BME_688_TEMP_RAW_REG : ℕ := 0x22
def BME_688_PRES_RAW_REG : ℕ := 0x1F
def BME_688_HUM_RAW_REG : ℕ := 0x25
def BME_688_TEMP_CALIB1_REG : ℕ := 0xE9
def BME_688_TEMP_CALIB2_REG : ℕ := 0x8A
def BME_688_TEMP_CALIB3_REG : ℕ := 0x8C
def BME_688_PRES_CALIB1_REG : ℕ := 0x8E
def BME_688_PRES_CALIB2_REG : ℕ := 0x90
def BME_688_PRES_CALIB3_REG : ℕ := 0x92
def BME_688_PRES_CALIB4_REG : ℕ := 0x94
def BME_688_PRES_CALIB5_REG : ℕ := 0x96
def BME_688_PRES_CALIB6_REG : ℕ := 0x99
def BME_688_PRES_CALIB7_REG : ℕ := 0x98
def BME_688_PRES_CALIB8_REG : ℕ := 0x9C
def BME_688_PRES_CALIB9_REG : ℕ := 0x9E
def BME_688_PRES_CALIB10_REG : ℕ := 0xA0
def BME_688_HUM_CALIB1_REG : ℕ := 0xE2
def BME_688_HUM_CALIB2_REG : ℕ := 0xE1
def BME_688_HUM_CALIB3_REG : ℕ := 0xE4
def BME_688_HUM_CALIB4_REG : ℕ := 0xE5
def BME_688_HUM_CALIB5_REG : ℕ := 0xE6
def BME_688_HUM_CALIB6_REG : ℕ := 0xE7
def BME_688_HUM_CALIB7_REG : ℕ := 0xE8
def BME_688_GAS_CALIB1_REG : ℕ := 0xED
def BME_688_GAS_CALIB2_REG : ℕ := 0xEB
def BME_688_GAS_CALIB3_REG : ℕ := 0xEE
def BME_688_GAS_HEAT_RANGE_REG : ℕ := 0x02
def BME_688_GAS_HEAT_VAL_REG : ℕ := 0x00
def BME_688_IIR_FILTER_REG : ℕ := 0x75
def BME_688_IIR_FILTER_C15 : ℕ := 0x04
def BME_688_CTRL_GAS_REG : ℕ := 0x71
def BME_688_GAS_RANGE_REG : ℕ := 0x2C
def BME_688_GAS_ADC_REG : ℕ := 0x2C
def BME_688_GAS_MEAS_STATUS_REG1 : ℕ := 0x2D
def BME_688_GAS_HEAT_STAB_MASK : ℕ := 0x10
def BME_688_GAS_VALID_REG_MASK : ℕ := 0x20
def BME_688_HEAT_RANGE_MASK : ℕ := 0x18
def BME_688_GAS_RANGE_VAL_MASK : ℕ := 0x0F
def BME_688_GAS_RUN : ℕ := 0x20
def BME_688_GAS_MEAS_FINISH : ℕ := 0x30
def BME_688_GAS_PROFILE_START : ℕ := 0x00
def BME_688_HEAT_PLATE_MAX_TEMP : ℕ := 0x1A9
def BME_688_HEAT_PLATE_ULTRA_TEMP : ℕ := 0x258
def BME_688_GAS_WAIT_PROFILE_REG : ℕ := 0x64
def BME_688_GAS_RES_HEAT_PROFILE_REG : ℕ := 0x5A
def BME_688_GAS_START_TEMP : ℕ := 0xC8
def BME_688_GAS_WAIT_MULFAC1 : ℕ := 0x00
def BME_688_CHIP_ID_REG : ℕ := 0xD0
def BME_688_CHIP_ID : ℕ := 0x61
def BME688_I2C_ADDR_PRIMARY : ℕ := 0x76

/-- The literal `BME_688_GAS_CORRECTION`, 1.3801. -/
def BME_688_GAS_CORRECTION : ℚ := 13801 / 10000

/-- The log lines of the header. -/
inductive Msg where
  | CHECK_CONN_ERR
  | TEMP_CAL_EXCEPT
  | PRES_CAL_EXCEPT
  | HUM_CAL_EXCEPT
  | VALUE_INVALID
  | READ_FAILURE
  | GAS_MEAS_FAILURE
  | TEMP_WARNING
  | TEMP_EXCEED_MAX_LIMIT
  | PROFILE_OUT_OF_RANGE
  | TEMP_UNSAFE_WARNING
  deriving DecidableEq

/-! ## The outside world -/

/-- What the driver does to the outside, in order. -/
inductive Event where
  /-- The call `Wire.begin()`. -/
  | wireBegin
  /-- A zero-length transaction: `beginTransmission` then `endTransmission`. -/
  | probe
  /-- A register write, `i2c_execute(reg, data)`. -/
  | write (reg data : ℕ)
  /-- A register read: `startTransmission(reg)` then `requestFrom(address, len)`. -/
  | read (reg len : ℕ)
  /-- The call `delay(ms)`. -/
  | delay (ms : ℕ)
  /-- The call `yield()`. -/
  | yield
  /-- Serial output of a boolean by `Serial.println`. -/
  | printBool (b : Bool)
  /-- Serial output of a log line by `Serial.println`. -/
  | print (m : Msg)
  deriving DecidableEq

/-- Everything outside the driver that its behaviour depends on.  The device is an arbitrary
function of the transcript so far. -/
structure Env where
  /-- Whether a zero-length transaction is acknowledged (`endTransmission() == 0`). -/
  ack : List Event → Bool
  /-- The bytes in the receive buffer after `requestFrom` of `len` bytes at `reg`. -/
  rx : List Event → ℕ → ℕ → List ℕ
  /-- The byte produced by a float-to-`uint8_t` cast whose operand is out of range. -/
  ub : FP → ℕ

/-! ## The driver state -/

/-- The member variables of class `BME688`, and the transcript of its actions. -/
structure BME688 where
  temp_oss : ℕ
  press_oss : ℕ
  hum_oss : ℕ
  mode : ℕ
  printLogs : Bool
  address : ℕ
  par_t16_0 : ℤ
  par_t16_1 : ℤ
  par_t3 : ℤ
  par_p1 : ℕ
  par_p16_0 : ℤ
  par_p16_1 : ℤ
  par_p16_2 : ℤ
  par_p16_3 : ℤ
  par_p16_4 : ℤ
  par_p16_5 : ℤ
  par_p8_0 : ℤ
  par_p8_1 : ℤ
  par_p8_2 : ℤ
  par_p8_3 : ℤ
  par_h16_0 : ℕ
  par_h16_1 : ℕ
  par_h8_0 : ℤ
  par_h8_1 : ℤ
  par_h8_2 : ℤ
  par_h8_3 : ℤ
  par_h8_4 : ℤ
  par_h6 : ℕ
  par_p10 : ℕ
  res_heat_range : ℕ
  par_g1 : ℤ
  par_g3 : ℤ
  res_heat_val : ℤ
  par_g2 : ℤ
  allowHighTemps : Bool
  t_fine : FP
  p_fine : FP
  h_fine : FP
  g_fine : FP
  g_res : FP
  measProfile : ℕ
  targetTemp : ℕ
  targetWaitTime : ℕ
  cf_p : FP
  /-- The transcript, oldest event first. -/
  trace : List Event

namespace BME688

/-- A freshly constructed instance: the default member initialisers of the header. -/
def fresh (address : ℕ) : BME688 where
  temp_oss := BME_688_OSS_1
  press_oss := BME_688_OSS_1
  hum_oss := BME_688_OSS_1
  mode := BME_688_FORCED_MODE
  printLogs := false
  address := address % 256
  par_t16_0 := 0
  par_t16_1 := 0
  par_t3 := 0
  par_p1 := 0
  par_p16_0 := 0
  par_p16_1 := 0
  par_p16_2 := 0
  par_p16_3 := 0
  par_p16_4 := 0
  par_p16_5 := 0
  par_p8_0 := 0
  par_p8_1 := 0
  par_p8_2 := 0
  par_p8_3 := 0
  par_h16_0 := 0
  par_h16_1 := 0
  par_h8_0 := 0
  par_h8_1 := 0
  par_h8_2 := 0
  par_h8_3 := 0
  par_h8_4 := 0
  par_h6 := 0
  par_p10 := 0
  res_heat_range := 0
  par_g1 := 0
  par_g3 := 0
  res_heat_val := 0
  par_g2 := 0
  allowHighTemps := false
  t_fine := FP.fin 0
  p_fine := FP.fin 0
  h_fine := FP.fin 0
  g_fine := FP.fin 0
  g_res := FP.fin 0
  measProfile := 0
  targetTemp := 0
  targetWaitTime := 0
  cf_p := FP.fin 1
  trace := []

/-- Append an event to the transcript. -/
def emit (s : BME688) (e : Event) : BME688 := { s with trace := s.trace ++ [e] }

/-- Embeds `printLog`: the line goes out only when logging is enabled. -/
def printLog (s : BME688) (m : Msg) : BME688 :=
  if s.printLogs then s.emit (Event.print m) else s

/-- Embeds `showLogs`. -/
def showLogs (s : BME688) (show_ : Bool) : BME688 := { s with printLogs := show_ }

/-- Embeds `i2c_execute(uint8_t reg, uint8_t data)`: one register write. -/
def i2c_execute (s : BME688) (reg data : ℕ) : BME688 :=
  s.emit (Event.write (reg % 256) (data % 256))

/-- The call `startTransmission(reg)` followed by `Wire.requestFrom(_address, len)`: the bytes now
available in the receive buffer. -/
def requestFrom (env : Env) (s : BME688) (reg len : ℕ) : List ℕ × BME688 :=
  ((env.rx s.trace (reg % 256) (len % 256)).map (· % 256),
    s.emit (Event.read (reg % 256) (len % 256)))

/-- Embeds `i2c_readByte(uint8_t reg, uint8_t *data, uint8_t length)`.  The destination is a single
variable (every call passes length 1), so of the buffer only `data[0]` is kept. -/
def i2c_readByte (env : Env) (s : BME688) (reg data length : ℕ) : (Bool × ℕ) × BME688 :=
  let r := s.requestFrom env reg length
  if r.1.length < length % 256 then ((false, data), r.2)
  else ((true, if 0 < length % 256 then r.1.headD 0 else data), r.2)

/-- Embeds `i2c_readByte(uint8_t reg, int8_t *data, uint8_t length)`: the signed overload. -/
def i2c_readByte_signed (env : Env) (s : BME688) (reg : ℕ) (data : ℤ) (length : ℕ) :
    (Bool × ℤ) × BME688 :=
  let r := s.requestFrom env reg length
  if r.1.length < length % 256 then ((false, data), r.2)
  else ((true, if 0 < length % 256 then i8.toInt (r.1.headD 0) else data), r.2)

/-- Embeds `is_sensor_connected`: probes the address, prints the outcome, and returns `true`. -/
def is_sensor_connected (env : Env) (s : BME688) : Bool × BME688 :=
  let result := env.ack s.trace
  (true, (s.emit Event.probe).emit (Event.printBool result))

/-- Embeds `isConnected`. -/
def isConnected (env : Env) (s : BME688) : Bool × BME688 :=
  let c := s.is_sensor_connected env
  if c.1 then
    let r := c.2.i2c_readByte env BME_688_CHIP_ID_REG 0 1
    if r.1.1 then (r.1.2 == BME_688_CHIP_ID, r.2) else (false, r.2)
  else (false, c.2)

/-- Embeds `setTemperatureOversampling`. -/
def setTemperatureOversampling (s : BME688) (oss : ℕ) : Bool × BME688 :=
  if oss ≤ BME_688_OSS_16 then (true, { s with temp_oss := oss })
  else (false, s.printLog Msg.VALUE_INVALID)

/-- Embeds `ignoreUnsafeTemperatureWarnings`. -/
def ignoreUnsafeTemperatureWarnings (s : BME688) (ignore : Bool) : BME688 :=
  ({ s with allowHighTemps := ignore }).printLog Msg.TEMP_UNSAFE_WARNING

/-- The loop of `i2c_read_Xbit_LE`, `tempData |= (T)Wire.read() << 8 * i`, over the bytes
still in the buffer, from index `i`. -/
def assembleLE (T : IntTy) : List ℕ → ℕ → ℕ → ℕ
  | [], _, tempData => tempData
  | b :: bs, i, tempData =>
      assembleLE T bs (i + 1) (T.wrap (tempData ||| (T.wrap b <<< (8 * i))))

/-- The loop of `i2c_read_Xbit`, `tempData |= (T)Wire.read() << 8 * (l - 1 - i)`, over the
bytes still in the buffer, from index `i`. -/
def assembleBE (T : IntTy) (l : ℕ) : List ℕ → ℕ → ℕ → ℕ
  | [], _, tempData => tempData
  | b :: bs, i, tempData =>
      assembleBE T l bs (i + 1) (T.wrap (tempData ||| (T.wrap b <<< (8 * (l - 1 - i)))))

/-- The number of bytes both decoders request for a bit width:
`length % 8 ? (length + (8 - length % 8)) / 8 : length / 8`, stored in a `uint8_t`. -/
def byteCount (length : ℕ) : ℕ :=
  (if length % 8 ≠ 0 then (length + (8 - length % 8)) / 8 else length / 8) % 256

/-- Embeds `i2c_read_Xbit_LE<T>(reg, data, length)`: the little-endian decoder.  Returns the
success flag and the value of `*data` afterwards. -/
def i2c_read_Xbit_LE (T : IntTy) (env : Env) (s : BME688) (reg data length : ℕ) :
    (Bool × ℕ) × BME688 :=
  let l := byteCount length
  let r := s.requestFrom env reg l
  if r.1.length = l then
    let tempData := assembleLE T r.1 0 0
    let tempData := if length % 8 ≠ 0 then T.shr tempData (8 - length % 8) else tempData
    ((true, T.wrap tempData), r.2)
  else ((false, data), r.2)

/-- Embeds `i2c_read_Xbit<T>(reg, data, length)`: the big-endian decoder.  Returns the
success flag and the value of `*data` afterwards. -/
def i2c_read_Xbit (T : IntTy) (env : Env) (s : BME688) (reg data length : ℕ) :
    (Bool × ℕ) × BME688 :=
  let l := byteCount length
  let r := s.requestFrom env reg l
  if r.1.length = l then
    let tempData := assembleBE T l r.1 0 0
    let tempData := if length % 8 ≠ 0 then T.shr tempData (8 - length % 8) else tempData
    ((true, T.wrap tempData), r.2)
  else ((false, data), r.2)

/-- Embeds `readRawTemp`. -/
def readRawTemp (env : Env) (s : BME688) : ℤ × BME688 :=
  let r := s.i2c_read_Xbit i32 env BME_688_TEMP_RAW_REG 0 20
  (i32.toInt r.1.2, if r.1.1 then r.2 else r.2.printLog Msg.READ_FAILURE)

/-- Embeds `readUCTemp(int32_t adc_T)`: returns the temperature and stores `t_fine`. -/
def readUCTemp (s : BME688) (adc_T : ℤ) : FP × BME688 :=
  let var1 := binary64.mul
    (binary64.sub (binary64.div (binary64.ofInt adc_T) (FP.fin 16384))
      (binary64.div (binary64.ofInt s.par_t16_0) (FP.fin 1024)))
    (binary64.ofInt s.par_t16_1)
  let var2 := binary64.mul
    (binary64.mul
      (binary64.sub (binary64.div (binary64.ofInt adc_T) (FP.fin 131072))
        (binary64.div (binary64.ofInt s.par_t16_0) (FP.fin 8192)))
      (binary64.sub (binary64.div (binary64.ofInt adc_T) (FP.fin 131072))
        (binary64.div (binary64.ofInt s.par_t16_0) (FP.fin 8192))))
    (binary64.mul (binary64.ofInt s.par_t3) (FP.fin 16))
  let t_fine := binary64.add var1 var2
  (binary64.div t_fine (FP.fin 5120), { s with t_fine := t_fine })

/-- Embeds `readTemperature`. -/
def readTemperature (env : Env) (s : BME688) : FP × BME688 :=
  let s1 := s.i2c_execute BME_688_CTRL_MEAS_REG
    (((s.temp_oss <<< 5) ||| (s.press_oss <<< 2)) ||| s.mode)
  let s2 := s1.emit (Event.delay 10)
  let r := s2.readRawTemp env
  r.2.readUCTemp r.1

/-- Embeds `readUCGas(uint16_t target_temp)`: the heater code for a target temperature,
also stored in `g_fine`. -/
def readUCGas (env : Env) (s : BME688) (target_temp : ℕ) : ℕ × BME688 :=
  let t_fine := binary64.div s.t_fine (FP.fin 5120)
  let var1 := binary64.add (binary64.div (binary64.ofInt s.par_g1) (FP.fin 16)) (FP.fin 49)
  let var2 := binary64.add
    (binary64.mul (binary64.div (binary64.ofInt s.par_g2) (FP.fin 32768))
      (binary64.ofRat (5 / 10000)))
    (binary64.ofRat (235 / 100000))
  let var3 := binary64.div (binary64.ofInt s.par_g3) (FP.fin 1024)
  let var4 := binary64.mul var1
    (binary64.add (FP.fin 1) (binary64.mul var2 (binary64.ofInt ((target_temp % 65536 : ℕ) : ℤ))))
  let var5 := binary64.add var4 (binary64.mul var3 t_fine)
  let range := binary64.div (FP.fin 4)
    (binary64.add (FP.fin 4)
      (binary64.ofInt (((s.res_heat_range &&& BME_688_HEAT_RANGE_MASK) >>> 4 : ℕ) : ℤ)))
  let val := binary64.div (FP.fin 1)
    (binary64.add (FP.fin 1)
      (binary64.mul (binary64.ofInt s.res_heat_val) (binary64.ofRat (2 / 1000))))
  let g := castU8 env.ub
    (binary64.mul (binary64.ofRat (34 / 10))
      (binary64.sub (binary64.mul (binary64.mul var5 range) val) (FP.fin 25)))
  (g, { s with g_fine := FP.fin (g : ℚ) })

/-- The wait code `(uint8_t)(0.25 * code - offset)` derived from a heater code. -/
def waitCode (env : Env) (code : ℕ) (offset : ℚ) : ℕ :=
  castU8 env.ub
    (binary64.sub (binary64.mul (FP.fin (1 / 4)) (binary64.ofInt (code : ℤ))) (FP.fin offset))

/-- Embeds `checkGasMeasurementCompletion`. -/
def checkGasMeasurementCompletion (env : Env) (s : BME688) : Bool × BME688 :=
  let r := s.i2c_readByte env BME_688_GAS_MEAS_STATUS_REG1 0 1
  ((r.1.2 &&& (BME_688_GAS_HEAT_STAB_MASK ||| BME_688_GAS_VALID_REG_MASK))
      == BME_688_GAS_MEAS_FINISH, r.2)

/-- The gas resistance `1000000.0f * (float)var1 / (float)var2`, widened to `double`. -/
def gasResistance (gas_adc gas_range : ℕ) : FP :=
  let var1 : ℕ := 262144 >>> gas_range
  let var2 : ℤ := 4096 + ((gas_adc : ℤ) - 512) * 3
  binary64.conv
    (binary32.div (binary32.mul (FP.fin 1000000) (binary32.ofInt (var1 : ℤ))) (binary32.ofInt var2))

/-- Embeds `startGasMeasurement(uint8_t profile, uint8_t waitTime)`. -/
def startGasMeasurement (env : Env) (s : BME688) (profile waitTime : ℕ) : FP × BME688 :=
  let s1 := s.i2c_execute BME_688_CTRL_GAS_REG (BME_688_GAS_RUN ||| (profile % 256))
  let s2 := s1.i2c_execute BME_688_CTRL_MEAS_REG s.mode
  let s3 := s2.emit (Event.delay (waitTime % 256))
  let c := s3.checkGasMeasurementCompletion env
  if !c.1 then (FP.fin (-2), c.2.printLog Msg.GAS_MEAS_FAILURE)
  else
    let a := c.2.i2c_read_Xbit u16 env BME_688_GAS_ADC_REG 0 10
    let g := a.2.i2c_readByte env BME_688_GAS_RANGE_REG 0 1
    let gas_adc := a.1.2
    let gas_range := g.1.2 &&& BME_688_GAS_RANGE_VAL_MASK
    let g_res := gasResistance gas_adc gas_range
    (g_res, { g.2 with g_res := g_res,
                       cf_p := binary32.conv (binary64.ofRat BME_688_GAS_CORRECTION) })

/-- Embeds `readGasForTemperature(uint16_t temperature)`. -/
def readGasForTemperature (env : Env) (s : BME688) (temperature : ℕ) : FP × BME688 :=
  if s.allowHighTemps || decide (temperature ≤ BME_688_HEAT_PLATE_MAX_TEMP) then
    if temperature < BME_688_HEAT_PLATE_ULTRA_TEMP then
      let u := s.readUCGas env temperature
      let t_temp := u.1
      let t_wait := waitCode env t_temp 17
      let s1 := u.2.i2c_execute BME_688_CTRL_GAS_REG 0x20
      let s2 := s1.i2c_execute BME_688_GAS_WAIT_PROFILE_REG t_wait
      let s3 := s2.i2c_execute BME_688_GAS_RES_HEAT_PROFILE_REG t_temp
      s3.startGasMeasurement env BME_688_GAS_PROFILE_START (t_wait + 5)
    else (FP.fin (-1), s.printLog Msg.TEMP_EXCEED_MAX_LIMIT)
  else (FP.fin (-1), s.printLog Msg.TEMP_WARNING)

/-- Embeds `readGas(uint8_t profile)`. -/
def readGas (env : Env) (s : BME688) (profile : ℕ) : FP × BME688 :=
  if profile < 10 then
    let u := s.readUCGas env (BME_688_GAS_START_TEMP * profile)
    u.2.startGasMeasurement env profile (waitCode env u.1 17)
  else (FP.fin (-1), s.printLog Msg.PROFILE_OUT_OF_RANGE)

/-- The body of the loop of `setHeatProfiles` for index `i`. -/
def heatProfileStep (env : Env) (s : BME688) (i : ℕ) : BME688 :=
  let s1 := s.emit Event.yield
  let u := s1.readUCGas env (BME_688_GAS_START_TEMP + i * 25)
  let gasTemp := u.1
  let s2 := u.2.i2c_execute (BME_688_GAS_WAIT_PROFILE_REG + i)
    ((BME_688_GAS_WAIT_MULFAC1 <<< 6) ||| waitCode env gasTemp 22)
  s2.i2c_execute (BME_688_GAS_RES_HEAT_PROFILE_REG + i) gasTemp

/-- Embeds `setHeatProfiles`: a temperature reading, then the loop
`for (uint8_t i = 0; i < 9; i++)`. -/
def setHeatProfiles (env : Env) (s : BME688) : Bool × BME688 :=
  (true, (List.range 9).foldl (heatProfileStep env) (s.readTemperature env).2)

/-- Embeds `readRawPres`. -/
def readRawPres (env : Env) (s : BME688) : ℤ × BME688 :=
  let r := s.i2c_read_Xbit i32 env BME_688_PRES_RAW_REG 0 20
  (i32.toInt r.1.2, if r.1.1 then r.2 else r.2.printLog Msg.READ_FAILURE)

/-- Embeds `readRawHum`. -/
def readRawHum (env : Env) (s : BME688) : ℤ × BME688 :=
  let r := s.i2c_read_Xbit i16 env BME_688_HUM_RAW_REG 0 16
  (i16.toInt r.1.2, if r.1.1 then r.2 else r.2.printLog Msg.READ_FAILURE)

/-- Embeds `readRawGas`, which reads the humidity raw register. -/
def readRawGas (env : Env) (s : BME688) : ℤ × BME688 :=
  let r := s.i2c_read_Xbit i16 env BME_688_HUM_RAW_REG 0 16
  (i16.toInt r.1.2, if r.1.1 then r.2 else r.2.printLog Msg.READ_FAILURE)

/-- The divisor of `readUCPres`: the value of `var1` after
`var1 = (1.0 + (var1 / 32768.0)) * (double)par_p1`. -/
def presDivisor (s : BME688) : FP :=
  let var1 := binary64.sub (binary64.div s.t_fine (FP.fin 2)) (FP.fin 64000)
  let var1 := binary64.div
    (binary64.add
      (binary64.div
        (binary64.mul (binary64.mul (binary64.ofInt s.par_p8_0) var1) var1) (FP.fin 16384))
      (binary64.mul (binary64.ofInt s.par_p16_1) var1))
    (FP.fin 524288)
  binary64.mul (binary64.add (FP.fin 1) (binary64.div var1 (FP.fin 32768)))
    (binary64.ofInt (s.par_p1 : ℤ))

/-- Embeds `readUCPres(int32_t adc_P)`: returns the pressure and stores `p_fine`. -/
def readUCPres (s : BME688) (adc_P : ℤ) : FP × BME688 :=
  let var1 := binary64.sub (binary64.div s.t_fine (FP.fin 2)) (FP.fin 64000)
  let var2 := binary64.mul (binary64.mul var1 var1)
    (binary64.div (binary64.ofInt s.par_p8_1) (FP.fin 131072))
  let var2 := binary64.add var2
    (binary64.mul (binary64.mul var1 (binary64.ofInt s.par_p16_3)) (FP.fin 2))
  let var2 := binary64.add (binary64.div var2 (FP.fin 4))
    (binary64.mul (binary64.ofInt s.par_p16_2) (FP.fin 65536))
  let var1 := presDivisor s
  let press_comp := binary64.sub (FP.fin 1048576) (binary64.ofInt adc_P)
  let press_comp := binary64.div
    (binary64.mul (binary64.sub press_comp (binary64.div var2 (FP.fin 4096))) (FP.fin 6250))
    var1
  let var1 := binary64.div
    (binary64.mul (binary64.mul (binary64.ofInt s.par_p16_5) press_comp) press_comp)
    (FP.fin 2147483648)
  let var2 := binary64.mul press_comp
    (binary64.div (binary64.ofInt s.par_p16_4) (FP.fin 32768))
  let var3 := binary64.mul
    (binary64.mul
      (binary64.mul (binary64.div press_comp (FP.fin 256)) (binary64.div press_comp (FP.fin 256)))
      (binary64.div press_comp (FP.fin 256)))
    (binary64.div (binary64.ofInt (s.par_p10 : ℤ)) (FP.fin 131072))
  let p_fine := binary64.add press_comp
    (binary64.div
      (binary64.add (binary64.add (binary64.add var1 var2) var3)
        (binary64.mul (binary64.ofInt s.par_p8_2) (FP.fin 128)))
      (FP.fin 16))
  (p_fine, { s with p_fine := p_fine })

/-- The dividend of the division in `readUCPres`: the value of
`(press_comp - (var2 / 4096.0)) * 6250.0`, where `press_comp = 1048576.0 - (double)adc_P`
and `var2` is as left by its three assignments. -/
def presDividend (s : BME688) (adc_P : ℤ) : FP :=
  let var1 := binary64.sub (binary64.div s.t_fine (FP.fin 2)) (FP.fin 64000)
  let var2 := binary64.mul (binary64.mul var1 var1)
    (binary64.div (binary64.ofInt s.par_p8_1) (FP.fin 131072))
  let var2 := binary64.add var2
    (binary64.mul (binary64.mul var1 (binary64.ofInt s.par_p16_3)) (FP.fin 2))
  let var2 := binary64.add (binary64.div var2 (FP.fin 4))
    (binary64.mul (binary64.ofInt s.par_p16_2) (FP.fin 65536))
  let press_comp := binary64.sub (FP.fin 1048576) (binary64.ofInt adc_P)
  binary64.mul (binary64.sub press_comp (binary64.div var2 (FP.fin 4096))) (FP.fin 6250)

/-- The statements of `readUCPres` after the division: from the quotient `press_comp` to the
value assigned to `p_fine`. -/
def presAfterDivision (s : BME688) (press_comp : FP) : FP :=
  let var1 := binary64.div
    (binary64.mul (binary64.mul (binary64.ofInt s.par_p16_5) press_comp) press_comp)
    (FP.fin 2147483648)
  let var2 := binary64.mul press_comp
    (binary64.div (binary64.ofInt s.par_p16_4) (FP.fin 32768))
  let var3 := binary64.mul
    (binary64.mul
      (binary64.mul (binary64.div press_comp (FP.fin 256)) (binary64.div press_comp (FP.fin 256)))
      (binary64.div press_comp (FP.fin 256)))
    (binary64.div (binary64.ofInt (s.par_p10 : ℤ)) (FP.fin 131072))
  binary64.add press_comp
    (binary64.div
      (binary64.add (binary64.add (binary64.add var1 var2) var3)
        (binary64.mul (binary64.ofInt s.par_p8_2) (FP.fin 128)))
      (FP.fin 16))

/-- Embeds `readUCHum(int16_t adc_H)`: returns the humidity and stores `h_fine`. -/
def readUCHum (s : BME688) (adc_H : ℤ) : FP × BME688 :=
  let t_fine := binary64.div s.t_fine (FP.fin 5120)
  let var1 := binary64.sub (binary64.ofInt adc_H)
    (binary64.add (binary64.mul (binary64.ofInt (s.par_h16_0 : ℤ)) (FP.fin 16))
      (binary64.mul (binary64.div (binary64.ofInt s.par_h8_0) (FP.fin 2)) t_fine))
  let var2 := binary64.mul var1
    (binary64.mul (binary64.div (binary64.ofInt (s.par_h16_1 : ℤ)) (FP.fin 262144))
      (binary64.add
        (binary64.add (FP.fin 1)
          (binary64.mul (binary64.div (binary64.ofInt s.par_h8_1) (FP.fin 16384)) t_fine))
        (binary64.mul
          (binary64.mul (binary64.div (binary64.ofInt s.par_h8_2) (FP.fin 1048576)) t_fine)
          t_fine)))
  let var3 := binary64.div (binary64.ofInt (s.par_h6 : ℤ)) (FP.fin 16384)
  let var4 := binary64.div (binary64.ofInt s.par_h8_4) (FP.fin 2097152)
  let h_fine := binary64.add var2
    (binary64.mul (binary64.mul (binary64.add var3 (binary64.mul var4 t_fine)) var2) var2)
  (h_fine, { s with h_fine := h_fine })

/-- The control word `temp_oss << 5 | press_oss << 2 | mode` of the reading operations. -/
def ctrlWord (s : BME688) : ℕ := ((s.temp_oss <<< 5) ||| (s.press_oss <<< 2)) ||| s.mode

/-- Embeds `readPressure`: the result passes through a `float` variable. -/
def readPressure (env : Env) (s : BME688) : FP × BME688 :=
  let s1 := s.i2c_execute BME_688_CTRL_MEAS_REG s.ctrlWord
  let s2 := s1.emit (Event.delay 10)
  let r := s2.readRawPres env
  let p := r.2.readUCPres r.1
  (binary64.conv (binary32.conv p.1), p.2)

/-- Embeds `readHumidity`. -/
def readHumidity (env : Env) (s : BME688) : FP × BME688 :=
  let s1 := s.i2c_execute BME_688_CTRL_MEAS_HUM_REG s.hum_oss
  let s2 := s1.i2c_execute BME_688_CTRL_MEAS_REG s.ctrlWord
  let s3 := s2.emit (Event.delay 10)
  let r := s3.readRawHum env
  r.2.readUCHum r.1

/-- A chain `a && b && ...` of reads: each runs only if all before it succeeded. -/
def chain (steps : List (BME688 → Bool × BME688)) (s : BME688) : Bool × BME688 :=
  steps.foldl (fun acc step => if acc.1 then step acc.2 else acc) (true, s)

/-- A read of a signed 16-bit coefficient by `i2c_read_Xbit_LE<int16_t>(reg, &field, 16)`. -/
def readS16 (env : Env) (reg : ℕ) (get : BME688 → ℤ) (set : BME688 → ℤ → BME688)
    (s : BME688) : Bool × BME688 :=
  let r := s.i2c_read_Xbit_LE i16 env reg (i16.ofInt (get s)) 16
  (r.1.1, if r.1.1 then set r.2 (i16.toInt r.1.2) else r.2)

/-- A read of an unsigned 16-bit field by a decoder call with the given bit width. -/
def readU16 (env : Env) (littleEndian : Bool) (reg width : ℕ) (get : BME688 → ℕ)
    (set : BME688 → ℕ → BME688) (s : BME688) : Bool × BME688 :=
  let r := if littleEndian then s.i2c_read_Xbit_LE u16 env reg (get s) width
    else s.i2c_read_Xbit u16 env reg (get s) width
  (r.1.1, if r.1.1 then set r.2 r.1.2 else r.2)

/-- A read of a signed byte by `i2c_readByte(reg, &field, 1)`, `int8_t` overload. -/
def readS8 (env : Env) (reg : ℕ) (get : BME688 → ℤ) (set : BME688 → ℤ → BME688)
    (s : BME688) : Bool × BME688 :=
  let r := s.i2c_readByte_signed env reg (get s) 1
  (r.1.1, if r.1.1 then set r.2 r.1.2 else r.2)

/-- A read of an unsigned byte by `i2c_readByte(reg, &field, 1)`, `uint8_t` overload. -/
def readU8 (env : Env) (reg : ℕ) (get : BME688 → ℕ) (set : BME688 → ℕ → BME688)
    (s : BME688) : Bool × BME688 :=
  let r := s.i2c_readByte env reg (get s) 1
  (r.1.1, if r.1.1 then set r.2 r.1.2 else r.2)

/-- The end of a group of `readCalibParams`: the log line goes out when the chain failed. -/
def logUnless (m : Msg) (r : Bool × BME688) : BME688 :=
  if r.1 then r.2 else r.2.printLog m

/-- Embeds `readCalibParams`: four groups of coefficient reads, then `setHeatProfiles`. -/
def readCalibParams (env : Env) (s : BME688) : BME688 :=
  let s1 := logUnless Msg.TEMP_CAL_EXCEPT (chain
    [readS16 env BME_688_TEMP_CALIB1_REG (·.par_t16_0) (fun s v => { s with par_t16_0 := v }),
     readS16 env BME_688_TEMP_CALIB2_REG (·.par_t16_1) (fun s v => { s with par_t16_1 := v }),
     readS8 env BME_688_TEMP_CALIB3_REG (·.par_t3) (fun s v => { s with par_t3 := v })] s)
  let s2 := logUnless Msg.PRES_CAL_EXCEPT (chain
    [readU16 env true BME_688_PRES_CALIB1_REG 16 (·.par_p1) (fun s v => { s with par_p1 := v }),
     readS16 env BME_688_PRES_CALIB2_REG (·.par_p16_1) (fun s v => { s with par_p16_1 := v }),
     readS8 env BME_688_PRES_CALIB3_REG (·.par_p8_0) (fun s v => { s with par_p8_0 := v }),
     readS16 env BME_688_PRES_CALIB4_REG (·.par_p16_2) (fun s v => { s with par_p16_2 := v }),
     readS16 env BME_688_PRES_CALIB5_REG (·.par_p16_3) (fun s v => { s with par_p16_3 := v }),
     readS8 env BME_688_PRES_CALIB6_REG (·.par_p8_1) (fun s v => { s with par_p8_1 := v }),
     readS8 env BME_688_PRES_CALIB7_REG (·.par_p8_2) (fun s v => { s with par_p8_2 := v }),
     readS16 env BME_688_PRES_CALIB8_REG (·.par_p16_4) (fun s v => { s with par_p16_4 := v }),
     readS16 env BME_688_PRES_CALIB9_REG (·.par_p16_5) (fun s v => { s with par_p16_5 := v }),
     readU8 env BME_688_PRES_CALIB10_REG (·.par_p10) (fun s v => { s with par_p10 := v })] s1)
  let s3 := logUnless Msg.HUM_CAL_EXCEPT (chain
    [readU16 env true BME_688_HUM_CALIB1_REG 12 (·.par_h16_0)
       (fun s v => { s with par_h16_0 := v }),
     readU16 env false BME_688_HUM_CALIB2_REG 12 (·.par_h16_1)
       (fun s v => { s with par_h16_1 := v }),
     readS8 env BME_688_HUM_CALIB3_REG (·.par_h8_0) (fun s v => { s with par_h8_0 := v }),
     readS8 env BME_688_HUM_CALIB4_REG (·.par_h8_1) (fun s v => { s with par_h8_1 := v }),
     readS8 env BME_688_HUM_CALIB5_REG (·.par_h8_2) (fun s v => { s with par_h8_2 := v }),
     readU8 env BME_688_HUM_CALIB6_REG (·.par_h6) (fun s v => { s with par_h6 := v }),
     readS8 env BME_688_HUM_CALIB7_REG (·.par_h8_4) (fun s v => { s with par_h8_4 := v })] s2)
  let s4 := logUnless Msg.TEMP_CAL_EXCEPT (chain
    [readS8 env BME_688_GAS_CALIB1_REG (·.par_g1) (fun s v => { s with par_g1 := v }),
     readS16 env BME_688_GAS_CALIB2_REG (·.par_g2) (fun s v => { s with par_g2 := v }),
     readS8 env BME_688_GAS_CALIB3_REG (·.par_g3) (fun s v => { s with par_g3 := v }),
     readU8 env BME_688_GAS_HEAT_RANGE_REG (·.res_heat_range)
       (fun s v => { s with res_heat_range := v }),
     readS8 env BME_688_GAS_HEAT_VAL_REG (·.res_heat_val)
       (fun s v => { s with res_heat_val := v })] s3)
  (s4.setHeatProfiles env).2

/-- The three configuration writes of `begin`, followed by `readCalibParams`. -/
def configure (env : Env) (s : BME688) (hum ctrl : ℕ) : BME688 :=
  (((s.i2c_execute BME_688_CTRL_MEAS_HUM_REG hum).i2c_execute BME_688_CTRL_MEAS_REG ctrl).i2c_execute
    BME_688_IIR_FILTER_REG BME_688_IIR_FILTER_C15).readCalibParams env

/-- Embeds `begin()`. -/
def begin (env : Env) (s : BME688) : Bool × BME688 :=
  let c := (s.emit Event.wireBegin).isConnected env
  let s1 := if c.1 then
      configure env c.2 c.2.hum_oss
        (((c.2.temp_oss <<< 5) ||| (c.2.press_oss <<< 2)) ||| BME_688_FORCED_MODE)
    else c.2.printLog Msg.CHECK_CONN_ERR
  s1.isConnected env

/-- Embeds `begin(uint8_t mode)`. -/
def beginMode (env : Env) (s : BME688) (mode : ℕ) : Bool × BME688 :=
  let c := (s.emit Event.wireBegin).isConnected env
  if c.1 then
    if mode ≤ BME_688_PARALLEL_MODE then
      (configure env c.2 BME_688_OSS_1
        (((BME_688_OSS_1 <<< 5) ||| (BME_688_OSS_1 <<< 2)) ||| mode)).isConnected env
    else (false, c.2.printLog Msg.VALUE_INVALID)
  else (c.2.printLog Msg.CHECK_CONN_ERR).isConnected env

/-- Embeds `begin(uint8_t mode, uint8_t oss)`. -/
def beginModeOss (env : Env) (s : BME688) (mode oss : ℕ) : Bool × BME688 :=
  let c := (s.emit Event.wireBegin).isConnected env
  if c.1 then
    if mode ≤ BME_688_PARALLEL_MODE ∧ oss ≤ BME_688_OSS_16 then
      (configure env c.2 oss (((oss <<< 5) ||| (oss <<< 2)) ||| mode)).isConnected env
    else (false, c.2.printLog Msg.VALUE_INVALID)
  else (c.2.printLog Msg.CHECK_CONN_ERR).isConnected env

end BME688

/-! ## Vocabulary of the specification -/

/-- The register writes of a transcript, in order: pairs of register and value. -/
def writes (tr : List Event) : List (ℕ × ℕ) :=
  tr.filterMap (fun e => match e with
    | Event.write r d => some (r, d)
    | _ => none)

/-- A device that behaves as a register file: a read of `len` bytes at `reg` returns the
registers `reg`, `reg + 1`, ...; the probe is answered by `ack`. -/
def regFile (regs : ℕ → ℕ) (ack : Bool) : Env where
  ack := fun _ => ack
  rx := fun _ reg len => (List.range len).map (fun i => regs (reg + i))
  ub := fun _ => 0

/-- A floating-point datum that is not a negative number. -/
def FP.NonNeg : FP → Prop
  | FP.fin v => 0 ≤ v
  | FP.nonfin => True

/-- The status byte that the completion check obtains when the transcript so far is `tr`:
the first byte received from the status register, or the initial 0 on a short read. -/
def statusByte (env : Env) (tr : List Event) : ℕ :=
  let rx := (env.rx tr BME_688_GAS_MEAS_STATUS_REG1 1).map (· % 256)
  if rx.length < 1 then 0 else rx.headD 0

/-- The transcript of `startGasMeasurement` up to the end of its delay. -/
def startedTrace (s : BME688) (profile waitTime : ℕ) : List Event :=
  s.trace ++ [Event.write BME_688_CTRL_GAS_REG (BME_688_GAS_RUN ||| (profile % 256)),
    Event.write BME_688_CTRL_MEAS_REG (s.mode % 256), Event.delay (waitTime % 256)]

/-- The state of `startGasMeasurement` once its delay has elapsed. -/
def startedState (s : BME688) (profile waitTime : ℕ) : BME688 :=
  ((s.i2c_execute BME_688_CTRL_GAS_REG (BME_688_GAS_RUN ||| (profile % 256))).i2c_execute
      BME_688_CTRL_MEAS_REG s.mode).emit (Event.delay (waitTime % 256))

/-- A device whose chip-ID register reads 0x61 but which does not acknowledge the probe. -/
def unackedDevice : Env := regFile (fun r => if r = BME_688_CHIP_ID_REG then 0x61 else 0) false

/-- A device whose registers 0xE2 and 0xE3 hold 0xAB and 0xC0. -/
def humCalibDevice : Env := regFile (fun r => if r = 0xE2 then 0xAB else if r = 0xE3 then 0xC0 else 0) true

/-- A device on which a gas measurement completes: status 0x30, gas registers 0x80, 0x40. -/
def gasDevice : Env :=
  regFile (fun r => if r = 0x2D then 0x30 else if r = 0x2C then 0x80 else 0x40) true

/-- The little-endian value of a byte sequence: the first byte is the least significant. -/
def leValue : List ℕ → ℕ
  | [] => 0
  | b :: bs => b + 256 * leValue bs

/-- The big-endian value of a byte sequence: the first byte is the most significant. -/
def beValue : List ℕ → ℕ
  | [] => 0
  | b :: bs => b * 256 ^ bs.length + beValue bs

/-- The numerator of the fine temperature over `2^30`, as an exact integer expression in the
raw code and the three temperature coefficients. -/
def tFineNum (adc t0 t1 t3 : ℤ) : ℤ := (adc - 16 * t0) * (t1 * 65536 + (adc - 16 * t0) * t3)

/-- The 10-bit gas ADC code that `startGasMeasurement` obtains when the transcript so far is
`tr`: the big-endian value of the two bytes received, shifted right by 6, or the initial 0
when the read is short. -/
def gasAdcRead (env : Env) (tr : List Event) : ℕ :=
  let rx := (env.rx tr BME_688_GAS_ADC_REG 2).map (· % 256)
  if rx.length = 2 then beValue rx >>> 6 else 0

/-- The range nibble that `startGasMeasurement` obtains when the transcript so far is `tr`:
the first byte received (0 on a short read) masked with 0x0F. -/
def gasRangeRead (env : Env) (tr : List Event) : ℕ :=
  let rx := (env.rx tr BME_688_GAS_RANGE_REG 1).map (· % 256)
  (if rx.length < 1 then 0 else rx.headD 0) &&& BME_688_GAS_RANGE_VAL_MASK

/-- A device on which a gas measurement completes with ADC code 513 and range 0: registers
0x2C and 0x2D hold 0x80 and 0x70. -/
def gasDevice513 : Env :=
  regFile (fun r => if r = 0x2C then 0x80 else if r = 0x2D then 0x70 else 0) true

/-- An instance with typical temperature coefficients loaded. -/
def calibrated : BME688 :=
  { BME688.fresh 0x76 with par_t16_0 := 26000, par_t16_1 := 26500, par_t3 := 3 }

/-- The operating configuration: the three oversampling settings, the mode and the safety
override. -/
def config (s : BME688) : ℕ × ℕ × ℕ × ℕ × Bool :=
  (s.temp_oss, s.press_oss, s.hum_oss, s.mode, s.allowHighTemps)

/-- A step of a read chain that leaves the operating configuration alone. -/
def KeepsConfig (f : BME688 → Bool × BME688) : Prop := ∀ s, config (f s).2 = config s

/-- The states a program can bring about: a fresh instance, then any sequence of the public
operations that the source defines, each on any device. -/
inductive Reachable : BME688 → Prop where
  | fresh (address : ℕ) : Reachable (BME688.fresh address)
  | begin (env : Env) (s : BME688) : Reachable s → Reachable (s.begin env).2
  | beginMode (env : Env) (s : BME688) (mode : ℕ) : Reachable s → Reachable (s.beginMode env mode).2
  | beginModeOss (env : Env) (s : BME688) (mode oss : ℕ) :
      Reachable s → Reachable (s.beginModeOss env mode oss).2
  | readTemperature (env : Env) (s : BME688) : Reachable s → Reachable (s.readTemperature env).2
  | readPressure (env : Env) (s : BME688) : Reachable s → Reachable (s.readPressure env).2
  | readHumidity (env : Env) (s : BME688) : Reachable s → Reachable (s.readHumidity env).2
  | readGasForTemperature (env : Env) (s : BME688) (t : ℕ) :
      Reachable s → Reachable (s.readGasForTemperature env t).2
  | readGas (env : Env) (s : BME688) (p : ℕ) : Reachable s → Reachable (s.readGas env p).2
  | showLogs (s : BME688) (b : Bool) : Reachable s → Reachable (s.showLogs b)
  | setTemperatureOversampling (s : BME688) (oss : ℕ) :
      Reachable s → Reachable (s.setTemperatureOversampling oss).2
  | ignoreUnsafeTemperatureWarnings (s : BME688) (b : Bool) :
      Reachable s → Reachable (s.ignoreUnsafeTemperatureWarnings b)
  | isConnected (env : Env) (s : BME688) : Reachable s → Reachable (s.isConnected env).2

/-- The state of an accepted `readGasForTemperature` just before it starts the measurement:
heater code computed, gas enable, wait code and heater code written. -/
def programmedState (env : Env) (s : BME688) (t : ℕ) : BME688 :=
  (((s.readUCGas env t).2.i2c_execute BME_688_CTRL_GAS_REG 0x20).i2c_execute
      BME_688_GAS_WAIT_PROFILE_REG (BME688.waitCode env (s.readUCGas env t).1 17)).i2c_execute
    BME_688_GAS_RES_HEAT_PROFILE_REG (s.readUCGas env t).1

/-- A finite value of magnitude at most `2 ^ k`. -/
def FP.Bdd (k : ℕ) : FP → Prop
  | FP.fin v => |v| ≤ 2 ^ k
  | FP.nonfin => False

/-- The fine temperature is finite, below `2 ^ 22` in magnitude, and the coefficients that the
pressure divisor and the temperature compensation read lie in the ranges of their C++ types. -/
def InRange (s : BME688) : Prop :=
  FP.Bdd 22 s.t_fine ∧
  (-32768 ≤ s.par_t16_0 ∧ s.par_t16_0 ≤ 32767) ∧
  (-32768 ≤ s.par_t16_1 ∧ s.par_t16_1 ≤ 32767) ∧
  (-128 ≤ s.par_t3 ∧ s.par_t3 ≤ 127) ∧
  (-128 ≤ s.par_p8_0 ∧ s.par_p8_0 ≤ 127) ∧
  (-32768 ≤ s.par_p16_1 ∧ s.par_p16_1 ≤ 32767)

/-- The stored fine temperature together with the coefficients that the temperature
compensation and the pressure divisor read. -/
def thermal (s : BME688) : FP × ℤ × ℤ × ℤ × ℤ × ℤ :=
  (s.t_fine, s.par_t16_0, s.par_t16_1, s.par_t3, s.par_p8_0, s.par_p16_1)

/-- A step of a read chain that keeps the state in range. -/
def KeepsInRange (f : BME688 → Bool × BME688) : Prop := ∀ s, InRange s → InRange (f s).2

/-- The chip-ID check of `isConnected` when the transcript so far is `tr`: after the probe and
the printing of its outcome one byte is requested from register 0xD0; the check passes when
a byte arrived and it is 0x61. -/
def chipIdCheck (env : Env) (tr : List Event) : Bool :=
  let rx := (env.rx (tr ++ [Event.probe, Event.printBool (env.ack tr)]) BME_688_CHIP_ID_REG 1).map
    (· % 256)
  !decide (rx.length < 1) && (rx.headD 0 == BME_688_CHIP_ID)

/-- The transcript of a `begin` overload once its connection check is done. -/
def connectedTrace (env : Env) (s : BME688) : List Event :=
  s.trace ++ [Event.wireBegin, Event.probe, Event.printBool (env.ack (s.trace ++ [Event.wireBegin])),
    Event.read BME_688_CHIP_ID_REG 1]

/-- A step of a read chain that only extends the transcript. -/
def ExtendsTrace (f : BME688 → Bool × BME688) : Prop := ∀ s, s.trace <+: (f s).2.trace

/-- A device that acknowledges the probe and whose chip-ID register reads 0x61. -/
def connectedDevice : Env := regFile (fun r => if r = BME_688_CHIP_ID_REG then 0x61 else 0) true

/-! ## Floating point: basic facts -/

theorem pow2_eq_zpow (e : ℤ) : pow2 e = (2 : ℚ) ^ e := by
  unfold pow2
  split_ifs with h
  · obtain ⟨n, rfl⟩ := Int.eq_ofNat_of_zero_le h
    simp
  · push_neg at h
    obtain ⟨n, hn⟩ := Int.exists_eq_neg_ofNat (le_of_lt h)
    subst hn
    simp

theorem pow2_pos (e : ℤ) : 0 < pow2 e := by
  rw [pow2_eq_zpow]; positivity

theorem roundHalfEven_floor_le (x : ℚ) : ⌊x⌋ ≤ roundHalfEven x := by
  unfold roundHalfEven
  simp only
  split_ifs <;> omega

theorem roundHalfEven_nonneg {x : ℚ} (hx : 0 ≤ x) : 0 ≤ roundHalfEven x :=
  le_trans (Int.floor_nonneg.mpr hx) (roundHalfEven_floor_le x)

theorem rnd_nonneg (F : Fmt) {x : ℚ} (hx : 0 ≤ x) : 0 ≤ F.rnd x := by
  unfold Fmt.rnd
  split_ifs with h0
  · exact le_refl _
  · simp only
    apply mul_nonneg
    · exact_mod_cast roundHalfEven_nonneg (div_nonneg hx (le_of_lt (pow2_pos _)))
    · exact le_of_lt (pow2_pos _)

theorem ofRat_nonneg (F : Fmt) {x : ℚ} (hx : 0 ≤ x) : (F.ofRat x).NonNeg := by
  unfold Fmt.ofRat
  simp only
  split_ifs
  · exact rnd_nonneg F hx
  · trivial

theorem castU8_lt (ub : FP → ℕ) (x : FP) : castU8 ub x < 256 := by
  unfold castU8
  cases x with
  | nonfin => exact Nat.mod_lt _ (by norm_num)
  | fin v =>
    simp only
    split_ifs with h
    · omega
    · exact Nat.mod_lt _ (by norm_num)

/-! ## Floating point: rounding -/

theorem bitLog_spec (fuel n : ℕ) (hf : n ≤ fuel) (hn : 1 ≤ n) :
    2 ^ bitLog fuel n ≤ n ∧ n < 2 ^ (bitLog fuel n + 1) := by
  induction fuel generalizing n with
  | zero => omega
  | succ f ih =>
    unfold bitLog
    split_ifs with h2
    · constructor <;> simp <;> omega
    · have h3 : 1 ≤ n / 2 := by omega
      have h4 : n / 2 ≤ f := by omega
      obtain ⟨a, b⟩ := ih (n / 2) h4 h3
      constructor
      · rw [pow_succ]; omega
      · rw [pow_succ]; omega

theorem ilog2_spec {x : ℚ} (hx : x ≠ 0) :
    (2 : ℚ) ^ ilog2 x ≤ |x| ∧ |x| < (2 : ℚ) ^ (ilog2 x + 1) := by
  have hnum : x.num ≠ 0 := Rat.num_ne_zero.mpr hx
  have ha : 1 ≤ x.num.natAbs := Nat.one_le_iff_ne_zero.mpr (Int.natAbs_ne_zero.mpr hnum)
  have hb : 1 ≤ x.den := x.den_pos
  obtain ⟨a1, a2⟩ := bitLog_spec x.num.natAbs x.num.natAbs le_rfl ha
  obtain ⟨b1, b2⟩ := bitLog_spec x.den x.den le_rfl hb
  set la := bitLog x.num.natAbs x.num.natAbs
  set lb := bitLog x.den x.den
  have habs : |x| = (x.num.natAbs : ℚ) / (x.den : ℚ) := by
    conv_lhs => rw [← Rat.num_div_den x]
    rw [abs_div, Nat.abs_cast]
    congr 1
    rw [← Int.cast_abs, Int.abs_eq_natAbs, Int.cast_natCast]
  have hbpos : (0 : ℚ) < x.den := by exact_mod_cast hb
  have a1' : (2 : ℚ) ^ la ≤ x.num.natAbs := by exact_mod_cast a1
  have a2' : (x.num.natAbs : ℚ) < 2 ^ (la + 1) := by exact_mod_cast a2
  have b1' : (2 : ℚ) ^ lb ≤ x.den := by exact_mod_cast b1
  have b2' : (x.den : ℚ) < 2 ^ (lb + 1) := by exact_mod_cast b2
  have hup : |x| < (2 : ℚ) ^ ((la : ℤ) - lb + 1) := by
    rw [habs, div_lt_iff₀ hbpos]
    have e : (2 : ℚ) ^ ((la : ℤ) - lb + 1) * 2 ^ lb = 2 ^ (la + 1) := by
      rw [← zpow_natCast (2 : ℚ) lb, ← zpow_add₀ (by norm_num : (2 : ℚ) ≠ 0),
        ← zpow_natCast (2 : ℚ) (la + 1)]
      congr 1; push_cast; ring
    calc (x.num.natAbs : ℚ) < 2 ^ (la + 1) := a2'
      _ = (2 : ℚ) ^ ((la : ℤ) - lb + 1) * 2 ^ lb := e.symm
      _ ≤ (2 : ℚ) ^ ((la : ℤ) - lb + 1) * x.den := by
          apply mul_le_mul_of_nonneg_left b1'; positivity
  have hlo : (2 : ℚ) ^ ((la : ℤ) - lb - 1) ≤ |x| := by
    rw [habs, le_div_iff₀ hbpos]
    have e : (2 : ℚ) ^ ((la : ℤ) - lb - 1) * 2 ^ (lb + 1) = 2 ^ la := by
      rw [← zpow_natCast (2 : ℚ) (lb + 1), ← zpow_add₀ (by norm_num : (2 : ℚ) ≠ 0),
        ← zpow_natCast (2 : ℚ) la]
      congr 1; push_cast; ring
    calc (2 : ℚ) ^ ((la : ℤ) - lb - 1) * x.den
        ≤ (2 : ℚ) ^ ((la : ℤ) - lb - 1) * 2 ^ (lb + 1) := by
          apply mul_le_mul_of_nonneg_left (le_of_lt b2'); positivity
      _ = 2 ^ la := e
      _ ≤ x.num.natAbs := a1'
  unfold ilog2
  simp only [pow2_eq_zpow]
  split_ifs with h
  · exact ⟨h, hup⟩
  · push_neg at h
    refine ⟨hlo, ?_⟩
    have : (la : ℤ) - lb - 1 + 1 = (la : ℤ) - lb := by ring
    rw [this]; exact h

theorem ilog2_unique {x : ℚ} {k : ℤ} (h1 : (2 : ℚ) ^ k ≤ |x|) (h2 : |x| < (2 : ℚ) ^ (k + 1)) :
    ilog2 x = k := by
  have hx : x ≠ 0 := by
    intro h; rw [h, abs_zero] at h1
    exact absurd h1 (not_le.mpr (by positivity))
  obtain ⟨s1, s2⟩ := ilog2_spec hx
  have two : (1 : ℚ) < 2 := by norm_num
  have c1 : k < ilog2 x + 1 := (zpow_lt_zpow_iff_right₀ two).mp (lt_of_le_of_lt h1 s2)
  have c2 : ilog2 x < k + 1 := (zpow_lt_zpow_iff_right₀ two).mp (lt_of_le_of_lt s1 h2)
  omega

theorem roundHalfEven_spec (x : ℚ) :
    |x - roundHalfEven x| < 1 / 2 ∨
      (|x - roundHalfEven x| = 1 / 2 ∧ roundHalfEven x % 2 = 0) := by
  have h1 := Int.floor_le x
  have h2 := Int.lt_floor_add_one x
  unfold roundHalfEven
  simp only
  split_ifs with a b c
  · left; rw [abs_lt]; constructor <;> linarith
  · left; push_cast; rw [abs_lt]; constructor <;> linarith
  · right
    have hr : x - ⌊x⌋ = 1 / 2 := le_antisymm (not_lt.mp b) (not_lt.mp a)
    exact ⟨by rw [hr]; norm_num, c⟩
  · right
    have hr : x - ⌊x⌋ = 1 / 2 := le_antisymm (not_lt.mp b) (not_lt.mp a)
    refine ⟨?_, by omega⟩
    push_cast
    have : x - (⌊x⌋ + 1) = -(1 / 2) := by linarith
    rw [this]; norm_num

theorem roundHalfEven_eq {x : ℚ} {n : ℤ}
    (h : |x - n| < 1 / 2 ∨ (|x - n| = 1 / 2 ∧ n % 2 = 0)) : roundHalfEven x = n := by
  rcases roundHalfEven_spec x with s | ⟨s1, s2⟩ <;> rcases h with h | ⟨h1, h2⟩
  · -- both strictly within 1/2
    have : |((roundHalfEven x : ℤ) : ℚ) - n| < 1 := by
      have e : ((roundHalfEven x : ℤ) : ℚ) - n = (x - n) - (x - roundHalfEven x) := by ring
      rw [e]
      calc |(x - n) - (x - roundHalfEven x)| ≤ |x - n| + |x - roundHalfEven x| := abs_sub _ _
        _ < 1 := by linarith
    have : |roundHalfEven x - n| < 1 := by exact_mod_cast this
    rw [abs_lt] at this; omega
  · -- x is a tie for n but strictly closer to the rounded value: impossible unless equal
    rw [abs_lt] at s
    rcases abs_eq (by norm_num : (0:ℚ) ≤ 1/2) |>.mp h1 with e | e
    · have a1 : ((roundHalfEven x : ℤ) : ℚ) - n < 1 := by linarith
      have a2 : (0 : ℚ) < ((roundHalfEven x : ℤ) : ℚ) - n := by linarith
      have b1 : roundHalfEven x - n < 1 := by exact_mod_cast a1
      have b2 : 0 < roundHalfEven x - n := by exact_mod_cast a2
      omega
    · have a1 : ((roundHalfEven x : ℤ) : ℚ) - n < 0 := by linarith
      have a2 : (-1 : ℚ) < ((roundHalfEven x : ℤ) : ℚ) - n := by linarith
      have b1 : roundHalfEven x - n < 0 := by exact_mod_cast a1
      have b2 : -1 < roundHalfEven x - n := by exact_mod_cast a2
      omega
  · rw [abs_lt] at h
    rcases abs_eq (by norm_num : (0:ℚ) ≤ 1/2) |>.mp s1 with e | e
    · have a1 : (n : ℚ) - roundHalfEven x < 1 := by linarith
      have a2 : (0 : ℚ) < (n : ℚ) - roundHalfEven x := by linarith
      have b1 : n - roundHalfEven x < 1 := by exact_mod_cast a1
      have b2 : 0 < n - roundHalfEven x := by exact_mod_cast a2
      omega
    · have a1 : (n : ℚ) - roundHalfEven x < 0 := by linarith
      have a2 : (-1 : ℚ) < (n : ℚ) - roundHalfEven x := by linarith
      have b1 : n - roundHalfEven x < 0 := by exact_mod_cast a1
      have b2 : -1 < n - roundHalfEven x := by exact_mod_cast a2
      omega
  · -- both ties, both even: the two integers differ by at most one and have equal parity
    rcases abs_eq (by norm_num : (0:ℚ) ≤ 1/2) |>.mp s1 with e | e <;>
    rcases abs_eq (by norm_num : (0:ℚ) ≤ 1/2) |>.mp h1 with e' | e'
    · have : ((roundHalfEven x : ℤ) : ℚ) = n := by linarith
      exact_mod_cast this
    · have : ((roundHalfEven x : ℤ) : ℚ) = n - 1 := by linarith
      have : roundHalfEven x = n - 1 := by exact_mod_cast this
      omega
    · have : ((roundHalfEven x : ℤ) : ℚ) = n + 1 := by linarith
      have : roundHalfEven x = n + 1 := by exact_mod_cast this
      omega
    · have : ((roundHalfEven x : ℤ) : ℚ) = n := by linarith
      exact_mod_cast this

theorem roundHalfEven_intCast (n : ℤ) : roundHalfEven (n : ℚ) = n :=
  roundHalfEven_eq (Or.inl (by simp))

theorem roundHalfEven_neg (x : ℚ) : roundHalfEven (-x) = -roundHalfEven x := by
  apply roundHalfEven_eq
  have e : -x - ((-roundHalfEven x : ℤ) : ℚ) = -(x - roundHalfEven x) := by push_cast; ring
  rw [e, abs_neg]
  rcases roundHalfEven_spec x with s | ⟨s1, s2⟩
  · exact Or.inl s
  · exact Or.inr ⟨s1, by omega⟩

theorem abs_sub_roundHalfEven_le (x : ℚ) : |x - roundHalfEven x| ≤ 1 / 2 := by
  rcases roundHalfEven_spec x with s | ⟨s1, _⟩
  · exact le_of_lt s
  · exact le_of_eq s1

theorem ilog2_neg (x : ℚ) : ilog2 (-x) = ilog2 x := by
  unfold ilog2
  simp [Rat.neg_num, Rat.neg_den]

theorem rnd_neg (F : Fmt) (x : ℚ) : F.rnd (-x) = -F.rnd x := by
  unfold Fmt.rnd
  by_cases h : x = 0
  · simp [h]
  · have h' : -x ≠ 0 := neg_ne_zero.mpr h
    simp only [h, h', if_false, ilog2_neg, neg_div, roundHalfEven_neg]
    push_cast; ring

/-- Rounding at a known exponent. -/
theorem rnd_eq_of_ilog2 (F : Fmt) {x : ℚ} {k : ℤ} (h1 : (2 : ℚ) ^ k ≤ |x|)
    (h2 : |x| < (2 : ℚ) ^ (k + 1)) :
    F.rnd x = (roundHalfEven (x / 2 ^ (max (k - ((F.prec : ℤ) - 1)) F.emin)) : ℚ) *
      2 ^ (max (k - ((F.prec : ℤ) - 1)) F.emin) := by
  have hx : x ≠ 0 := by
    intro h; rw [h, abs_zero] at h1
    exact absurd h1 (not_le.mpr (by positivity))
  unfold Fmt.rnd
  simp only [hx, if_false, ilog2_unique h1 h2, pow2_eq_zpow]

/-- A value with a short enough significand is not changed by rounding. -/
theorem rnd_exact (F : Fmt) (m e : ℤ) (hm : |m| < 2 ^ F.prec) (he : F.emin ≤ e) :
    F.rnd ((m : ℚ) * 2 ^ e) = (m : ℚ) * 2 ^ e := by
  by_cases h0 : m = 0
  · simp [h0, Fmt.rnd]
  have hx : (m : ℚ) * 2 ^ e ≠ 0 := by
    apply mul_ne_zero
    · exact_mod_cast h0
    · positivity
  obtain ⟨s1, s2⟩ := ilog2_spec hx
  have two : (1 : ℚ) < 2 := by norm_num
  have habs : |(m : ℚ) * 2 ^ e| < (2 : ℚ) ^ ((F.prec : ℤ) + e) := by
    rw [abs_mul, abs_of_pos (by positivity : (0 : ℚ) < 2 ^ e), zpow_add₀ (by norm_num : (2:ℚ) ≠ 0)]
    apply mul_lt_mul_of_pos_right _ (by positivity)
    rw [zpow_natCast]
    exact_mod_cast hm
  have hE : ilog2 ((m : ℚ) * 2 ^ e) < (F.prec : ℤ) + e :=
    (zpow_lt_zpow_iff_right₀ two).mp (lt_of_le_of_lt s1 habs)
  have hle : max (ilog2 ((m : ℚ) * 2 ^ e) - ((F.prec : ℤ) - 1)) F.emin ≤ e :=
    max_le (by omega) he
  obtain ⟨d, hd⟩ := Int.eq_ofNat_of_zero_le (sub_nonneg.mpr hle)
  unfold Fmt.rnd
  simp only [hx, if_false, pow2_eq_zpow]
  set e0 := max (ilog2 ((m : ℚ) * 2 ^ e) - ((F.prec : ℤ) - 1)) F.emin with he0
  have hq : (m : ℚ) * 2 ^ e / 2 ^ e0 = ((m * 2 ^ d : ℤ) : ℚ) := by
    have : e = e0 + d := by omega
    rw [this, zpow_add₀ (by norm_num : (2:ℚ) ≠ 0)]
    push_cast
    field_simp
    ring
  rw [hq, roundHalfEven_intCast, ← hq]
  field_simp

/-- The rounding error is at most half a unit in the last place. -/
theorem rnd_error (F : Fmt) {x : ℚ} (hx : x ≠ 0) :
    |x - F.rnd x| ≤ 2 ^ (max (ilog2 x - ((F.prec : ℤ) - 1)) F.emin) / 2 := by
  unfold Fmt.rnd
  simp only [hx, if_false, pow2_eq_zpow]
  set e0 := max (ilog2 x - ((F.prec : ℤ) - 1)) F.emin
  have hp : (0 : ℚ) < 2 ^ e0 := by positivity
  have h := abs_sub_roundHalfEven_le (x / 2 ^ e0)
  have e : x - (roundHalfEven (x / 2 ^ e0) : ℚ) * 2 ^ e0 =
      (x / 2 ^ e0 - roundHalfEven (x / 2 ^ e0)) * 2 ^ e0 := by
    field_simp
    ring
  rw [e, abs_mul, abs_of_pos hp]
  calc |x / 2 ^ e0 - ↑(roundHalfEven (x / 2 ^ e0))| * 2 ^ e0 ≤ 1 / 2 * 2 ^ e0 :=
        mul_le_mul_of_nonneg_right h (le_of_lt hp)
    _ = 2 ^ e0 / 2 := by ring

/-- A crude bound on the magnitude of a rounded value. -/
theorem rnd_abs_le (F : Fmt) (hp : 1 ≤ F.prec) (x : ℚ) :
    |F.rnd x| ≤ 2 * |x| + 2 ^ F.emin := by
  by_cases hx : x = 0
  · simp [hx, Fmt.rnd]; positivity
  have herr := rnd_error F hx
  obtain ⟨s1, _⟩ := ilog2_spec hx
  have two : (1 : ℚ) ≤ 2 := by norm_num
  have hmax : (2 : ℚ) ^ (max (ilog2 x - ((F.prec : ℤ) - 1)) F.emin) ≤ |x| + 2 ^ F.emin := by
    rcases max_cases (ilog2 x - ((F.prec : ℤ) - 1)) F.emin with ⟨h, _⟩ | ⟨h, _⟩
    · rw [h]
      have : (2 : ℚ) ^ (ilog2 x - ((F.prec : ℤ) - 1)) ≤ 2 ^ ilog2 x :=
        zpow_le_zpow_right₀ two (by omega)
      have : (0 : ℚ) < 2 ^ F.emin := by positivity
      linarith
    · rw [h]
      have := abs_nonneg x
      linarith
  have h1 : |F.rnd x| ≤ |x| + |x - F.rnd x| := by
    have : F.rnd x = x - (x - F.rnd x) := by ring
    calc |F.rnd x| = |x - (x - F.rnd x)| := by rw [← this]
      _ ≤ |x| + |x - F.rnd x| := abs_sub _ _
  have := abs_nonneg x
  have : (0 : ℚ) < 2 ^ F.emin := by positivity
  linarith

theorem ofRat_eq_of_lt (F : Fmt) {x : ℚ} (h : |F.rnd x| < 2 ^ F.emax) :
    F.ofRat x = FP.fin (F.rnd x) := by
  unfold Fmt.ofRat
  simp only [pow2_eq_zpow, h, if_true]

/-- A representable value below the overflow threshold is converted exactly. -/
theorem ofRat_exact (F : Fmt) (m e : ℤ) (hm : |m| < 2 ^ F.prec) (he : F.emin ≤ e)
    (hlt : |(m : ℚ) * 2 ^ e| < 2 ^ F.emax) : F.ofRat ((m : ℚ) * 2 ^ e) = FP.fin ((m : ℚ) * 2 ^ e) := by
  have := rnd_exact F m e hm he
  rw [ofRat_eq_of_lt F (by rw [this]; exact hlt), this]

/-- An integer with a short enough significand is converted exactly. -/
theorem ofInt_exact (F : Fmt) (n : ℤ) (hn : |n| < 2 ^ F.prec) (he : F.emin ≤ 0)
    (hmax : (F.prec : ℤ) ≤ F.emax) : F.ofInt n = FP.fin (n : ℚ) := by
  have h := ofRat_exact F n 0 hn he (by
    rw [zpow_zero, mul_one]
    have h1 : |(n : ℚ)| < 2 ^ F.prec := by exact_mod_cast hn
    calc |(n : ℚ)| < 2 ^ F.prec := h1
      _ = (2 : ℚ) ^ (F.prec : ℤ) := (zpow_natCast _ _).symm
      _ ≤ 2 ^ F.emax := zpow_le_zpow_right₀ (by norm_num) hmax)
  simpa [Fmt.ofInt] using h

/-- Every rounded value has a significand of at most `prec` bits. -/
theorem rnd_repr (F : Fmt) (hp : 1 ≤ F.prec) (x : ℚ) :
    ∃ m e : ℤ, |m| < 2 ^ F.prec ∧ F.emin ≤ e ∧ F.rnd x = (m : ℚ) * 2 ^ e := by
  by_cases hx : x = 0
  · exact ⟨0, F.emin, by simp, le_refl _, by simp [hx, Fmt.rnd]⟩
  obtain ⟨_, s2⟩ := ilog2_spec hx
  set e0 := max (ilog2 x - ((F.prec : ℤ) - 1)) F.emin with he0
  have hp0 : (0 : ℚ) < 2 ^ e0 := by positivity
  have hr : F.rnd x = (roundHalfEven (x / 2 ^ e0) : ℚ) * 2 ^ e0 := by
    unfold Fmt.rnd
    simp only [hx, if_false, pow2_eq_zpow]
  have hy : |x / 2 ^ e0| < 2 ^ F.prec := by
    rw [abs_div, abs_of_pos hp0, div_lt_iff₀ hp0, ← zpow_natCast, ← zpow_add₀ (by norm_num : (2:ℚ) ≠ 0)]
    calc |x| < 2 ^ (ilog2 x + 1) := s2
      _ ≤ 2 ^ ((F.prec : ℤ) + e0) := zpow_le_zpow_right₀ (by norm_num) (by
          have : ilog2 x - ((F.prec : ℤ) - 1) ≤ e0 := le_max_left _ _
          omega)
  set n := roundHalfEven (x / 2 ^ e0) with hn
  have hnle : |n| ≤ 2 ^ F.prec := by
    have h1 := abs_sub_roundHalfEven_le (x / 2 ^ e0)
    have h2 : |(n : ℚ)| ≤ |x / 2 ^ e0| + |x / 2 ^ e0 - n| := by
      have : (n : ℚ) = x / 2 ^ e0 - (x / 2 ^ e0 - n) := by ring
      calc |(n : ℚ)| = |x / 2 ^ e0 - (x / 2 ^ e0 - n)| := by rw [← this]
        _ ≤ _ := abs_sub _ _
    have h3 : |(n : ℚ)| < 2 ^ F.prec + 1 := by linarith
    have h4 : |n| < 2 ^ F.prec + 1 := by exact_mod_cast h3
    omega
  rcases lt_or_eq_of_le hnle with h | h
  · exact ⟨n, e0, h, le_max_right _ _, hr⟩
  · obtain ⟨q, hq⟩ : ∃ q, F.prec = q + 1 := ⟨F.prec - 1, by omega⟩
    have hpow : (2 : ℤ) ^ F.prec = 2 * 2 ^ q := by rw [hq, pow_succ]; ring
    rcases abs_eq (by positivity : (0 : ℤ) ≤ 2 ^ F.prec) |>.mp h with h' | h'
    · refine ⟨2 ^ q, e0 + 1, ?_, ?_, ?_⟩
      · rw [abs_of_pos (by positivity), hpow]
        have : (0 : ℤ) < 2 ^ q := by positivity
        omega
      · have := le_max_right (ilog2 x - ((F.prec : ℤ) - 1)) F.emin
        omega
      · rw [hr, h', hpow, zpow_add₀ (by norm_num : (2:ℚ) ≠ 0)]
        push_cast; ring
    · refine ⟨-2 ^ q, e0 + 1, ?_, ?_, ?_⟩
      · rw [abs_neg, abs_of_pos (by positivity), hpow]
        have : (0 : ℤ) < 2 ^ q := by positivity
        omega
      · have := le_max_right (ilog2 x - ((F.prec : ℤ) - 1)) F.emin
        omega
      · rw [hr, h', hpow, zpow_add₀ (by norm_num : (2:ℚ) ≠ 0)]
        push_cast; ring

/-- Widening `float` to `double` is exact. -/
theorem conv_binary32_to_binary64 {x : ℚ} (h : |binary32.rnd x| < 2 ^ binary32.emax) :
    binary64.conv (FP.fin (binary32.rnd x)) = FP.fin (binary32.rnd x) := by
  obtain ⟨m, e, hm, he, hr⟩ := rnd_repr binary32 (by decide) x
  rw [hr] at h ⊢
  unfold Fmt.conv
  apply ofRat_exact
  · calc |m| < 2 ^ binary32.prec := hm
      _ ≤ 2 ^ binary64.prec := by norm_num [binary32, binary64]
  · have : binary64.emin ≤ binary32.emin := by decide
    omega
  · calc |(m : ℚ) * 2 ^ e| < 2 ^ binary32.emax := h
      _ ≤ 2 ^ binary64.emax := zpow_le_zpow_right₀ (by norm_num) (by decide)

/-- Rounding to the nearest multiple, ties to even, of a value within half a unit of an even
or strictly nearer integer. -/
theorem roundHalfEven_eq_of_le {x : ℚ} {n : ℤ} (h : |x - n| ≤ 1 / 2) (hn : n % 2 = 0) :
    roundHalfEven x = n := by
  rcases lt_or_eq_of_le h with h | h
  · exact roundHalfEven_eq (Or.inl h)
  · exact roundHalfEven_eq (Or.inr ⟨h, hn⟩)

/-- Dividing by 5120 and multiplying back, both rounded, returns a positive value whose
significand has a bit to spare. -/
theorem div_mul_5120_pos (F : Fmt) (hp : 3 ≤ F.prec) (N k : ℤ) (hN0 : 0 < N)
    (hN : N < 2 ^ (F.prec - 1)) (hk : F.emin + F.prec + 12 ≤ k) :
    F.rnd (F.rnd ((N : ℚ) * 2 ^ k / 5120) * 5120) = (N : ℚ) * 2 ^ k := by
  have two0 : (2 : ℚ) ≠ 0 := by norm_num
  have two1 : (1 : ℚ) < 2 := by norm_num
  have hNq : (0 : ℚ) < N := by exact_mod_cast hN0
  set v : ℚ := (N : ℚ) * 2 ^ k / 5120 with hv
  have hvpos : 0 < v := by positivity
  have hvne : v ≠ 0 := ne_of_gt hvpos
  obtain ⟨s1, s2⟩ := ilog2_spec hvne
  rw [abs_of_pos hvpos] at s1 s2
  set E := ilog2 v with hE
  -- no underflow
  have hElow : k - 13 ≤ E := by
    have h1 : (2 : ℚ) ^ (k - 13) ≤ v := by
      have e : (2 : ℚ) ^ (k - 13) = 2 ^ k / 8192 := by
        rw [zpow_sub₀ two0]; norm_num
      rw [e, hv]
      have hN1 : (1 : ℚ) ≤ N := by exact_mod_cast hN0
      have : (0 : ℚ) < 2 ^ k := by positivity
      rw [div_le_div_iff₀ (by norm_num) (by norm_num)]
      nlinarith
    have := (zpow_lt_zpow_iff_right₀ two1).mp (lt_of_le_of_lt h1 s2)
    omega
  set e1 := E - ((F.prec : ℤ) - 1) with he1
  have hmax1 : max (E - ((F.prec : ℤ) - 1)) F.emin = e1 := max_eq_left (by omega)
  have hq : F.rnd v = (roundHalfEven (v / 2 ^ e1) : ℚ) * 2 ^ e1 := by
    have := rnd_eq_of_ilog2 F (x := v) (k := E) (by rwa [abs_of_pos hvpos])
      (by rwa [abs_of_pos hvpos])
    rw [hmax1] at this; exact this
  -- the scaled quotient
  set Y : ℚ := v / 2 ^ e1 with hY
  have hpe1 : (0 : ℚ) < 2 ^ e1 := by positivity
  have hY1 : (2 : ℚ) ^ (F.prec - 1) ≤ Y := by
    rw [hY, le_div_iff₀ hpe1, ← zpow_natCast, ← zpow_add₀ two0]
    have : ((F.prec - 1 : ℕ) : ℤ) + e1 = E := by omega
    rw [this]; exact s1
  have hY2 : Y < (2 : ℚ) ^ F.prec := by
    rw [hY, div_lt_iff₀ hpe1, ← zpow_natCast, ← zpow_add₀ two0]
    have : (F.prec : ℤ) + e1 = E + 1 := by omega
    rw [this]; exact s2
  set t := k - 10 - e1 with ht
  have hYt : Y = (N : ℚ) * 2 ^ t / 5 := by
    have e : (2 : ℚ) ^ k = 2 ^ t * 2 ^ e1 * 1024 := by
      have : k = t + e1 + 10 := by omega
      rw [this, zpow_add₀ two0, zpow_add₀ two0]; norm_num
    rw [hY, hv, e]; field_simp; ring
  have ht3 : 3 ≤ t := by
    by_contra hlt
    push_neg at hlt
    have h4 : (2 : ℚ) ^ t ≤ 2 ^ (2 : ℤ) := zpow_le_zpow_right₀ (le_of_lt two1) (by omega)
    have hNlt : (N : ℚ) < 2 ^ (F.prec - 1) := by exact_mod_cast hN
    have : Y ≤ (N : ℚ) * 4 / 5 := by
      rw [hYt]
      have : (2 : ℚ) ^ (2 : ℤ) = 4 := by norm_num
      have : (N : ℚ) * 2 ^ t ≤ N * 4 := by nlinarith
      linarith
    linarith
  obtain ⟨t', ht'⟩ := Int.eq_ofNat_of_zero_le (show 0 ≤ t - 3 by omega)
  have htt : t = (t' : ℤ) + 3 := by omega
  have h2t : (2 : ℚ) ^ t = 8 * 2 ^ t' := by
    rw [htt, zpow_add₀ two0, zpow_natCast]; norm_num; ring
  set K := roundHalfEven Y with hK
  -- five times the rounded quotient is within 2 of M = N * 2^t
  have hKY := abs_sub_roundHalfEven_le Y
  have hr : |5 * K - N * (8 * 2 ^ t')| ≤ 2 := by
    have h1 : |(5 : ℚ) * K - N * (8 * 2 ^ t')| ≤ 5 / 2 := by
      have e : (5 : ℚ) * K - N * (8 * 2 ^ t') = -5 * (Y - K) := by
        rw [hYt, h2t]; ring
      rw [e, abs_mul]; norm_num
      linarith
    have h2 : ((|5 * K - N * (8 * 2 ^ t')| : ℤ) : ℚ) < 3 := by
      push_cast; linarith
    have h3 : |5 * K - N * (8 * 2 ^ t')| < 3 := by exact_mod_cast h2
    omega
  -- bounds on M
  have hM1 : (5 : ℤ) * 2 ^ (F.prec - 1) ≤ N * (8 * 2 ^ t') := by
    have : (5 : ℚ) * 2 ^ (F.prec - 1) ≤ N * (8 * 2 ^ t') := by
      have := hY1; rw [hYt, h2t] at this; linarith
    exact_mod_cast this
  have hM2 : N * (8 * 2 ^ t') < 5 * 2 ^ F.prec := by
    have : (N : ℚ) * (8 * 2 ^ t') < 5 * 2 ^ F.prec := by
      have := hY2; rw [hYt, h2t] at this; linarith
    exact_mod_cast this
  obtain ⟨p', hp'⟩ : ∃ p', F.prec = p' + 3 := ⟨F.prec - 3, by omega⟩
  have hpow1 : (2 : ℤ) ^ (F.prec - 1) = 4 * 2 ^ p' := by
    have : F.prec - 1 = p' + 2 := by omega
    rw [this, pow_add]; ring
  have hpow0 : (2 : ℤ) ^ F.prec = 8 * 2 ^ p' := by
    rw [hp', pow_add]; ring
  have hp'pos : (1 : ℤ) ≤ 2 ^ p' := by
    have : (0 : ℤ) < 2 ^ p' := by positivity
    omega
  rw [hpow1] at hM1
  rw [hpow0] at hM2
  rw [abs_le] at hr
  -- the product
  have hw : F.rnd v * 5120 = ((5 * K : ℤ) : ℚ) * 2 ^ (e1 + 10) := by
    rw [hq, zpow_add₀ two0]; push_cast; norm_num; ring
  rw [hw]
  have h5Kpos : (0 : ℚ) < ((5 * K : ℤ) : ℚ) := by
    have : (0 : ℤ) < 5 * K := by omega
    exact_mod_cast this
  have hwpos : (0 : ℚ) < ((5 * K : ℤ) : ℚ) * 2 ^ (e1 + 10) := by positivity
  have hfinal : (N : ℚ) * 2 ^ k = (N : ℚ) * (8 * 2 ^ t') * 2 ^ (e1 + 10) := by
    have : k = t + (e1 + 10) := by omega
    rw [this, zpow_add₀ two0, h2t]; ring
  have hpowq (j : ℕ) : (2 : ℚ) ^ ((F.prec : ℤ) + j) = ((2 ^ j * (8 * 2 ^ p') : ℤ) : ℚ) := by
    rw [hp', zpow_add₀ two0, zpow_natCast, zpow_natCast, pow_add]; push_cast; ring
  have he1min : F.emin ≤ e1 := by omega
  by_cases hcase : 5 * K < 32 * 2 ^ p'
  · -- the product lies in the binade [2^(p+1), 2^(p+2))
    have hb1 : (2 : ℚ) ^ ((F.prec : ℤ) + 1 + (e1 + 10)) ≤ |((5 * K : ℤ) : ℚ) * 2 ^ (e1 + 10)| := by
      rw [abs_of_pos hwpos, zpow_add₀ two0]
      apply mul_le_mul_of_nonneg_right _ (by positivity)
      have h := hpowq 1
      simp only [Nat.cast_one] at h
      rw [h]
      have : (2 ^ 1 * (8 * 2 ^ p') : ℤ) ≤ 5 * K := by omega
      exact_mod_cast this
    have hb2 : |((5 * K : ℤ) : ℚ) * 2 ^ (e1 + 10)| < (2 : ℚ) ^ ((F.prec : ℤ) + 1 + (e1 + 10) + 1) := by
      have e : (2 : ℚ) ^ ((F.prec : ℤ) + 1 + (e1 + 10) + 1) =
          2 ^ ((F.prec : ℤ) + 2) * 2 ^ (e1 + 10) := by
        rw [← zpow_add₀ two0]; congr 1; ring
      rw [abs_of_pos hwpos, e]
      apply mul_lt_mul_of_pos_right _ (by positivity)
      have h := hpowq 2
      simp only [Nat.cast_ofNat] at h
      rw [h]
      have : 5 * K < (2 ^ 2 * (8 * 2 ^ p') : ℤ) := by omega
      exact_mod_cast this
    rw [rnd_eq_of_ilog2 F hb1 hb2]
    have hmax2 : max ((F.prec : ℤ) + 1 + (e1 + 10) - ((F.prec : ℤ) - 1)) F.emin = e1 + 12 := by
      rw [max_eq_left (by omega)]; ring
    rw [hmax2]
    have hdiv : ((5 * K : ℤ) : ℚ) * 2 ^ (e1 + 10) / 2 ^ (e1 + 12) = ((5 * K : ℤ) : ℚ) / 4 := by
      have : (2 : ℚ) ^ (e1 + 12) = 2 ^ (e1 + 10) * 4 := by
        have : e1 + 12 = (e1 + 10) + 2 := by ring
        rw [this, zpow_add₀ two0]; norm_num
      rw [this]; field_simp; ring
    rw [hdiv]
    have hn : roundHalfEven (((5 * K : ℤ) : ℚ) / 4) = 2 * (N * 2 ^ t') := by
      apply roundHalfEven_eq_of_le
      · have e : ((5 * K : ℤ) : ℚ) / 4 - ((2 * (N * 2 ^ t') : ℤ) : ℚ) =
            ((5 * K - N * (8 * 2 ^ t') : ℤ) : ℚ) / 4 := by push_cast; ring
        rw [e, abs_div]
        have h1 : |((5 * K - N * (8 * 2 ^ t') : ℤ) : ℚ)| ≤ 2 := by
          rw [abs_le]; constructor
          · exact_mod_cast hr.1
          · exact_mod_cast hr.2
        have : |(4 : ℚ)| = 4 := by norm_num
        rw [this]; linarith
      · exact Int.mul_emod_right _ _
    rw [hn, hfinal]
    have : (2 : ℚ) ^ (e1 + 12) = 2 ^ (e1 + 10) * 4 := by
      have : e1 + 12 = (e1 + 10) + 2 := by ring
      rw [this, zpow_add₀ two0]; norm_num
    rw [this]; push_cast; ring
  · -- the product lies in the binade [2^(p+2), 2^(p+3))
    push_neg at hcase
    have hb1 : (2 : ℚ) ^ ((F.prec : ℤ) + 2 + (e1 + 10)) ≤ |((5 * K : ℤ) : ℚ) * 2 ^ (e1 + 10)| := by
      rw [abs_of_pos hwpos, zpow_add₀ two0]
      apply mul_le_mul_of_nonneg_right _ (by positivity)
      have h := hpowq 2
      simp only [Nat.cast_ofNat] at h
      rw [h]
      have : (2 ^ 2 * (8 * 2 ^ p') : ℤ) ≤ 5 * K := by omega
      exact_mod_cast this
    have hb2 : |((5 * K : ℤ) : ℚ) * 2 ^ (e1 + 10)| < (2 : ℚ) ^ ((F.prec : ℤ) + 2 + (e1 + 10) + 1) := by
      have e : (2 : ℚ) ^ ((F.prec : ℤ) + 2 + (e1 + 10) + 1) =
          2 ^ ((F.prec : ℤ) + 3) * 2 ^ (e1 + 10) := by
        rw [← zpow_add₀ two0]; congr 1; ring
      rw [abs_of_pos hwpos, e]
      apply mul_lt_mul_of_pos_right _ (by positivity)
      have h := hpowq 3
      simp only [Nat.cast_ofNat] at h
      rw [h]
      have : 5 * K < (2 ^ 3 * (8 * 2 ^ p') : ℤ) := by omega
      exact_mod_cast this
    rw [rnd_eq_of_ilog2 F hb1 hb2]
    have hmax2 : max ((F.prec : ℤ) + 2 + (e1 + 10) - ((F.prec : ℤ) - 1)) F.emin = e1 + 13 := by
      rw [max_eq_left (by omega)]; ring
    rw [hmax2]
    have hpw : (2 : ℚ) ^ (e1 + 13) = 2 ^ (e1 + 10) * 8 := by
      have : e1 + 13 = (e1 + 10) + 3 := by ring
      rw [this, zpow_add₀ two0]; norm_num
    have hdiv : ((5 * K : ℤ) : ℚ) * 2 ^ (e1 + 10) / 2 ^ (e1 + 13) = ((5 * K : ℤ) : ℚ) / 8 := by
      rw [hpw]; field_simp; ring
    rw [hdiv]
    have hn : roundHalfEven (((5 * K : ℤ) : ℚ) / 8) = N * 2 ^ t' := by
      apply roundHalfEven_eq
      left
      have e : ((5 * K : ℤ) : ℚ) / 8 - ((N * 2 ^ t' : ℤ) : ℚ) =
          ((5 * K - N * (8 * 2 ^ t') : ℤ) : ℚ) / 8 := by push_cast; ring
      rw [e, abs_div]
      have h1 : |((5 * K - N * (8 * 2 ^ t') : ℤ) : ℚ)| ≤ 2 := by
        rw [abs_le]; constructor
        · exact_mod_cast hr.1
        · exact_mod_cast hr.2
      have : |(8 : ℚ)| = 8 := by norm_num
      rw [this]; linarith
    rw [hn, hfinal, hpw]; push_cast; ring

/-- Dividing by 5120 and multiplying back, both rounded, returns any value whose significand
has a bit to spare. -/
theorem div_mul_5120 (F : Fmt) (hp : 3 ≤ F.prec) (N k : ℤ)
    (hN : |N| < 2 ^ (F.prec - 1)) (hk : F.emin + F.prec + 12 ≤ k) :
    F.rnd (F.rnd ((N : ℚ) * 2 ^ k / 5120) * 5120) = (N : ℚ) * 2 ^ k := by
  rcases lt_trichotomy N 0 with h | h | h
  · have hpos := div_mul_5120_pos F hp (-N) k (by omega) (by rw [abs_lt] at hN; omega) hk
    have e : (N : ℚ) * 2 ^ k / 5120 = -(((-N : ℤ) : ℚ) * 2 ^ k / 5120) := by push_cast; ring
    rw [e, rnd_neg, neg_mul, rnd_neg, hpos]; push_cast; ring
  · simp [h, Fmt.rnd]
  · exact div_mul_5120_pos F hp N k h (by rw [abs_lt] at hN; omega) hk

/-- A value given with a short enough significand and an exponent in range is converted
exactly. -/
theorem ofRat_of_eq (F : Fmt) {x : ℚ} (m e : ℤ) (hx : x = (m : ℚ) * 2 ^ e)
    (hm : |m| < 2 ^ F.prec) (he : F.emin ≤ e) (hmax : e + F.prec ≤ F.emax) :
    F.ofRat x = FP.fin x := by
  subst hx
  apply ofRat_exact F m e hm he
  rw [abs_mul, abs_of_pos (by positivity : (0 : ℚ) < 2 ^ e)]
  have h1 : |(m : ℚ)| < 2 ^ (F.prec : ℤ) := by
    rw [zpow_natCast]; exact_mod_cast hm
  calc |(m : ℚ)| * 2 ^ e < 2 ^ (F.prec : ℤ) * 2 ^ e :=
        mul_lt_mul_of_pos_right h1 (by positivity)
    _ = 2 ^ ((F.prec : ℤ) + e) := (zpow_add₀ (by norm_num) _ _).symm
    _ ≤ 2 ^ F.emax := zpow_le_zpow_right₀ (by norm_num) (by omega)

theorem abs_mul_le {a b A B : ℤ} (ha : |a| ≤ A) (hb : |b| ≤ B) : |a * b| ≤ A * B := by
  rw [abs_mul]
  exact mul_le_mul ha hb (abs_nonneg _) (le_trans (abs_nonneg _) ha)

theorem tFineNum_bound {adc t0 t1 t3 : ℤ} (ha : 0 ≤ adc ∧ adc < 2 ^ 20)
    (h0 : -32768 ≤ t0 ∧ t0 ≤ 32767) (h1 : -32768 ≤ t1 ∧ t1 ≤ 32767)
    (h3 : -128 ≤ t3 ∧ t3 ≤ 127) : |tFineNum adc t0 t1 t3| < 2 ^ 52 := by
  have hD : |adc - 16 * t0| ≤ 1572864 := by rw [abs_le]; constructor <;> omega
  have ht1 : |t1| ≤ 32768 := by rw [abs_le]; constructor <;> omega
  have ht3 : |t3| ≤ 128 := by rw [abs_le]; constructor <;> omega
  have hA : |t1 * 65536| ≤ 32768 * 65536 := abs_mul_le ht1 (by norm_num)
  have hB : |(adc - 16 * t0) * t3| ≤ 1572864 * 128 := abs_mul_le hD ht3
  have hS : |t1 * 65536 + (adc - 16 * t0) * t3| ≤ 32768 * 65536 + 1572864 * 128 :=
    le_trans (abs_add _ _) (add_le_add hA hB)
  have := abs_mul_le hD hS
  unfold tFineNum
  calc _ ≤ (1572864 : ℤ) * (32768 * 65536 + 1572864 * 128) := this
    _ < 2 ^ 52 := by norm_num

/-- A value at or above the smallest subnormal keeps at least half of itself when rounded. -/
theorem rnd_half_le (F : Fmt) (hp : 1 ≤ F.prec) {x : ℚ} (hx : (2 : ℚ) ^ F.emin ≤ x) :
    x / 2 ≤ F.rnd x := by
  have hpos : (0 : ℚ) < x := lt_of_lt_of_le (by positivity) hx
  have hne : x ≠ 0 := ne_of_gt hpos
  have herr := rnd_error F hne
  have hl := (ilog2_spec hne).1
  rw [abs_of_pos hpos] at hl
  have hmax : (2 : ℚ) ^ (max (ilog2 x - ((F.prec : ℤ) - 1)) F.emin) ≤ x := by
    rcases le_total (ilog2 x - ((F.prec : ℤ) - 1)) F.emin with h | h
    · rw [max_eq_right h]; exact hx
    · rw [max_eq_left h]
      have hp1 : (1 : ℤ) ≤ F.prec := by exact_mod_cast hp
      exact le_trans (zpow_le_zpow_right₀ (by norm_num) (by omega)) hl
  have := (abs_le.mp herr).2
  linarith

/-! ## Floating point: magnitudes -/

theorem bdd_fin {k : ℕ} {v : ℚ} (h : |v| ≤ 2 ^ k) : FP.Bdd k (FP.fin v) := h

theorem bdd_ofRat {x : ℚ} {k : ℕ} (hx : |x| ≤ 2 ^ k) (hk : k ≤ 1000) :
    FP.Bdd (k + 2) (binary64.ofRat x) := by
  have h1 := rnd_abs_le binary64 (by decide) x
  have h2 : (2 : ℚ) ^ binary64.emin ≤ 1 := zpow_le_one_of_nonpos₀ (by norm_num) (by decide)
  have h3 : (1 : ℚ) ≤ 2 ^ k := one_le_pow₀ (by norm_num)
  have h4 : |binary64.rnd x| ≤ 2 ^ (k + 2) := by
    have : (2 : ℚ) ^ (k + 2) = 4 * 2 ^ k := by ring
    rw [this]; linarith
  have h5 : (2 : ℚ) ^ (k + 2) < 2 ^ binary64.emax := by
    have : ((2 : ℚ) ^ (k + 2)) = (2 : ℚ) ^ ((k + 2 : ℕ) : ℤ) := (zpow_natCast _ _).symm
    rw [this]
    apply zpow_lt_zpow_right₀ (by norm_num)
    have : binary64.emax = 1024 := rfl
    rw [this]; push_cast; omega
  rw [ofRat_eq_of_lt binary64 (lt_of_le_of_lt h4 h5)]
  exact h4

theorem bdd_ofInt {n : ℤ} {k : ℕ} (hn : |n| ≤ 2 ^ k) (hk : k ≤ 1000) :
    FP.Bdd (k + 2) (binary64.ofInt n) :=
  bdd_ofRat (by exact_mod_cast hn) hk

theorem bdd_add {x y : FP} {a b c : ℕ} (hx : FP.Bdd a x) (hy : FP.Bdd b y) (ha : a ≤ c)
    (hb : b ≤ c) (hc : c ≤ 999) : FP.Bdd (c + 3) (binary64.add x y) := by
  cases x with
  | nonfin => exact hx.elim
  | fin u =>
    cases y with
    | nonfin => exact hy.elim
    | fin v =>
      have hu : |u| ≤ 2 ^ c := le_trans hx (pow_le_pow_right₀ (by norm_num) ha)
      have hv : |v| ≤ 2 ^ c := le_trans hy (pow_le_pow_right₀ (by norm_num) hb)
      have : |u + v| ≤ 2 ^ (c + 1) := by
        have := abs_add u v
        have e : (2 : ℚ) ^ (c + 1) = 2 * 2 ^ c := by ring
        rw [e]; linarith
      exact bdd_ofRat this (by omega)

theorem bdd_sub {x y : FP} {a b c : ℕ} (hx : FP.Bdd a x) (hy : FP.Bdd b y) (ha : a ≤ c)
    (hb : b ≤ c) (hc : c ≤ 999) : FP.Bdd (c + 3) (binary64.sub x y) := by
  cases x with
  | nonfin => exact hx.elim
  | fin u =>
    cases y with
    | nonfin => exact hy.elim
    | fin v =>
      have hu : |u| ≤ 2 ^ c := le_trans hx (pow_le_pow_right₀ (by norm_num) ha)
      have hv : |v| ≤ 2 ^ c := le_trans hy (pow_le_pow_right₀ (by norm_num) hb)
      have : |u - v| ≤ 2 ^ (c + 1) := by
        have := abs_sub u v
        have e : (2 : ℚ) ^ (c + 1) = 2 * 2 ^ c := by ring
        rw [e]; linarith
      exact bdd_ofRat this (by omega)

theorem bdd_mul {x y : FP} {a b : ℕ} (hx : FP.Bdd a x) (hy : FP.Bdd b y) (h : a + b ≤ 1000) :
    FP.Bdd (a + b + 2) (binary64.mul x y) := by
  cases x with
  | nonfin => exact hx.elim
  | fin u =>
    cases y with
    | nonfin => exact hy.elim
    | fin v =>
      have : |u * v| ≤ 2 ^ (a + b) := by
        rw [abs_mul, pow_add]
        exact mul_le_mul hx hy (abs_nonneg _) (by positivity)
      exact bdd_ofRat this h

theorem bdd_div {x : FP} {a : ℕ} {c : ℚ} (hx : FP.Bdd a x) (hc : 1 ≤ c) (h : a ≤ 1000) :
    FP.Bdd (a + 2) (binary64.div x (FP.fin c)) := by
  cases x with
  | nonfin => exact hx.elim
  | fin u =>
    have hc0 : c ≠ 0 := by intro h0; rw [h0] at hc; norm_num at hc
    have hcp : (0 : ℚ) < c := by linarith
    simp only [Fmt.div, hc0, if_false]
    have : |u / c| ≤ 2 ^ a := by
      rw [abs_div, abs_of_pos hcp]
      exact le_trans (div_le_self (abs_nonneg _) hc) hx
    exact bdd_ofRat this h

theorem mul_ofInt_zero {x : FP} {a : ℕ} (hx : FP.Bdd a x) :
    binary64.mul x (binary64.ofInt 0) = FP.fin 0 := by
  cases x with
  | nonfin => exact hx.elim
  | fin u =>
    have h0 : binary64.ofRat 0 = FP.fin 0 := by
      have := ofRat_of_eq binary64 (x := 0) 0 0 (by norm_num) (by decide) (by decide) (by decide)
      exact this
    have e : binary64.ofInt 0 = FP.fin 0 := by
      unfold Fmt.ofInt; rw [Int.cast_zero]; exact h0
    rw [e]
    simp only [Fmt.mul, mul_zero]
    exact h0

/-! ## Transcripts of the basic operations -/

namespace BME688

theorem writes_append (a b : List Event) : writes (a ++ b) = writes a ++ writes b := by
  simp [writes, List.filterMap_append]

@[simp] theorem emit_trace (s : BME688) (e : Event) : (s.emit e).trace = s.trace ++ [e] := rfl
@[simp] theorem emit_mode (s : BME688) (e : Event) : (s.emit e).mode = s.mode := rfl
@[simp] theorem emit_printLogs (s : BME688) (e : Event) : (s.emit e).printLogs = s.printLogs := rfl

theorem printLog_trace (s : BME688) (m : Msg) :
    (s.printLog m).trace = s.trace ++ (if s.printLogs then [Event.print m] else []) := by
  unfold printLog; split_ifs <;> simp

theorem printLog_writes (s : BME688) (m : Msg) : writes (s.printLog m).trace = writes s.trace := by
  rw [printLog_trace, writes_append]; split_ifs <;> simp [writes]

@[simp] theorem i2c_execute_trace (s : BME688) (r d : ℕ) :
    (s.i2c_execute r d).trace = s.trace ++ [Event.write (r % 256) (d % 256)] := rfl
@[simp] theorem i2c_execute_printLogs (s : BME688) (r d : ℕ) :
    (s.i2c_execute r d).printLogs = s.printLogs := rfl
@[simp] theorem i2c_execute_mode (s : BME688) (r d : ℕ) :
    (s.i2c_execute r d).mode = s.mode := rfl

@[simp] theorem requestFrom_trace (env : Env) (s : BME688) (r n : ℕ) :
    (s.requestFrom env r n).2.trace = s.trace ++ [Event.read (r % 256) (n % 256)] := rfl
@[simp] theorem requestFrom_printLogs (env : Env) (s : BME688) (r n : ℕ) :
    (s.requestFrom env r n).2.printLogs = s.printLogs := rfl

@[simp] theorem i2c_readByte_state (env : Env) (s : BME688) (r d n : ℕ) :
    (s.i2c_readByte env r d n).2 = (s.requestFrom env r n).2 := by
  unfold i2c_readByte; simp only; split_ifs <;> rfl

@[simp] theorem i2c_read_Xbit_state (T : IntTy) (env : Env) (s : BME688) (r d n : ℕ) :
    (s.i2c_read_Xbit T env r d n).2 = (s.requestFrom env r (byteCount n)).2 := by
  unfold i2c_read_Xbit; simp only; split_ifs <;> rfl

@[simp] theorem i2c_read_Xbit_LE_state (T : IntTy) (env : Env) (s : BME688) (r d n : ℕ) :
    (s.i2c_read_Xbit_LE T env r d n).2 = (s.requestFrom env r (byteCount n)).2 := by
  unfold i2c_read_Xbit_LE; simp only; split_ifs <;> rfl

@[simp] theorem readUCGas_trace (env : Env) (s : BME688) (t : ℕ) :
    (s.readUCGas env t).2.trace = s.trace := rfl
@[simp] theorem readUCGas_mode (env : Env) (s : BME688) (t : ℕ) :
    (s.readUCGas env t).2.mode = s.mode := rfl
@[simp] theorem readUCGas_printLogs (env : Env) (s : BME688) (t : ℕ) :
    (s.readUCGas env t).2.printLogs = s.printLogs := rfl

theorem gasResistance_nonneg (a r : ℕ) : (gasResistance a r).NonNeg := by
  unfold gasResistance
  simp only
  have h1 : (binary32.ofInt ((262144 >>> r : ℕ) : ℤ)).NonNeg := ofRat_nonneg _ (by positivity)
  have h2 : (binary32.ofInt (4096 + ((a : ℤ) - 512) * 3)).NonNeg := by
    apply ofRat_nonneg
    have : (0:ℤ) ≤ 4096 + ((a : ℤ) - 512) * 3 := by omega
    exact_mod_cast this
  generalize binary32.ofInt ((262144 >>> r : ℕ) : ℤ) = u at h1
  generalize binary32.ofInt (4096 + ((a : ℤ) - 512) * 3) = v at h2
  cases u with
  | nonfin => simp [Fmt.mul, Fmt.div, Fmt.conv, FP.NonNeg]
  | fin x =>
    cases v with
    | nonfin =>
      simp only [Fmt.mul]
      cases binary32.ofRat (1000000 * x) <;> simp [Fmt.div, Fmt.conv, FP.NonNeg]
    | fin y =>
      simp only [FP.NonNeg] at h1 h2
      simp only [Fmt.mul]
      have h3 := ofRat_nonneg binary32 (mul_nonneg (by norm_num : (0:ℚ) ≤ 1000000) h1)
      generalize binary32.ofRat (1000000 * x) = w at h3
      cases w with
      | nonfin => simp [Fmt.div, Fmt.conv, FP.NonNeg]
      | fin z =>
        simp only [Fmt.div]
        split_ifs
        · simp [Fmt.conv, FP.NonNeg]
        · have h4 := ofRat_nonneg binary32 (div_nonneg h3 h2)
          generalize binary32.ofRat (z / y) = q at h4
          cases q with
          | nonfin => simp [Fmt.conv, FP.NonNeg]
          | fin t => exact ofRat_nonneg _ h4

theorem gasResistance_ne_neg (a r : ℕ) {c : ℚ} (hc : c < 0) : gasResistance a r ≠ FP.fin c := by
  intro h
  have := gasResistance_nonneg a r
  rw [h] at this
  exact absurd this (not_le.mpr hc)

theorem waitCode_lt (env : Env) (c : ℕ) (o : ℚ) : waitCode env c o < 256 := castU8_lt _ _

theorem readUCGas_lt (env : Env) (s : BME688) (t : ℕ) : (s.readUCGas env t).1 < 256 :=
  castU8_lt _ _

/-! ## Gas measurement -/

theorem or_run_lt (p : ℕ) : (BME_688_GAS_RUN ||| (p % 256)) < 256 := by
  unfold BME_688_GAS_RUN
  have h : p % 256 < 2 ^ 8 := Nat.mod_lt _ (by norm_num)
  have : (32 ||| (p % 256)) < 2 ^ 8 := Nat.or_lt_two_pow (by norm_num) h
  simpa using this

theorem check_eq (env : Env) (s : BME688) :
    (s.checkGasMeasurementCompletion env).1 = (statusByte env s.trace &&& 0x30 == 0x30) := by
  unfold checkGasMeasurementCompletion i2c_readByte requestFrom statusByte
  simp only [BME_688_GAS_HEAT_STAB_MASK, BME_688_GAS_VALID_REG_MASK, BME_688_GAS_MEAS_FINISH,
    BME_688_GAS_MEAS_STATUS_REG1]
  split_ifs <;> simp_all

@[simp] theorem check_trace (env : Env) (s : BME688) :
    (s.checkGasMeasurementCompletion env).2.trace =
      s.trace ++ [Event.read BME_688_GAS_MEAS_STATUS_REG1 1] := by
  simp [checkGasMeasurementCompletion, BME_688_GAS_MEAS_STATUS_REG1]

@[simp] theorem check_printLogs (env : Env) (s : BME688) :
    (s.checkGasMeasurementCompletion env).2.printLogs = s.printLogs := by
  simp [checkGasMeasurementCompletion]

theorem startedState_trace (s : BME688) (p w : ℕ) :
    (startedState s p w).trace = startedTrace s p w := by
  simp [startedState, startedTrace, Nat.mod_eq_of_lt (or_run_lt p), BME_688_CTRL_GAS_REG,
    BME_688_CTRL_MEAS_REG]

theorem startedState_printLogs (s : BME688) (p w : ℕ) :
    (startedState s p w).printLogs = s.printLogs := rfl

theorem startGasMeasurement_incomplete (env : Env) (s : BME688) (p w : ℕ)
    (h : statusByte env (startedTrace s p w) &&& 0x30 ≠ 0x30) :
    s.startGasMeasurement env p w =
      (FP.fin (-2), ((startedState s p w).checkGasMeasurementCompletion env).2.printLog
        Msg.GAS_MEAS_FAILURE) := by
  have hb : ((startedState s p w).checkGasMeasurementCompletion env).1 = false := by
    rw [check_eq, startedState_trace]; simpa using h
  unfold startGasMeasurement
  simp only [← startedState.eq_1 s p w, hb, Bool.not_false, if_true]

theorem startGasMeasurement_complete (env : Env) (s : BME688) (p w : ℕ)
    (h : statusByte env (startedTrace s p w) &&& 0x30 = 0x30) :
    ∃ a r, (s.startGasMeasurement env p w).1 = gasResistance a r := by
  have hb : ((startedState s p w).checkGasMeasurementCompletion env).1 = true := by
    rw [check_eq, startedState_trace]; simpa using h
  unfold startGasMeasurement
  simp only [← startedState.eq_1 s p w, hb, Bool.not_true, Bool.false_eq_true, if_false]
  exact ⟨_, _, rfl⟩

theorem startGasMeasurement_complete_trace (env : Env) (s : BME688) (p w : ℕ)
    (h : statusByte env (startedTrace s p w) &&& 0x30 = 0x30) :
    (s.startGasMeasurement env p w).2.trace =
      startedTrace s p w ++ [Event.read BME_688_GAS_MEAS_STATUS_REG1 1,
        Event.read BME_688_GAS_ADC_REG 2, Event.read BME_688_GAS_RANGE_REG 1] := by
  have hb : ((startedState s p w).checkGasMeasurementCompletion env).1 = true := by
    rw [check_eq, startedState_trace]; simpa using h
  unfold startGasMeasurement
  simp only [← startedState.eq_1 s p w, hb, Bool.not_true, Bool.false_eq_true, if_false]
  simp [startedState_trace, byteCount, BME_688_GAS_ADC_REG, BME_688_GAS_RANGE_REG]

theorem startGasMeasurement_writes (env : Env) (s : BME688) (p w : ℕ) :
    writes (s.startGasMeasurement env p w).2.trace =
      writes s.trace ++ [(BME_688_CTRL_GAS_REG, BME_688_GAS_RUN ||| (p % 256)),
        (BME_688_CTRL_MEAS_REG, s.mode % 256)] := by
  by_cases h : statusByte env (startedTrace s p w) &&& 0x30 = 0x30
  · rw [startGasMeasurement_complete_trace env s p w h]
    simp [writes_append, startedTrace, writes]
  · rw [startGasMeasurement_incomplete env s p w h, printLog_writes, check_trace,
      startedState_trace]
    simp [writes_append, startedTrace, writes]

theorem startGasMeasurement_ne_invalid (env : Env) (s : BME688) (p w : ℕ) :
    (s.startGasMeasurement env p w).1 ≠ FP.fin (-1) := by
  by_cases h : statusByte env (startedTrace s p w) &&& 0x30 = 0x30
  · obtain ⟨a, r, hr⟩ := startGasMeasurement_complete env s p w h
    rw [hr]; exact gasResistance_ne_neg a r (by norm_num)
  · rw [startGasMeasurement_incomplete env s p w h]
    simp

/-- Claim C1.  The thermal gate of `readGasForTemperature`: a target of 600 or more, or a
target above 425 without the override, is rejected with the sentinel -1.0 and no register
write; a target of at most 425, or below 600 with the override, proceeds: the result is not
the sentinel and the register writes are the gas enable, the wait code and heater code of
profile slot 0, the run bit with profile 0, and the mode. -/
theorem readGasForTemperature_gate (env : Env) (s : BME688) (t : ℕ) :
    ((600 ≤ t ∨ (425 < t ∧ s.allowHighTemps = false)) →
      (s.readGasForTemperature env t).1 = FP.fin (-1) ∧
      writes (s.readGasForTemperature env t).2.trace = writes s.trace) ∧
    ((t ≤ 425 ∨ (t < 600 ∧ s.allowHighTemps = true)) →
      (s.readGasForTemperature env t).1 ≠ FP.fin (-1) ∧
      writes (s.readGasForTemperature env t).2.trace = writes s.trace ++
        [(BME_688_CTRL_GAS_REG, 0x20),
         (BME_688_GAS_WAIT_PROFILE_REG, waitCode env (s.readUCGas env t).1 17),
         (BME_688_GAS_RES_HEAT_PROFILE_REG, (s.readUCGas env t).1),
         (BME_688_CTRL_GAS_REG, BME_688_GAS_RUN ||| BME_688_GAS_PROFILE_START),
         (BME_688_CTRL_MEAS_REG, s.mode % 256)]) := by
  constructor
  · intro h
    unfold readGasForTemperature BME_688_HEAT_PLATE_MAX_TEMP BME_688_HEAT_PLATE_ULTRA_TEMP
    rcases h with h | ⟨h1, h2⟩
    · have h' : ¬ t < 600 := by omega
      simp only [h', if_false]
      split_ifs
      · exact ⟨rfl, printLog_writes _ _⟩
      · exact ⟨rfl, printLog_writes _ _⟩
    · have h' : ¬ t ≤ 425 := by omega
      simp only [h2, h', decide_False, Bool.or_self, Bool.false_eq_true, if_false]
      exact ⟨trivial, printLog_writes _ _⟩
  · intro h
    have hc : (s.allowHighTemps || decide (t ≤ BME_688_HEAT_PLATE_MAX_TEMP)) = true := by
      unfold BME_688_HEAT_PLATE_MAX_TEMP
      rcases h with h | ⟨_, h⟩
      · simp [h]
      · simp [h]
    have hu : t < BME_688_HEAT_PLATE_ULTRA_TEMP := by
      unfold BME_688_HEAT_PLATE_ULTRA_TEMP
      rcases h with h | ⟨h, _⟩ <;> omega
    unfold readGasForTemperature
    simp only [hc, hu, if_true]
    refine ⟨startGasMeasurement_ne_invalid _ _ _ _, ?_⟩
    rw [startGasMeasurement_writes]
    simp [writes_append, writes, BME_688_CTRL_GAS_REG, BME_688_GAS_WAIT_PROFILE_REG,
      BME_688_GAS_RES_HEAT_PROFILE_REG, BME_688_GAS_PROFILE_START,
      Nat.mod_eq_of_lt (waitCode_lt _ _ _), Nat.mod_eq_of_lt (readUCGas_lt _ _ _)]

/-- Witness for C1: on a fresh instance a target of 600 is rejected without a write. -/
theorem readGasForTemperature_gate_witness :
    ((fresh 0x76).readGasForTemperature gasDevice 600).1 = FP.fin (-1) ∧
    writes ((fresh 0x76).readGasForTemperature gasDevice 600).2.trace = writes (fresh 0x76).trace :=
  (readGasForTemperature_gate gasDevice (fresh 0x76) 600).1 (Or.inl (le_refl 600))

/-- Claim C2.  The gate of `readGas`: a profile index of at most 9 starts a measurement on
that slot (run bit with the index, then the mode) and does not return the sentinel -1.0;
every other index returns -1.0 and writes no register. -/
theorem readGas_profile_gate (env : Env) (s : BME688) (p : ℕ) :
    (p ≤ 9 →
      (s.readGas env p).1 ≠ FP.fin (-1) ∧
      writes (s.readGas env p).2.trace = writes s.trace ++
        [(BME_688_CTRL_GAS_REG, BME_688_GAS_RUN ||| p), (BME_688_CTRL_MEAS_REG, s.mode % 256)]) ∧
    (9 < p →
      (s.readGas env p).1 = FP.fin (-1) ∧ writes (s.readGas env p).2.trace = writes s.trace) := by
  constructor
  · intro h
    have h' : p < 10 := by omega
    unfold readGas
    simp only [h', if_true]
    refine ⟨startGasMeasurement_ne_invalid _ _ _ _, ?_⟩
    rw [startGasMeasurement_writes]
    simp [Nat.mod_eq_of_lt (show p < 256 by omega)]
  · intro h
    have h' : ¬ p < 10 := by omega
    unfold readGas
    simp only [h', if_false]
    exact ⟨trivial, printLog_writes _ _⟩

/-- Witness for C2: profile index 10 on a fresh instance is rejected without a write. -/
theorem readGas_profile_gate_witness :
    ((fresh 0x76).readGas gasDevice 10).1 = FP.fin (-1) ∧
    writes ((fresh 0x76).readGas gasDevice 10).2.trace = writes (fresh 0x76).trace :=
  (readGas_profile_gate gasDevice (fresh 0x76) 10).2 (by decide)

/-- Claim C3.  `startGasMeasurement` returns the sentinel -2.0 exactly when the status byte
masked with 0x30 differs from 0x30 (a short read counting as 0); it never returns the
invalid-input sentinel -1.0; and when incomplete its transcript ends with the single status
read and the log line: no gas ADC or range read, no second attempt. -/
theorem startGasMeasurement_incomplete_iff (env : Env) (s : BME688) (profile waitTime : ℕ) :
    ((s.startGasMeasurement env profile waitTime).1 = FP.fin (-2) ↔
      statusByte env (startedTrace s profile waitTime) &&& 0x30 ≠ 0x30) ∧
    (s.startGasMeasurement env profile waitTime).1 ≠ FP.fin (-1) ∧
    (statusByte env (startedTrace s profile waitTime) &&& 0x30 ≠ 0x30 →
      (s.startGasMeasurement env profile waitTime).2.trace =
        startedTrace s profile waitTime ++ [Event.read BME_688_GAS_MEAS_STATUS_REG1 1] ++
          (if s.printLogs then [Event.print Msg.GAS_MEAS_FAILURE] else [])) := by
  refine ⟨⟨?_, ?_⟩, startGasMeasurement_ne_invalid _ _ _ _, ?_⟩
  · intro h hc
    obtain ⟨a, r, hr⟩ := startGasMeasurement_complete env s profile waitTime hc
    rw [hr] at h
    exact gasResistance_ne_neg a r (by norm_num) h
  · intro h
    rw [startGasMeasurement_incomplete env s profile waitTime h]
  · intro h
    rw [startGasMeasurement_incomplete env s profile waitTime h, printLog_trace, check_trace,
      check_printLogs, startedState_trace, startedState_printLogs]

/-- Witness for C3: on a device whose status register reads 0 the measurement is incomplete. -/
theorem startGasMeasurement_incomplete_iff_witness :
    ((fresh 0x76).startGasMeasurement unackedDevice 0 5).2.trace =
      startedTrace (fresh 0x76) 0 5 ++ [Event.read BME_688_GAS_MEAS_STATUS_REG1 1] ++
        (if (fresh 0x76).printLogs then [Event.print Msg.GAS_MEAS_FAILURE] else []) :=
  (startGasMeasurement_incomplete_iff unackedDevice (fresh 0x76) 0 5).2.2 (by decide)

/-- Claim C5.  `setTemperatureOversampling` succeeds and stores an input of at most 5; it
fails on a larger input and leaves the stored oversampling unchanged. -/
theorem setTemperatureOversampling_spec (s : BME688) (v : ℕ) :
    (v ≤ 5 → (s.setTemperatureOversampling v).1 = true ∧
        (s.setTemperatureOversampling v).2.temp_oss = v) ∧
    (5 < v → (s.setTemperatureOversampling v).1 = false ∧
        (s.setTemperatureOversampling v).2.temp_oss = s.temp_oss) := by
  unfold setTemperatureOversampling BME_688_OSS_16
  constructor
  · intro h; simp [h]
  · intro h
    have : ¬ v ≤ 5 := by omega
    simp only [this, if_false, true_and]
    unfold printLog; split_ifs <;> simp [emit]

/-- Witness for C5: the input 6 is refused and the default oversampling stays. -/
theorem setTemperatureOversampling_spec_witness :
    ((fresh 0x76).setTemperatureOversampling 6).1 = false ∧
    ((fresh 0x76).setTemperatureOversampling 6).2.temp_oss = (fresh 0x76).temp_oss :=
  (setTemperatureOversampling_spec (fresh 0x76) 6).2 (by decide)

/-! ## Connection check, decoders, heater profiles -/

/-- Claim C6.  At a device that does not acknowledge the probe but whose chip-ID register
reads 0x61, `isConnected` returns true: `is_sensor_connected` prints the probe result and
returns true whatever it was. -/
theorem isConnected_probe_ignored :
    unackedDevice.ack (fresh 0x76).trace = false ∧
    ((fresh 0x76).isConnected unackedDevice).1 = true := by decide

theorem isConnected_eq (env : Env) (s : BME688) :
    (s.isConnected env).1 =
      (((s.is_sensor_connected env).2.i2c_readByte env BME_688_CHIP_ID_REG 0 1).1.1 &&
        (((s.is_sensor_connected env).2.i2c_readByte env BME_688_CHIP_ID_REG 0 1).1.2 == 0x61)) := by
  unfold isConnected
  simp only [is_sensor_connected, if_true, BME_688_CHIP_ID]
  split_ifs with h <;> simp [h]

/-- Counterexample for C9: the 12-bit little-endian read of the bytes 0xAB, 0xC0 into a
16-bit unsigned destination does not yield 0x0CAB. -/
theorem i2c_read_Xbit_LE_12bit_counterexample :
    ((fresh 0x76).i2c_read_Xbit_LE u16 humCalibDevice 0xE2 0 12).1 ≠ (true, 0x0CAB) := by decide

/-- Claim C9, amended.  The 12-bit little-endian read of the bytes 0xAB, 0xC0 into a 16-bit
unsigned destination succeeds with the value 0x0C0A: the bytes assemble to 0xC0AB and the
low four bits are shifted out. -/
theorem i2c_read_Xbit_LE_12bit (env : Env) (s : BME688) (reg data : ℕ)
    (h : (env.rx s.trace (reg % 256) 2).map (· % 256) = [0xAB, 0xC0]) :
    (s.i2c_read_Xbit_LE u16 env reg data 12).1 = (true, 0x0C0A) := by
  have hb : byteCount 12 = 2 := by decide
  unfold i2c_read_Xbit_LE requestFrom
  simp only [hb, Nat.reduceMod, h, List.length_cons, List.length_nil, if_true]
  decide

/-- Witness for C9: the device whose registers 0xE2, 0xE3 hold 0xAB, 0xC0. -/
theorem i2c_read_Xbit_LE_12bit_witness :
    ((fresh 0x76).i2c_read_Xbit_LE u16 humCalibDevice 0xE2 0 12).1 = (true, 0x0C0A) :=
  i2c_read_Xbit_LE_12bit humCalibDevice (fresh 0x76) 0xE2 0 (by decide)

theorem readRawTemp_trace (env : Env) (s : BME688) :
    writes (s.readRawTemp env).2.trace = writes s.trace := by
  unfold readRawTemp
  simp only
  split_ifs
  · simp [writes_append, writes]
  · rw [printLog_writes]; simp [writes_append, writes]

theorem readUCTemp_trace (s : BME688) (a : ℤ) : (s.readUCTemp a).2.trace = s.trace := rfl

theorem readTemperature_writes (env : Env) (s : BME688) :
    writes (s.readTemperature env).2.trace = writes s.trace ++
      [(BME_688_CTRL_MEAS_REG, (((s.temp_oss <<< 5) ||| (s.press_oss <<< 2)) ||| s.mode) % 256)] := by
  unfold readTemperature
  simp only [readUCTemp_trace, readRawTemp_trace]
  simp [writes_append, writes, BME_688_CTRL_MEAS_REG]

theorem heatProfileStep_writes (env : Env) (s : BME688) (i : ℕ) :
    (writes (heatProfileStep env s i).trace).map Prod.fst = (writes s.trace).map Prod.fst ++
      [(BME_688_GAS_WAIT_PROFILE_REG + i) % 256, (BME_688_GAS_RES_HEAT_PROFILE_REG + i) % 256] := by
  unfold heatProfileStep
  simp [writes_append, writes]

/-- Claim C10.  The registers written by `setHeatProfiles`, in order: the measurement
control word of its temperature reading, then for each slot 0 to 8 the wait-time register
0x64+i and the heater-resistance register 0x5A+i.  Slot 9 (0x6D and 0x63) is not written:
the loop stops at `i < 9`. -/
theorem setHeatProfiles_registers (env : Env) (s : BME688) :
    (writes (s.setHeatProfiles env).2.trace).map Prod.fst = (writes s.trace).map Prod.fst ++
      [0x74, 0x64, 0x5A, 0x65, 0x5B, 0x66, 0x5C, 0x67, 0x5D, 0x68, 0x5E, 0x69, 0x5F,
       0x6A, 0x60, 0x6B, 0x61, 0x6C, 0x62] := by
  have hr : List.range 9 = [0, 1, 2, 3, 4, 5, 6, 7, 8] := by decide
  unfold setHeatProfiles
  simp only [hr, List.foldl_cons, List.foldl_nil, heatProfileStep_writes, readTemperature_writes]
  simp [BME_688_GAS_WAIT_PROFILE_REG, BME_688_GAS_RES_HEAT_PROFILE_REG, BME_688_CTRL_MEAS_REG]


theorem wrap_or_shift (T : IntTy) (a b k : ℕ) :
    T.wrap (T.wrap a ||| (T.wrap b <<< k)) = T.wrap (a ||| (b <<< k)) := by
  unfold IntTy.wrap
  apply Nat.eq_of_testBit_eq
  intro j
  simp only [Nat.testBit_mod_two_pow, Nat.testBit_or, Nat.testBit_shiftLeft]
  by_cases hj : j < T.bits
  · have : j - k < T.bits := by omega
    simp [hj, this]
  · simp [hj]

theorem wrap_wrap (T : IntTy) (a : ℕ) : T.wrap (T.wrap a) = T.wrap a := by
  unfold IntTy.wrap; exact Nat.mod_mod _ _

theorem leValue_lt (bs : List ℕ) (h : ∀ b ∈ bs, b < 256) : leValue bs < 2 ^ (8 * bs.length) := by
  induction bs with
  | nil => simp [leValue]
  | cons b bs ih =>
    have hb := h b (List.mem_cons_self _ _)
    have := ih (fun x hx => h x (List.mem_cons_of_mem _ hx))
    simp only [leValue, List.length_cons]
    have e : 2 ^ (8 * (bs.length + 1)) = 256 * 2 ^ (8 * bs.length) := by
      rw [Nat.mul_add, pow_add]; norm_num; ring
    rw [e]; omega

theorem beValue_lt (bs : List ℕ) (h : ∀ b ∈ bs, b < 256) : beValue bs < 2 ^ (8 * bs.length) := by
  induction bs with
  | nil => simp [beValue]
  | cons b bs ih =>
    have hb := h b (List.mem_cons_self _ _)
    have := ih (fun x hx => h x (List.mem_cons_of_mem _ hx))
    simp only [beValue, List.length_cons]
    have e : 2 ^ (8 * (bs.length + 1)) = 256 * 2 ^ (8 * bs.length) := by
      rw [Nat.mul_add, pow_add]; norm_num; ring
    have e2 : 256 ^ bs.length = 2 ^ (8 * bs.length) := by
      rw [pow_mul]; norm_num
    rw [e, e2]
    have : b * 2 ^ (8 * bs.length) ≤ 255 * 2 ^ (8 * bs.length) := Nat.mul_le_mul_right _ (by omega)
    omega

theorem assembleLE_eq (T : IntTy) (bs : List ℕ) (h : ∀ b ∈ bs, b < 256) (i acc : ℕ)
    (hacc : acc < 2 ^ (8 * i)) :
    assembleLE T bs i (T.wrap acc) = T.wrap (acc + leValue bs * 2 ^ (8 * i)) := by
  induction bs generalizing i acc with
  | nil => simp [assembleLE, leValue]
  | cons b bs ih =>
    have hb := h b (List.mem_cons_self _ _)
    simp only [assembleLE, leValue, wrap_or_shift]
    have e1 : acc ||| (b <<< (8 * i)) = acc + b * 2 ^ (8 * i) := by
      rw [Nat.or_comm, Nat.shiftLeft_eq, Nat.mul_comm b, ← Nat.mul_add_lt_is_or hacc]; ring
    have e2 : 2 ^ (8 * (i + 1)) = 256 * 2 ^ (8 * i) := by
      rw [Nat.mul_add, pow_add]; norm_num; ring
    rw [e1, ih (fun x hx => h x (List.mem_cons_of_mem _ hx)) (i + 1) (acc + b * 2 ^ (8 * i))]
    · congr 1; rw [e2]; ring
    · rw [e2]
      have : b * 2 ^ (8 * i) ≤ 255 * 2 ^ (8 * i) := Nat.mul_le_mul_right _ (by omega)
      omega

theorem assembleBE_eq (T : IntTy) (l : ℕ) (bs : List ℕ) (h : ∀ b ∈ bs, b < 256) (i A : ℕ)
    (hl : i + bs.length = l) :
    assembleBE T l bs i (T.wrap (A * 2 ^ (8 * bs.length))) =
      T.wrap (A * 2 ^ (8 * bs.length) + beValue bs) := by
  induction bs generalizing i A with
  | nil => simp [assembleBE, beValue]
  | cons b bs ih =>
    have hb := h b (List.mem_cons_self _ _)
    simp only [List.length_cons] at hl
    have hs : l - 1 - i = bs.length := by omega
    simp only [assembleBE, beValue, wrap_or_shift, hs, List.length_cons]
    have e2 : 2 ^ (8 * (bs.length + 1)) = 256 * 2 ^ (8 * bs.length) := by
      rw [Nat.mul_add, pow_add]; norm_num; ring
    have e3 : 256 ^ bs.length = 2 ^ (8 * bs.length) := by
      rw [pow_mul]; norm_num
    have hlt : b <<< (8 * bs.length) < 2 ^ (8 * (bs.length + 1)) := by
      rw [Nat.shiftLeft_eq, e2]
      have : b * 2 ^ (8 * bs.length) ≤ 255 * 2 ^ (8 * bs.length) := Nat.mul_le_mul_right _ (by omega)
      have : 0 < 2 ^ (8 * bs.length) := by positivity
      omega
    have e1 : A * 2 ^ (8 * (bs.length + 1)) ||| (b <<< (8 * bs.length)) =
        (A * 256 + b) * 2 ^ (8 * bs.length) := by
      rw [Nat.mul_comm A, ← Nat.mul_add_lt_is_or hlt, Nat.shiftLeft_eq, e2]; ring
    rw [e1, ih (fun x hx => h x (List.mem_cons_of_mem _ hx)) (i + 1) (A * 256 + b) (by omega)]
    congr 1; rw [e2, e3]; ring

theorem ofInt_lt (T : IntTy) (z : ℤ) : T.ofInt z < 2 ^ T.bits := by
  unfold IntTy.ofInt
  have hpos : (0 : ℤ) < 2 ^ T.bits := by positivity
  have h1 := Int.emod_nonneg z (ne_of_gt hpos)
  have h2 := Int.emod_lt_of_pos z hpos
  zify
  rw [Int.toNat_of_nonneg h1]
  exact_mod_cast h2

theorem wrap_of_lt (T : IntTy) {p : ℕ} (h : p < 2 ^ T.bits) : T.wrap p = p :=
  Nat.mod_eq_of_lt h

theorem wrap_lt (T : IntTy) (p : ℕ) : T.wrap p < 2 ^ T.bits :=
  Nat.mod_lt _ (by positivity)

theorem int_shiftRight_zero (z : ℤ) : z >>> (0 : ℕ) = z := by
  cases z <;> rfl

theorem shr_lt (T : IntTy) (p s : ℕ) : T.shr p s < 2 ^ T.bits := ofInt_lt T _

theorem ofInt_toInt (T : IntTy) {p : ℕ} (h : p < 2 ^ T.bits) : T.ofInt (T.toInt p) = p := by
  unfold IntTy.ofInt IntTy.toInt
  have hpos : (0 : ℤ) < 2 ^ T.bits := by positivity
  have hp : (p : ℤ) < 2 ^ T.bits := by exact_mod_cast h
  split_ifs with hc
  · have : ((p : ℤ) - 2 ^ T.bits) % 2 ^ T.bits = p := by
      rw [Int.sub_emod, Int.emod_self, sub_zero, Int.emod_emod_of_dvd _ (dvd_refl _)]
      exact Int.emod_eq_of_lt (by positivity) hp
    rw [this]; simp
  · rw [Int.emod_eq_of_lt (by positivity) hp]; simp

theorem shr_zero (T : IntTy) {p : ℕ} (h : p < 2 ^ T.bits) : T.shr p 0 = p := by
  unfold IntTy.shr
  rw [int_shiftRight_zero]
  exact ofInt_toInt T h

theorem shr_eq_shiftRight (T : IntTy) {p : ℕ} (s : ℕ) (h : p < 2 ^ T.bits)
    (hs : T.signed = false ∨ p < 2 ^ (T.bits - 1)) : T.shr p s = p >>> s := by
  unfold IntTy.shr IntTy.ofInt IntTy.toInt
  have hc : ¬ (T.signed = true ∧ 2 ^ (T.bits - 1) ≤ p) := by
    rintro ⟨h1, h2⟩
    rcases hs with hs | hs
    · rw [hs] at h1; exact absurd h1 (by simp)
    · omega
  rw [if_neg hc]
  have e : ((p : ℤ) >>> s) = ((p >>> s : ℕ) : ℤ) := rfl
  rw [e]
  have hlt : p >>> s < 2 ^ T.bits := by
    rw [Nat.shiftRight_eq_div_pow]
    exact lt_of_le_of_lt (Nat.div_le_self _ _) h
  have : ((p >>> s : ℕ) : ℤ) % 2 ^ T.bits = ((p >>> s : ℕ) : ℤ) :=
    Int.emod_eq_of_lt (by positivity) (by exact_mod_cast hlt)
  rw [this]; simp

theorem byteCount_eq {L : ℕ} (h32 : L ≤ 32) : byteCount L = (L + 7) / 8 := by
  unfold byteCount
  split_ifs <;> omega

/-- Claim C8.  For a bit width from 1 to 32 both decoders request `ceil(L/8)` bytes.  When
exactly that many bytes are available they succeed and store the little-endian (respectively
big-endian) value of the bytes, converted to the destination type and shifted right by
`(8 - L mod 8) mod 8` bits; otherwise they fail and the destination keeps its value.  For a
value that fits the destination type without reaching its sign bit, conversion and shift
are the plain right shift. -/
theorem decoders_spec (T : IntTy) (env : Env) (s : BME688) (reg data L : ℕ)
    (h1 : 1 ≤ L) (h32 : L ≤ 32) :
    (s.i2c_read_Xbit_LE T env reg data L).2.trace =
      s.trace ++ [Event.read (reg % 256) ((L + 7) / 8)] ∧
    (s.i2c_read_Xbit T env reg data L).2.trace =
      s.trace ++ [Event.read (reg % 256) ((L + 7) / 8)] ∧
    (((env.rx s.trace (reg % 256) ((L + 7) / 8)).map (· % 256)).length = (L + 7) / 8 →
      (s.i2c_read_Xbit_LE T env reg data L).1 = (true, T.shr (T.wrap
        (leValue ((env.rx s.trace (reg % 256) ((L + 7) / 8)).map (· % 256)))) ((8 - L % 8) % 8)) ∧
      (s.i2c_read_Xbit T env reg data L).1 = (true, T.shr (T.wrap
        (beValue ((env.rx s.trace (reg % 256) ((L + 7) / 8)).map (· % 256)))) ((8 - L % 8) % 8))) ∧
    (((env.rx s.trace (reg % 256) ((L + 7) / 8)).map (· % 256)).length ≠ (L + 7) / 8 →
      (s.i2c_read_Xbit_LE T env reg data L).1 = (false, data) ∧
      (s.i2c_read_Xbit T env reg data L).1 = (false, data)) ∧
    (∀ v, v < 2 ^ T.bits → (T.signed = false ∨ v < 2 ^ (T.bits - 1)) →
      T.shr (T.wrap v) ((8 - L % 8) % 8) = v >>> ((8 - L % 8) % 8)) := by
  have hb := byteCount_eq h32
  have hn : (L + 7) / 8 % 256 = (L + 7) / 8 := by omega
  refine ⟨?_, ?_, ?_, ?_, ?_⟩
  · simp [hb, hn]
  · simp [hb, hn]
  · intro hlen
    have hbytes : ∀ b ∈ (env.rx s.trace (reg % 256) ((L + 7) / 8)).map (· % 256), b < 256 := by
      intro b hb'
      simp only [List.mem_map] at hb'
      obtain ⟨a, _, rfl⟩ := hb'
      exact Nat.mod_lt _ (by norm_num)
    have hle := assembleLE_eq T _ hbytes 0 0 (by norm_num)
    have hbe := assembleBE_eq T ((L + 7) / 8) _ hbytes 0 0 (by simpa using hlen)
    simp only [IntTy.wrap, Nat.zero_mod, zero_mul, mul_zero, pow_zero, mul_one, zero_add] at hle hbe
    unfold i2c_read_Xbit_LE i2c_read_Xbit requestFrom
    simp only [hb, hn, hlen, if_true]
    by_cases hp : L % 8 = 0
    · have hpad : (8 - L % 8) % 8 = 0 := by omega
      simp only [hp, ne_eq, not_true, if_false, hpad, hle, hbe]
      simp only [← IntTy.wrap.eq_1]
      rw [shr_zero T (wrap_lt T _), shr_zero T (wrap_lt T _), wrap_wrap, wrap_wrap]
      exact ⟨rfl, rfl⟩
    · have hpad : (8 - L % 8) % 8 = 8 - L % 8 := by omega
      simp only [hp, ne_eq, not_false_eq_true, if_true, hpad, hle, hbe]
      simp only [← IntTy.wrap.eq_1]
      rw [wrap_of_lt T (shr_lt T _ _), wrap_of_lt T (shr_lt T _ _)]
      exact ⟨rfl, rfl⟩
  · intro hlen
    unfold i2c_read_Xbit_LE i2c_read_Xbit requestFrom
    simp only [hb, hn, hlen, if_false]
    exact ⟨trivial, trivial⟩
  · intro v hv hs
    rw [wrap_of_lt T hv]
    exact shr_eq_shiftRight T _ hv hs

/-- Witness for C8: a 12-bit little-endian read into the 16-bit unsigned type at register
0xE2 of a device that answers with two bytes. -/
theorem decoders_spec_witness :
    ((fresh 0x76).i2c_read_Xbit_LE u16 humCalibDevice 0xE2 0 12).1 =
      (true, u16.shr (u16.wrap (leValue
        ((humCalibDevice.rx (fresh 0x76).trace (0xE2 % 256) ((12 + 7) / 8)).map (· % 256))))
        ((8 - 12 % 8) % 8)) :=
  ((decoders_spec u16 humCalibDevice (fresh 0x76) 0xE2 0 12 (by decide) (by decide)).2.2.1
    (by decide)).1

/-! ## Gas resistance and temperature compensation -/

theorem shiftRight_262144 {r : ℕ} (hr : r < 16) : (262144 >>> r : ℕ) = 2 ^ (18 - r) := by
  interval_cases r <;> rfl

theorem gasResistance_eq {adc r : ℕ} (ha : adc < 1024) (hr : r < 16) :
    gasResistance adc r =
      FP.fin (binary32.rnd ((1000000 : ℚ) * ((262144 >>> r : ℕ) : ℚ) / (3 * ((adc : ℚ) - 512) + 4096))) := by
  have hv1 : binary32.ofInt ((262144 >>> r : ℕ) : ℤ) = FP.fin ((262144 >>> r : ℕ) : ℚ) := by
    have := ofInt_exact binary32 ((262144 >>> r : ℕ) : ℤ) (by
      rw [shiftRight_262144 hr]
      have : (2 : ℤ) ^ (18 - r) ≤ 2 ^ 18 := pow_le_pow_right₀ (by norm_num) (by omega)
      rw [abs_of_pos (by positivity)]
      simp only [binary32]; push_cast; linarith) (by decide) (by decide)
    simpa using this
  have hv2 : binary32.ofInt (4096 + ((adc : ℤ) - 512) * 3) =
      FP.fin (3 * ((adc : ℚ) - 512) + 4096) := by
    have := ofInt_exact binary32 (4096 + ((adc : ℤ) - 512) * 3) (by
      rw [abs_lt]; simp only [binary32]; constructor <;> norm_num <;> omega) (by decide) (by decide)
    rw [this]; congr 1; push_cast; ring
  have hprod : binary32.ofRat ((1000000 : ℚ) * ((262144 >>> r : ℕ) : ℚ)) =
      FP.fin ((1000000 : ℚ) * ((262144 >>> r : ℕ) : ℚ)) := by
    have e : (1000000 : ℚ) * ((262144 >>> r : ℕ) : ℚ) = ((15625 : ℤ) : ℚ) * 2 ^ ((24 : ℤ) - r) := by
      rw [shiftRight_262144 hr]
      have : ((24 : ℤ) - r) = ((6 + (18 - r) : ℕ) : ℤ) := by omega
      rw [this, zpow_natCast, pow_add]; push_cast; ring
    rw [e]
    apply ofRat_exact
    · simp only [binary32]; norm_num
    · simp only [binary32]; omega
    · rw [abs_of_pos (by positivity)]
      simp only [binary32]
      calc ((15625 : ℤ) : ℚ) * 2 ^ ((24 : ℤ) - r) ≤ 2 ^ (14 : ℤ) * 2 ^ ((24 : ℤ) - r) := by
            apply mul_le_mul_of_nonneg_right _ (by positivity); norm_num
        _ = 2 ^ ((38 : ℤ) - r) := by
            rw [← zpow_add₀ (by norm_num : (2 : ℚ) ≠ 0)]; congr 1; ring
        _ < 2 ^ (128 : ℤ) := zpow_lt_zpow_right₀ (by norm_num) (by omega)
  have hden : (0 : ℚ) < 3 * ((adc : ℚ) - 512) + 4096 := by
    have : (0 : ℚ) ≤ adc := Nat.cast_nonneg _
    linarith
  have hden' : (2560 : ℚ) ≤ 3 * ((adc : ℚ) - 512) + 4096 := by
    have : (0 : ℚ) ≤ adc := Nat.cast_nonneg _
    linarith
  have hnum : (1000000 : ℚ) * ((262144 >>> r : ℕ) : ℚ) ≤ 1000000 * 262144 := by
    rw [shiftRight_262144 hr]
    have : (2 : ℚ) ^ (18 - r) ≤ 2 ^ 18 := pow_le_pow_right₀ (by norm_num) (by omega)
    push_cast; linarith
  have hnum0 : (0 : ℚ) ≤ (1000000 : ℚ) * ((262144 >>> r : ℕ) : ℚ) := by positivity
  have hq : |binary32.rnd ((1000000 : ℚ) * ((262144 >>> r : ℕ) : ℚ) / (3 * ((adc : ℚ) - 512) + 4096))| <
      2 ^ binary32.emax := by
    have hb := rnd_abs_le binary32 (by decide)
      ((1000000 : ℚ) * ((262144 >>> r : ℕ) : ℚ) / (3 * ((adc : ℚ) - 512) + 4096))
    have hx : |(1000000 : ℚ) * ((262144 >>> r : ℕ) : ℚ) / (3 * ((adc : ℚ) - 512) + 4096)| ≤
        1000000 * 262144 / 2560 := by
      rw [abs_of_nonneg (div_nonneg hnum0 (le_of_lt hden))]
      exact div_le_div₀ (by norm_num) hnum (by norm_num) hden'
    have h1 : (2 : ℚ) ^ binary32.emin ≤ 1 := by
      simp only [binary32]
      exact zpow_le_one_of_nonpos₀ (by norm_num) (by norm_num)
    have h2 : (2 : ℚ) ^ (28 : ℤ) ≤ 2 ^ binary32.emax :=
      zpow_le_zpow_right₀ (by norm_num) (by decide)
    have h3 : (2 : ℚ) ^ (28 : ℤ) = 268435456 := by norm_num
    linarith
  unfold gasResistance
  simp only [hv1, hv2, Fmt.mul, hprod, Fmt.div, ne_of_gt hden, if_false]
  rw [ofRat_eq_of_lt binary32 hq]
  exact conv_binary32_to_binary64 hq

theorem i2c_read_Xbit_gas_adc (env : Env) (s : BME688) :
    (s.i2c_read_Xbit u16 env BME_688_GAS_ADC_REG 0 10).1.2 = gasAdcRead env s.trace := by
  have hb : byteCount 10 = 2 := by decide
  have hreg : BME_688_GAS_ADC_REG % 256 = BME_688_GAS_ADC_REG := by decide
  have h2 : (2 : ℕ) % 256 = 2 := by decide
  have h10 : (10 : ℕ) % 8 ≠ 0 := by decide
  have h6 : 8 - (10 : ℕ) % 8 = 6 := by decide
  unfold i2c_read_Xbit requestFrom gasAdcRead
  simp only [hb, hreg, h2]
  by_cases hlen : ((env.rx s.trace BME_688_GAS_ADC_REG 2).map (· % 256)).length = 2
  · have hbytes : ∀ b ∈ (env.rx s.trace BME_688_GAS_ADC_REG 2).map (· % 256), b < 256 := by
      intro b hb'
      simp only [List.mem_map] at hb'
      obtain ⟨a, _, rfl⟩ := hb'
      exact Nat.mod_lt _ (by norm_num)
    have hbe := assembleBE_eq u16 2 _ hbytes 0 0 (by simpa using hlen)
    simp only [IntTy.wrap, Nat.zero_mod, zero_mul, zero_add] at hbe
    have hlt := beValue_lt _ hbytes
    rw [hlen] at hlt
    have hlt' : beValue ((env.rx s.trace BME_688_GAS_ADC_REG 2).map (· % 256)) < 2 ^ u16.bits := by
      simpa [u16] using hlt
    simp only [hlen, if_true, h10, ne_eq, not_false_eq_true, h6, hbe, ← IntTy.wrap.eq_1,
      wrap_of_lt u16 hlt']
    rw [wrap_of_lt u16 (shr_lt u16 _ _), shr_eq_shiftRight u16 6 hlt' (Or.inl rfl)]
  · simp only [hlen, if_false]

theorem gasAdcRead_lt (env : Env) (tr : List Event) : gasAdcRead env tr < 1024 := by
  unfold gasAdcRead
  simp only
  split_ifs with hlen
  · have hbytes : ∀ b ∈ (env.rx tr BME_688_GAS_ADC_REG 2).map (· % 256), b < 256 := by
      intro b hb'
      simp only [List.mem_map] at hb'
      obtain ⟨a, _, rfl⟩ := hb'
      exact Nat.mod_lt _ (by norm_num)
    have hlt := beValue_lt _ hbytes
    rw [hlen] at hlt
    rw [Nat.shiftRight_eq_div_pow]
    have : (2 : ℕ) ^ (8 * 2) = 65536 := by norm_num
    omega
  · norm_num

theorem gasRangeRead_lt (env : Env) (tr : List Event) : gasRangeRead env tr < 16 := by
  unfold gasRangeRead BME_688_GAS_RANGE_VAL_MASK
  exact lt_of_le_of_lt Nat.and_le_right (by norm_num)

theorem i2c_readByte_gas_range (env : Env) (s : BME688) :
    (s.i2c_readByte env BME_688_GAS_RANGE_REG 0 1).1.2 &&& BME_688_GAS_RANGE_VAL_MASK =
      gasRangeRead env s.trace := by
  have hreg : BME_688_GAS_RANGE_REG % 256 = BME_688_GAS_RANGE_REG := by decide
  have h1 : (1 : ℕ) % 256 = 1 := by decide
  unfold i2c_readByte requestFrom gasRangeRead
  simp only [hreg, h1]
  by_cases hlen : ((env.rx s.trace BME_688_GAS_RANGE_REG 1).map (· % 256)).length < 1
  · simp only [hlen, if_true]
  · simp only [hlen, if_false, Nat.lt_one_iff, if_true, zero_lt_one]

theorem startGasMeasurement_complete_value (env : Env) (s : BME688) (p w : ℕ)
    (h : statusByte env (startedTrace s p w) &&& 0x30 = 0x30) :
    (s.startGasMeasurement env p w).1 =
      gasResistance
        (gasAdcRead env (startedTrace s p w ++ [Event.read BME_688_GAS_MEAS_STATUS_REG1 1]))
        (gasRangeRead env (startedTrace s p w ++ [Event.read BME_688_GAS_MEAS_STATUS_REG1 1] ++
          [Event.read BME_688_GAS_ADC_REG 2])) := by
  have hb : ((startedState s p w).checkGasMeasurementCompletion env).1 = true := by
    rw [check_eq, startedState_trace]; simpa using h
  unfold startGasMeasurement
  simp only [← startedState.eq_1 s p w, hb, Bool.not_true, Bool.false_eq_true, if_false]
  rw [i2c_read_Xbit_gas_adc, i2c_readByte_gas_range]
  simp [startedState_trace, byteCount, BME_688_GAS_ADC_REG]

/-- Counterexample for C4: with ADC code 513 and range 0 the completed measurement returns
63953160, not the quotient 262144000000 / 4099. -/
theorem startGasMeasurement_resistance_counterexample :
    gasAdcRead gasDevice513
      (startedTrace (fresh 0x76) 0 0 ++ [Event.read BME_688_GAS_MEAS_STATUS_REG1 1]) = 513 ∧
    gasRangeRead gasDevice513
      (startedTrace (fresh 0x76) 0 0 ++ [Event.read BME_688_GAS_MEAS_STATUS_REG1 1] ++
        [Event.read BME_688_GAS_ADC_REG 2]) = 0 ∧
    ((fresh 0x76).startGasMeasurement gasDevice513 0 0).1 = FP.fin 63953160 ∧
    ((fresh 0x76).startGasMeasurement gasDevice513 0 0).1 ≠
      FP.fin (1000000 * (262144 >>> 0 : ℕ) / (3 * (513 - 512) + 4096)) := by
  decide!

/-- Claim C4, amended.  A completed `startGasMeasurement` returns the quotient
`1e6 * (262144 >> r) / (3 * (adc - 512) + 4096)` rounded to single precision (binary32,
nearest even), where `adc < 1024` is the 10-bit code and `r < 16` the range nibble it read. -/
theorem startGasMeasurement_resistance (env : Env) (s : BME688) (p w : ℕ)
    (h : statusByte env (startedTrace s p w) &&& 0x30 = 0x30) :
    (s.startGasMeasurement env p w).1 =
      FP.fin (binary32.rnd ((1000000 : ℚ) *
        ((262144 >>> gasRangeRead env (startedTrace s p w ++
            [Event.read BME_688_GAS_MEAS_STATUS_REG1 1] ++
            [Event.read BME_688_GAS_ADC_REG 2]) : ℕ) : ℚ) /
        (3 * ((gasAdcRead env (startedTrace s p w ++
            [Event.read BME_688_GAS_MEAS_STATUS_REG1 1]) : ℚ) - 512) + 4096))) ∧
    gasAdcRead env (startedTrace s p w ++ [Event.read BME_688_GAS_MEAS_STATUS_REG1 1]) < 1024 ∧
    gasRangeRead env (startedTrace s p w ++ [Event.read BME_688_GAS_MEAS_STATUS_REG1 1] ++
      [Event.read BME_688_GAS_ADC_REG 2]) < 16 := by
  refine ⟨?_, gasAdcRead_lt _ _, gasRangeRead_lt _ _⟩
  rw [startGasMeasurement_complete_value env s p w h]
  exact gasResistance_eq (gasAdcRead_lt _ _) (gasRangeRead_lt _ _)

/-- Witness for C4: the device with status 0x30 and gas registers 0x80, 0x30. -/
theorem startGasMeasurement_resistance_witness :
    ((fresh 0x76).startGasMeasurement gasDevice 0 0).1 =
      FP.fin (binary32.rnd ((1000000 : ℚ) *
        ((262144 >>> gasRangeRead gasDevice (startedTrace (fresh 0x76) 0 0 ++
            [Event.read BME_688_GAS_MEAS_STATUS_REG1 1] ++
            [Event.read BME_688_GAS_ADC_REG 2]) : ℕ) : ℚ) /
        (3 * ((gasAdcRead gasDevice (startedTrace (fresh 0x76) 0 0 ++
            [Event.read BME_688_GAS_MEAS_STATUS_REG1 1]) : ℚ) - 512) + 4096))) :=
  (startGasMeasurement_resistance gasDevice (fresh 0x76) 0 0 (by decide)).1

theorem readUCTemp_exact (s : BME688) (adc : ℤ) (ha : 0 ≤ adc ∧ adc < 2 ^ 20)
    (h0 : -32768 ≤ s.par_t16_0 ∧ s.par_t16_0 ≤ 32767)
    (h1 : -32768 ≤ s.par_t16_1 ∧ s.par_t16_1 ≤ 32767)
    (h3 : -128 ≤ s.par_t3 ∧ s.par_t3 ≤ 127) :
    (s.readUCTemp adc).2.t_fine =
        FP.fin ((tFineNum adc s.par_t16_0 s.par_t16_1 s.par_t3 : ℚ) * 2 ^ (-30 : ℤ)) ∧
    (s.readUCTemp adc).1 = FP.fin (binary64.rnd
        ((tFineNum adc s.par_t16_0 s.par_t16_1 s.par_t3 : ℚ) * 2 ^ (-30 : ℤ) / 5120)) := by
  obtain ⟨a1, a2⟩ := ha
  obtain ⟨b1, b2⟩ := h0
  obtain ⟨c1, c2⟩ := h1
  obtain ⟨d1, d2⟩ := h3
  set t0 := s.par_t16_0
  set t1 := s.par_t16_1
  set t3 := s.par_t3
  have hD : |adc - 16 * t0| ≤ 1572864 := by rw [abs_le]; constructor <;> omega
  have ht1 : |t1| ≤ 32768 := by rw [abs_le]; constructor <;> omega
  have ht3 : |t3| ≤ 128 := by rw [abs_le]; constructor <;> omega
  have hp : binary64.prec = 53 := rfl
  have hmin : binary64.emin = -1074 := rfl
  have hmx : binary64.emax = 1024 := rfl
  have e_a : binary64.ofInt adc = FP.fin (adc : ℚ) :=
    ofRat_of_eq binary64 adc 0 (by simp) (by rw [hp, abs_lt]; constructor <;> omega)
      (by rw [hmin]; norm_num) (by rw [hp, hmx]; norm_num)
  have e_t0 : binary64.ofInt t0 = FP.fin (t0 : ℚ) :=
    ofRat_of_eq binary64 t0 0 (by simp) (by rw [hp, abs_lt]; constructor <;> omega)
      (by rw [hmin]; norm_num) (by rw [hp, hmx]; norm_num)
  have e_t1 : binary64.ofInt t1 = FP.fin (t1 : ℚ) :=
    ofRat_of_eq binary64 t1 0 (by simp) (by rw [hp, abs_lt]; constructor <;> omega)
      (by rw [hmin]; norm_num) (by rw [hp, hmx]; norm_num)
  have e_t3 : binary64.ofInt t3 = FP.fin (t3 : ℚ) :=
    ofRat_of_eq binary64 t3 0 (by simp) (by rw [hp, abs_lt]; constructor <;> omega)
      (by rw [hmin]; norm_num) (by rw [hp, hmx]; norm_num)
  have e_a14 : binary64.ofRat ((adc : ℚ) / 16384) = FP.fin ((adc : ℚ) / 16384) :=
    ofRat_of_eq binary64 adc (-14) (by norm_num; ring) (by rw [hp, abs_lt]; constructor <;> omega)
      (by rw [hmin]; norm_num) (by rw [hp, hmx]; norm_num)
  have e_a17 : binary64.ofRat ((adc : ℚ) / 131072) = FP.fin ((adc : ℚ) / 131072) :=
    ofRat_of_eq binary64 adc (-17) (by norm_num; ring) (by rw [hp, abs_lt]; constructor <;> omega)
      (by rw [hmin]; norm_num) (by rw [hp, hmx]; norm_num)
  have e_t10 : binary64.ofRat ((t0 : ℚ) / 1024) = FP.fin ((t0 : ℚ) / 1024) :=
    ofRat_of_eq binary64 t0 (-10) (by norm_num; ring) (by rw [hp, abs_lt]; constructor <;> omega)
      (by rw [hmin]; norm_num) (by rw [hp, hmx]; norm_num)
  have e_t13 : binary64.ofRat ((t0 : ℚ) / 8192) = FP.fin ((t0 : ℚ) / 8192) :=
    ofRat_of_eq binary64 t0 (-13) (by norm_num; ring) (by rw [hp, abs_lt]; constructor <;> omega)
      (by rw [hmin]; norm_num) (by rw [hp, hmx]; norm_num)
  have e_c : binary64.ofRat ((adc : ℚ) / 16384 - (t0 : ℚ) / 1024) =
      FP.fin ((adc : ℚ) / 16384 - (t0 : ℚ) / 1024) :=
    ofRat_of_eq binary64 (adc - 16 * t0) (-14) (by push_cast; norm_num; ring)
      (by rw [hp]; exact lt_of_le_of_lt hD (by norm_num))
      (by rw [hmin]; norm_num) (by rw [hp, hmx]; norm_num)
  have e_h : binary64.ofRat ((adc : ℚ) / 131072 - (t0 : ℚ) / 8192) =
      FP.fin ((adc : ℚ) / 131072 - (t0 : ℚ) / 8192) :=
    ofRat_of_eq binary64 (adc - 16 * t0) (-17) (by push_cast; norm_num; ring)
      (by rw [hp]; exact lt_of_le_of_lt hD (by norm_num))
      (by rw [hmin]; norm_num) (by rw [hp, hmx]; norm_num)
  have e_v1 : binary64.ofRat (((adc : ℚ) / 16384 - (t0 : ℚ) / 1024) * t1) =
      FP.fin (((adc : ℚ) / 16384 - (t0 : ℚ) / 1024) * t1) :=
    ofRat_of_eq binary64 ((adc - 16 * t0) * t1) (-14) (by push_cast; norm_num; ring)
      (by rw [hp]; exact lt_of_le_of_lt (abs_mul_le hD ht1) (by norm_num))
      (by rw [hmin]; norm_num) (by rw [hp, hmx]; norm_num)
  have e_hh : binary64.ofRat (((adc : ℚ) / 131072 - (t0 : ℚ) / 8192) *
        ((adc : ℚ) / 131072 - (t0 : ℚ) / 8192)) =
      FP.fin (((adc : ℚ) / 131072 - (t0 : ℚ) / 8192) *
        ((adc : ℚ) / 131072 - (t0 : ℚ) / 8192)) :=
    ofRat_of_eq binary64 ((adc - 16 * t0) * (adc - 16 * t0)) (-34) (by push_cast; norm_num; ring)
      (by rw [hp]; exact lt_of_le_of_lt (abs_mul_le hD hD) (by norm_num))
      (by rw [hmin]; norm_num) (by rw [hp, hmx]; norm_num)
  have e_t316 : binary64.ofRat ((t3 : ℚ) * 16) = FP.fin ((t3 : ℚ) * 16) :=
    ofRat_of_eq binary64 (t3 * 16) 0 (by push_cast; norm_num)
      (by rw [hp]; exact lt_of_le_of_lt (abs_mul_le ht3 (by norm_num : |(16 : ℤ)| ≤ 16)) (by norm_num))
      (by rw [hmin]; norm_num) (by rw [hp, hmx]; norm_num)
  have e_v2 : binary64.ofRat (((adc : ℚ) / 131072 - (t0 : ℚ) / 8192) *
        ((adc : ℚ) / 131072 - (t0 : ℚ) / 8192) * ((t3 : ℚ) * 16)) =
      FP.fin (((adc : ℚ) / 131072 - (t0 : ℚ) / 8192) *
        ((adc : ℚ) / 131072 - (t0 : ℚ) / 8192) * ((t3 : ℚ) * 16)) :=
    ofRat_of_eq binary64 (((adc - 16 * t0) * (adc - 16 * t0)) * (t3 * 16)) (-34)
      (by push_cast; norm_num; ring)
      (by rw [hp]
          exact lt_of_le_of_lt (abs_mul_le (abs_mul_le hD hD)
            (abs_mul_le ht3 (by norm_num : |(16 : ℤ)| ≤ 16))) (by norm_num))
      (by rw [hmin]; norm_num) (by rw [hp, hmx]; norm_num)
  have hN := tFineNum_bound ⟨a1, a2⟩ ⟨b1, b2⟩ ⟨c1, c2⟩ ⟨d1, d2⟩
  have hsum : ((adc : ℚ) / 16384 - (t0 : ℚ) / 1024) * t1 +
      ((adc : ℚ) / 131072 - (t0 : ℚ) / 8192) * ((adc : ℚ) / 131072 - (t0 : ℚ) / 8192) *
        ((t3 : ℚ) * 16) = (tFineNum adc t0 t1 t3 : ℚ) * 2 ^ (-30 : ℤ) := by
    unfold tFineNum; push_cast; norm_num; ring
  have e_t : binary64.ofRat ((tFineNum adc t0 t1 t3 : ℚ) * 2 ^ (-30 : ℤ)) =
      FP.fin ((tFineNum adc t0 t1 t3 : ℚ) * 2 ^ (-30 : ℤ)) :=
    ofRat_of_eq binary64 (tFineNum adc t0 t1 t3) (-30) rfl
      (by rw [hp]; exact lt_trans hN (by norm_num))
      (by rw [hmin]; norm_num) (by rw [hp, hmx]; norm_num)
  have hfine : (s.readUCTemp adc).2.t_fine =
      FP.fin ((tFineNum adc t0 t1 t3 : ℚ) * 2 ^ (-30 : ℤ)) := by
    unfold readUCTemp
    simp only [e_a, e_t0, e_t1, e_t3, Fmt.div, Fmt.sub, Fmt.mul, Fmt.add,
      show (16384 : ℚ) ≠ 0 by norm_num, show (1024 : ℚ) ≠ 0 by norm_num,
      show (131072 : ℚ) ≠ 0 by norm_num, show (8192 : ℚ) ≠ 0 by norm_num, if_false,
      e_a14, e_a17, e_t10, e_t13, e_c, e_h, e_v1, e_hh, e_t316, e_v2, hsum, e_t]
  refine ⟨hfine, ?_⟩
  have hret : (s.readUCTemp adc).1 = binary64.div (s.readUCTemp adc).2.t_fine (FP.fin 5120) := rfl
  rw [hret, hfine]
  simp only [Fmt.div, show (5120 : ℚ) ≠ 0 by norm_num, if_false]
  apply ofRat_eq_of_lt
  have hb := rnd_abs_le binary64 (by decide)
    ((tFineNum adc t0 t1 t3 : ℚ) * 2 ^ (-30 : ℤ) / 5120)
  have hNq : |(tFineNum adc t0 t1 t3 : ℚ)| < 2 ^ 52 := by exact_mod_cast hN
  have hx : |(tFineNum adc t0 t1 t3 : ℚ) * 2 ^ (-30 : ℤ) / 5120| ≤ 2 ^ 52 := by
    rw [abs_div, abs_mul]
    have e1 : |(2 : ℚ) ^ (-30 : ℤ)| = 1 / 1073741824 := by norm_num
    have e2 : |(5120 : ℚ)| = 5120 := by norm_num
    rw [e1, e2]
    have := abs_nonneg (tFineNum adc t0 t1 t3 : ℚ)
    rw [div_le_iff₀ (by norm_num)]
    nlinarith
  have h1 : (2 : ℚ) ^ binary64.emin ≤ 1 := by
    rw [hmin]; exact zpow_le_one_of_nonpos₀ (by norm_num) (by norm_num)
  have h2 : (2 : ℚ) ^ (54 : ℤ) ≤ 2 ^ binary64.emax :=
    zpow_le_zpow_right₀ (by norm_num) (by decide)
  have h3 : (2 : ℚ) ^ (54 : ℤ) = 2 * 2 ^ 52 + 2 * 2 ^ 52 := by norm_num
  have h4 : (1 : ℚ) < 2 * 2 ^ 52 := by norm_num
  linarith

theorem readUCTemp_congr (s s' : BME688) (adc : ℤ) (h0 : s'.par_t16_0 = s.par_t16_0)
    (h1 : s'.par_t16_1 = s.par_t16_1) (h3 : s'.par_t3 = s.par_t3) :
    (s'.readUCTemp adc).1 = (s.readUCTemp adc).1 ∧
    (s'.readUCTemp adc).2.t_fine = (s.readUCTemp adc).2.t_fine := by
  unfold readUCTemp
  simp only [h0, h1, h3, and_self]

/-- Claim C7.  For a raw 20-bit temperature code and temperature coefficients within their
16-bit and 8-bit signed ranges, the fine-temperature term that `readUCTemp` stores equals
5120 times the value it returns, the product taken in binary64 as the code's own arithmetic
would; the returned value is finite; and both the returned value and the stored term depend
on the state only through the three temperature coefficients. -/
theorem readUCTemp_round_trip (s : BME688) (adc : ℤ) (ha : 0 ≤ adc ∧ adc < 2 ^ 20)
    (h0 : -32768 ≤ s.par_t16_0 ∧ s.par_t16_0 ≤ 32767)
    (h1 : -32768 ≤ s.par_t16_1 ∧ s.par_t16_1 ≤ 32767)
    (h3 : -128 ≤ s.par_t3 ∧ s.par_t3 ≤ 127) :
    (s.readUCTemp adc).2.t_fine = binary64.mul (FP.fin 5120) (s.readUCTemp adc).1 ∧
    (∃ c : ℚ, (s.readUCTemp adc).1 = FP.fin c) ∧
    (∀ s' : BME688, s'.par_t16_0 = s.par_t16_0 → s'.par_t16_1 = s.par_t16_1 →
      s'.par_t3 = s.par_t3 →
      (s'.readUCTemp adc).1 = (s.readUCTemp adc).1 ∧
      (s'.readUCTemp adc).2.t_fine = (s.readUCTemp adc).2.t_fine) := by
  obtain ⟨hf, hr⟩ := readUCTemp_exact s adc ha h0 h1 h3
  have hN := tFineNum_bound ha h0 h1 h3
  have hrt := div_mul_5120 binary64 (by decide) (tFineNum adc s.par_t16_0 s.par_t16_1 s.par_t3)
    (-30) (by simpa [binary64] using hN) (by decide)
  refine ⟨?_, ⟨_, hr⟩, fun s' e0 e1 e3 => readUCTemp_congr s s' adc e0 e1 e3⟩
  rw [hf, hr]
  simp only [Fmt.mul]
  rw [mul_comm (5120 : ℚ)]
  have hlt : |binary64.rnd (binary64.rnd
      ((tFineNum adc s.par_t16_0 s.par_t16_1 s.par_t3 : ℚ) * 2 ^ (-30 : ℤ) / 5120) * 5120)| <
      2 ^ binary64.emax := by
    rw [hrt, abs_mul]
    have hNq : |(tFineNum adc s.par_t16_0 s.par_t16_1 s.par_t3 : ℚ)| < 2 ^ 52 := by
      exact_mod_cast hN
    have e1 : |(2 : ℚ) ^ (-30 : ℤ)| = 1 / 1073741824 := by norm_num
    have h2 : (2 : ℚ) ^ (52 : ℤ) ≤ 2 ^ binary64.emax :=
      zpow_le_zpow_right₀ (by norm_num) (by decide)
    have h3 : (2 : ℚ) ^ (52 : ℤ) = 2 ^ 52 := by norm_num
    have := abs_nonneg (tFineNum adc s.par_t16_0 s.par_t16_1 s.par_t3 : ℚ)
    rw [e1]
    nlinarith
  rw [ofRat_eq_of_lt binary64 hlt, hrt]

/-- Witness for C7: raw code 500000 with the coefficients 26000, 26500 and 3. -/
theorem readUCTemp_round_trip_witness :
    (calibrated.readUCTemp 500000).2.t_fine =
      binary64.mul (FP.fin 5120) (calibrated.readUCTemp 500000).1 :=
  (readUCTemp_round_trip calibrated 500000 ⟨by decide, by decide⟩ ⟨by decide, by decide⟩
    ⟨by decide, by decide⟩ ⟨by decide, by decide⟩).1

/-! ## The operating configuration is framed -/

theorem config_emit (s : BME688) (e : Event) : config (s.emit e) = config s := rfl

theorem config_printLog (s : BME688) (m : Msg) : config (s.printLog m) = config s := by
  unfold printLog; split_ifs <;> rfl

theorem config_i2c_execute (s : BME688) (r d : ℕ) : config (s.i2c_execute r d) = config s := rfl

theorem config_requestFrom (env : Env) (s : BME688) (r n : ℕ) :
    config (s.requestFrom env r n).2 = config s := rfl

theorem config_i2c_readByte (env : Env) (s : BME688) (r d n : ℕ) :
    config (s.i2c_readByte env r d n).2 = config s := by
  rw [i2c_readByte_state]; rfl

theorem config_i2c_readByte_signed (env : Env) (s : BME688) (r : ℕ) (d : ℤ) (n : ℕ) :
    config (s.i2c_readByte_signed env r d n).2 = config s := by
  unfold i2c_readByte_signed; simp only; split_ifs <;> rfl

theorem config_i2c_read_Xbit (T : IntTy) (env : Env) (s : BME688) (r d n : ℕ) :
    config (s.i2c_read_Xbit T env r d n).2 = config s := by
  rw [i2c_read_Xbit_state]; rfl

theorem config_i2c_read_Xbit_LE (T : IntTy) (env : Env) (s : BME688) (r d n : ℕ) :
    config (s.i2c_read_Xbit_LE T env r d n).2 = config s := by
  rw [i2c_read_Xbit_LE_state]; rfl

theorem config_isConnected (env : Env) (s : BME688) : config (s.isConnected env).2 = config s := by
  unfold isConnected is_sensor_connected
  simp only [if_true]
  split_ifs <;> rw [config_i2c_readByte] <;> rfl

theorem config_showLogs (s : BME688) (b : Bool) : config (s.showLogs b) = config s := rfl

theorem config_readRawTemp (env : Env) (s : BME688) : config (s.readRawTemp env).2 = config s := by
  unfold readRawTemp; simp only
  split_ifs
  · exact config_i2c_read_Xbit _ _ _ _ _ _
  · rw [config_printLog]; exact config_i2c_read_Xbit _ _ _ _ _ _

theorem config_readRawPres (env : Env) (s : BME688) : config (s.readRawPres env).2 = config s := by
  unfold readRawPres; simp only
  split_ifs
  · exact config_i2c_read_Xbit _ _ _ _ _ _
  · rw [config_printLog]; exact config_i2c_read_Xbit _ _ _ _ _ _

theorem config_readRawHum (env : Env) (s : BME688) : config (s.readRawHum env).2 = config s := by
  unfold readRawHum; simp only
  split_ifs
  · exact config_i2c_read_Xbit _ _ _ _ _ _
  · rw [config_printLog]; exact config_i2c_read_Xbit _ _ _ _ _ _

theorem config_readUCTemp (s : BME688) (a : ℤ) : config (s.readUCTemp a).2 = config s := rfl
theorem config_readUCPres (s : BME688) (a : ℤ) : config (s.readUCPres a).2 = config s := rfl
theorem config_readUCHum (s : BME688) (a : ℤ) : config (s.readUCHum a).2 = config s := rfl
theorem config_readUCGas (env : Env) (s : BME688) (t : ℕ) :
    config (s.readUCGas env t).2 = config s := rfl

theorem config_readTemperature (env : Env) (s : BME688) :
    config (s.readTemperature env).2 = config s := by
  unfold readTemperature
  simp only [config_readUCTemp, config_readRawTemp, config_emit, config_i2c_execute]

theorem config_readPressure (env : Env) (s : BME688) :
    config (s.readPressure env).2 = config s := by
  unfold readPressure
  simp only [config_readUCPres, config_readRawPres, config_emit, config_i2c_execute]

theorem config_readHumidity (env : Env) (s : BME688) :
    config (s.readHumidity env).2 = config s := by
  unfold readHumidity
  simp only [config_readUCHum, config_readRawHum, config_emit, config_i2c_execute]

theorem config_checkGas (env : Env) (s : BME688) :
    config (s.checkGasMeasurementCompletion env).2 = config s := by
  unfold checkGasMeasurementCompletion; exact config_i2c_readByte _ _ _ _ _

theorem config_startGasMeasurement (env : Env) (s : BME688) (p w : ℕ) :
    config (s.startGasMeasurement env p w).2 = config s := by
  unfold startGasMeasurement
  simp only
  split_ifs
  · simp only [config_printLog, config_checkGas, config_emit, config_i2c_execute]
  · show config (i2c_readByte env _ _ _ _).2 = _
    simp only [config_i2c_readByte, config_i2c_read_Xbit, config_checkGas, config_emit,
      config_i2c_execute]

theorem config_readGasForTemperature (env : Env) (s : BME688) (t : ℕ) :
    config (s.readGasForTemperature env t).2 = config s := by
  unfold readGasForTemperature
  split_ifs
  · simp only [config_startGasMeasurement, config_i2c_execute, config_readUCGas]
  · exact config_printLog _ _
  · exact config_printLog _ _

theorem config_readGas (env : Env) (s : BME688) (p : ℕ) :
    config (s.readGas env p).2 = config s := by
  unfold readGas
  split_ifs
  · simp only [config_startGasMeasurement, config_readUCGas]
  · exact config_printLog _ _

theorem config_heatProfileStep (env : Env) (s : BME688) (i : ℕ) :
    config (heatProfileStep env s i) = config s := by
  unfold heatProfileStep
  simp only [config_i2c_execute, config_readUCGas, config_emit]

theorem config_foldl_heatProfileStep (env : Env) (l : List ℕ) (s : BME688) :
    config (l.foldl (heatProfileStep env) s) = config s := by
  induction l generalizing s with
  | nil => rfl
  | cons i l ih => rw [List.foldl_cons, ih, config_heatProfileStep]

theorem config_setHeatProfiles (env : Env) (s : BME688) :
    config (s.setHeatProfiles env).2 = config s := by
  unfold setHeatProfiles
  simp only [config_foldl_heatProfileStep, config_readTemperature]

theorem keepsConfig_readS16 (env : Env) (reg : ℕ) (get : BME688 → ℤ) (set : BME688 → ℤ → BME688)
    (hset : ∀ s v, config (set s v) = config s) : KeepsConfig (readS16 env reg get set) := by
  intro s
  unfold readS16; simp only
  split_ifs
  · rw [hset]; exact config_i2c_read_Xbit_LE _ _ _ _ _ _
  · exact config_i2c_read_Xbit_LE _ _ _ _ _ _

theorem keepsConfig_readU16 (env : Env) (le : Bool) (reg width : ℕ) (get : BME688 → ℕ)
    (set : BME688 → ℕ → BME688) (hset : ∀ s v, config (set s v) = config s) :
    KeepsConfig (readU16 env le reg width get set) := by
  intro s
  unfold readU16; simp only
  cases le <;> simp only [Bool.false_eq_true, if_false, if_true] <;> split_ifs <;>
    first
      | (rw [hset]; first | exact config_i2c_read_Xbit_LE _ _ _ _ _ _ | exact config_i2c_read_Xbit _ _ _ _ _ _)
      | exact config_i2c_read_Xbit_LE _ _ _ _ _ _
      | exact config_i2c_read_Xbit _ _ _ _ _ _

theorem keepsConfig_readS8 (env : Env) (reg : ℕ) (get : BME688 → ℤ) (set : BME688 → ℤ → BME688)
    (hset : ∀ s v, config (set s v) = config s) : KeepsConfig (readS8 env reg get set) := by
  intro s
  unfold readS8; simp only
  split_ifs
  · rw [hset]; exact config_i2c_readByte_signed _ _ _ _ _
  · exact config_i2c_readByte_signed _ _ _ _ _

theorem keepsConfig_readU8 (env : Env) (reg : ℕ) (get : BME688 → ℕ) (set : BME688 → ℕ → BME688)
    (hset : ∀ s v, config (set s v) = config s) : KeepsConfig (readU8 env reg get set) := by
  intro s
  unfold readU8; simp only
  split_ifs
  · rw [hset]; exact config_i2c_readByte _ _ _ _ _
  · exact config_i2c_readByte _ _ _ _ _

theorem config_chain (steps : List (BME688 → Bool × BME688))
    (h : ∀ f ∈ steps, KeepsConfig f) (s : BME688) :
    config (chain steps s).2 = config s := by
  unfold chain
  suffices H : ∀ (acc : Bool × BME688),
      config (steps.foldl (fun acc step => if acc.1 then step acc.2 else acc) acc).2 =
        config acc.2 from H (true, s)
  induction steps with
  | nil => intro acc; rfl
  | cons f fs ih =>
    intro acc
    rw [List.foldl_cons, ih (fun g hg => h g (List.mem_cons_of_mem _ hg))]
    split_ifs
    · exact h f (List.mem_cons_self _ _) _
    · rfl

theorem config_logUnless (m : Msg) (r : Bool × BME688) : config (logUnless m r) = config r.2 := by
  unfold logUnless; split_ifs
  · rfl
  · exact config_printLog _ _

theorem config_group (m : Msg) (steps : List (BME688 → Bool × BME688))
    (h : ∀ f ∈ steps, KeepsConfig f) (s : BME688) :
    config (logUnless m (chain steps s)) = config s := by
  rw [config_logUnless, config_chain steps h]

theorem forall_mem_cons_of {α : Type} {P : α → Prop} {a : α} {l : List α} (ha : P a)
    (hl : ∀ x ∈ l, P x) : ∀ x ∈ a :: l, P x := by
  intro x hx
  rcases List.mem_cons.mp hx with rfl | h
  · exact ha
  · exact hl x h

theorem forall_mem_nil_of {α : Type} {P : α → Prop} : ∀ x ∈ ([] : List α), P x := by
  intro x hx; exact absurd hx (List.not_mem_nil x)

theorem config_readCalibParams (env : Env) (s : BME688) :
    config (s.readCalibParams env) = config s := by
  have k16 := fun reg get set h => keepsConfig_readS16 env reg get set h
  have k8 := fun reg get set h => keepsConfig_readS8 env reg get set h
  have u16 := fun le reg w get set h => keepsConfig_readU16 env le reg w get set h
  have u8 := fun reg get set h => keepsConfig_readU8 env reg get set h
  unfold readCalibParams
  simp only [config_setHeatProfiles]
  refine (config_group _ _ ?_ _).trans ((config_group _ _ ?_ _).trans
    ((config_group _ _ ?_ _).trans (config_group _ _ ?_ _)))
  · exact forall_mem_cons_of (k8 _ _ _ fun _ _ => rfl) <|
      forall_mem_cons_of (k16 _ _ _ fun _ _ => rfl) <|
      forall_mem_cons_of (k8 _ _ _ fun _ _ => rfl) <|
      forall_mem_cons_of (u8 _ _ _ fun _ _ => rfl) <|
      forall_mem_cons_of (k8 _ _ _ fun _ _ => rfl) forall_mem_nil_of
  · exact forall_mem_cons_of (u16 _ _ _ _ _ fun _ _ => rfl) <|
      forall_mem_cons_of (u16 _ _ _ _ _ fun _ _ => rfl) <|
      forall_mem_cons_of (k8 _ _ _ fun _ _ => rfl) <|
      forall_mem_cons_of (k8 _ _ _ fun _ _ => rfl) <|
      forall_mem_cons_of (k8 _ _ _ fun _ _ => rfl) <|
      forall_mem_cons_of (u8 _ _ _ fun _ _ => rfl) <|
      forall_mem_cons_of (k8 _ _ _ fun _ _ => rfl) forall_mem_nil_of
  · exact forall_mem_cons_of (u16 _ _ _ _ _ fun _ _ => rfl) <|
      forall_mem_cons_of (k16 _ _ _ fun _ _ => rfl) <|
      forall_mem_cons_of (k8 _ _ _ fun _ _ => rfl) <|
      forall_mem_cons_of (k16 _ _ _ fun _ _ => rfl) <|
      forall_mem_cons_of (k16 _ _ _ fun _ _ => rfl) <|
      forall_mem_cons_of (k8 _ _ _ fun _ _ => rfl) <|
      forall_mem_cons_of (k8 _ _ _ fun _ _ => rfl) <|
      forall_mem_cons_of (k16 _ _ _ fun _ _ => rfl) <|
      forall_mem_cons_of (k16 _ _ _ fun _ _ => rfl) <|
      forall_mem_cons_of (u8 _ _ _ fun _ _ => rfl) forall_mem_nil_of
  · exact forall_mem_cons_of (k16 _ _ _ fun _ _ => rfl) <|
      forall_mem_cons_of (k16 _ _ _ fun _ _ => rfl) <|
      forall_mem_cons_of (k8 _ _ _ fun _ _ => rfl) forall_mem_nil_of

theorem config_configure (env : Env) (s : BME688) (h c : ℕ) :
    config (configure env s h c) = config s := by
  unfold configure
  simp only [config_readCalibParams, config_i2c_execute]

theorem config_begin (env : Env) (s : BME688) : config (s.begin env).2 = config s := by
  unfold begin
  simp only [config_isConnected]
  split_ifs
  · simp only [config_configure, config_isConnected, config_emit]
  · simp only [config_printLog, config_isConnected, config_emit]

theorem config_beginMode (env : Env) (s : BME688) (m : ℕ) :
    config (s.beginMode env m).2 = config s := by
  unfold beginMode
  simp only
  split_ifs <;>
    simp only [config_configure, config_isConnected, config_emit, config_printLog]

theorem config_beginModeOss (env : Env) (s : BME688) (m o : ℕ) :
    config (s.beginModeOss env m o).2 = config s := by
  unfold beginModeOss
  simp only
  split_ifs <;>
    simp only [config_configure, config_isConnected, config_emit, config_printLog]

/-! ## Configuration invariants and the control word -/

theorem ctrlWord_of_config {s s' : BME688} (h : config s' = config s) :
    ctrlWord s' = ctrlWord s := by
  simp only [config, Prod.mk.injEq] at h
  obtain ⟨h1, h2, _, h4, _⟩ := h
  unfold ctrlWord
  rw [h1, h2, h4]

theorem readRawPres_writes (env : Env) (s : BME688) :
    writes (s.readRawPres env).2.trace = writes s.trace := by
  unfold readRawPres
  simp only
  split_ifs
  · simp [writes_append, writes]
  · rw [printLog_writes]; simp [writes_append, writes]

theorem readRawHum_writes (env : Env) (s : BME688) :
    writes (s.readRawHum env).2.trace = writes s.trace := by
  unfold readRawHum
  simp only
  split_ifs
  · simp [writes_append, writes]
  · rw [printLog_writes]; simp [writes_append, writes]

theorem readPressure_writes (env : Env) (s : BME688) :
    writes (s.readPressure env).2.trace = writes s.trace ++
      [(BME_688_CTRL_MEAS_REG, ctrlWord s % 256)] := by
  unfold readPressure
  have h : ∀ (x : BME688) (a : ℤ), (x.readUCPres a).2.trace = x.trace := fun _ _ => rfl
  simp only [h, readRawPres_writes]
  simp [writes_append, writes, BME_688_CTRL_MEAS_REG]

theorem readHumidity_writes (env : Env) (s : BME688) :
    writes (s.readHumidity env).2.trace = writes s.trace ++
      [(BME_688_CTRL_MEAS_HUM_REG, s.hum_oss % 256), (BME_688_CTRL_MEAS_REG, ctrlWord s % 256)] := by
  unfold readHumidity
  have h : ∀ (x : BME688) (a : ℤ), (x.readUCHum a).2.trace = x.trace := fun _ _ => rfl
  have hc : ctrlWord (s.i2c_execute BME_688_CTRL_MEAS_HUM_REG s.hum_oss) = ctrlWord s := rfl
  simp only [h, readRawHum_writes, hc]
  simp [writes_append, writes, BME_688_CTRL_MEAS_REG, BME_688_CTRL_MEAS_HUM_REG]

/-- Claim C16.  Every public operation other than the setters leaves the three oversampling
settings, the mode and the safety override unchanged; in particular after
`begin(mode, oss)` the control word that a reading writes to the measurement-control
register is the one built from the fields stored before, not from the arguments. -/
theorem config_only_by_setters (env : Env) (s : BME688) (mode oss t p : ℕ) (b : Bool) :
    config (s.begin env).2 = config s ∧
    config (s.beginMode env mode).2 = config s ∧
    config (s.beginModeOss env mode oss).2 = config s ∧
    config (s.readTemperature env).2 = config s ∧
    config (s.readPressure env).2 = config s ∧
    config (s.readHumidity env).2 = config s ∧
    config (s.readGasForTemperature env t).2 = config s ∧
    config (s.readGas env p).2 = config s ∧
    config (s.isConnected env).2 = config s ∧
    config (s.showLogs b) = config s ∧
    writes ((s.beginModeOss env mode oss).2.readTemperature env).2.trace =
      writes (s.beginModeOss env mode oss).2.trace ++
        [(BME_688_CTRL_MEAS_REG, ctrlWord s % 256)] := by
  refine ⟨config_begin _ _, config_beginMode _ _ _, config_beginModeOss _ _ _ _,
    config_readTemperature _ _, config_readPressure _ _, config_readHumidity _ _,
    config_readGasForTemperature _ _ _, config_readGas _ _ _, config_isConnected _ _,
    config_showLogs _ _, ?_⟩
  rw [readTemperature_writes, ← ctrlWord_of_config (config_beginModeOss env s mode oss)]
  rfl

theorem ctrlWord_bits {t p m : ℕ} (ht : t ≤ 5) (hp : p ≤ 5) (hm : m ≤ 2) :
    (((t <<< 5) ||| (p <<< 2)) ||| m) < 256 ∧
    (((t <<< 5) ||| (p <<< 2)) ||| m) >>> 5 = t ∧
    ((((t <<< 5) ||| (p <<< 2)) ||| m) >>> 2) &&& 7 = p ∧
    (((t <<< 5) ||| (p <<< 2)) ||| m) &&& 3 = m := by
  interval_cases t <;> interval_cases p <;> interval_cases m <;> decide

theorem reachable_bounds {s : BME688} (h : Reachable s) :
    s.temp_oss ≤ 5 ∧ s.press_oss ≤ 5 ∧ s.mode ≤ 2 := by
  have key : ∀ {a b : BME688}, config b = config a →
      (a.temp_oss ≤ 5 ∧ a.press_oss ≤ 5 ∧ a.mode ≤ 2) →
      (b.temp_oss ≤ 5 ∧ b.press_oss ≤ 5 ∧ b.mode ≤ 2) := by
    intro a b hc ha
    simp only [config, Prod.mk.injEq] at hc
    obtain ⟨h1, h2, _, h4, _⟩ := hc
    rw [h1, h2, h4]; exact ha
  induction h with
  | fresh a =>
    refine ⟨?_, ?_, ?_⟩
    · show BME_688_OSS_1 ≤ 5
      decide
    · show BME_688_OSS_1 ≤ 5
      decide
    · show BME_688_FORCED_MODE ≤ 2
      decide
  | begin env s _ ih => exact key (config_begin env s) ih
  | beginMode env s m _ ih => exact key (config_beginMode env s m) ih
  | beginModeOss env s m o _ ih => exact key (config_beginModeOss env s m o) ih
  | readTemperature env s _ ih => exact key (config_readTemperature env s) ih
  | readPressure env s _ ih => exact key (config_readPressure env s) ih
  | readHumidity env s _ ih => exact key (config_readHumidity env s) ih
  | readGasForTemperature env s t _ ih => exact key (config_readGasForTemperature env s t) ih
  | readGas env s p _ ih => exact key (config_readGas env s p) ih
  | showLogs s b _ ih => exact ih
  | setTemperatureOversampling s o _ ih =>
    unfold BME688.setTemperatureOversampling
    split_ifs with ho
    · exact ⟨ho, ih.2.1, ih.2.2⟩
    · exact key (config_printLog s _) ih
  | ignoreUnsafeTemperatureWarnings s b _ ih =>
    unfold BME688.ignoreUnsafeTemperatureWarnings BME688.printLog
    split_ifs <;> exact ih
  | isConnected env s _ ih => exact key (config_isConnected env s) ih

/-- Claim C19.  In every reachable state the temperature and pressure oversampling are at
most 5 and the mode at most 2; the control word `temp_oss << 5 | press_oss << 2 | mode`
is below 256, its bits 7-5, 4-2 and 1-0 are the three fields, and it is the value that
`readTemperature`, `readPressure` and `readHumidity` write to the measurement-control
register. -/
theorem reachable_ctrlWord_lossless (env : Env) (s : BME688) (h : Reachable s) :
    (s.temp_oss ≤ 5 ∧ s.press_oss ≤ 5 ∧ s.mode ≤ 2) ∧
    ctrlWord s < 256 ∧
    ctrlWord s >>> 5 = s.temp_oss ∧
    (ctrlWord s >>> 2) &&& 7 = s.press_oss ∧
    ctrlWord s &&& 3 = s.mode ∧
    writes (s.readTemperature env).2.trace =
      writes s.trace ++ [(BME_688_CTRL_MEAS_REG, ctrlWord s)] ∧
    writes (s.readPressure env).2.trace =
      writes s.trace ++ [(BME_688_CTRL_MEAS_REG, ctrlWord s)] ∧
    writes (s.readHumidity env).2.trace =
      writes s.trace ++ [(BME_688_CTRL_MEAS_HUM_REG, s.hum_oss % 256),
        (BME_688_CTRL_MEAS_REG, ctrlWord s)] := by
  obtain ⟨ht, hp, hm⟩ := reachable_bounds h
  obtain ⟨b1, b2, b3, b4⟩ := ctrlWord_bits ht hp hm
  have hmod : ctrlWord s % 256 = ctrlWord s := Nat.mod_eq_of_lt b1
  refine ⟨⟨ht, hp, hm⟩, b1, b2, b3, b4, ?_, ?_, ?_⟩
  · rw [readTemperature_writes]
    show _ ++ [(_, ctrlWord s % 256)] = _
    rw [hmod]
  · rw [readPressure_writes, hmod]
  · rw [readHumidity_writes, hmod]

/-- Witness for C19: the state after a temperature reading on a fresh instance. -/
theorem reachable_ctrlWord_lossless_witness :
    ctrlWord ((fresh 0x76).readTemperature gasDevice).2 < 256 :=
  (reachable_ctrlWord_lossless gasDevice _
    (Reachable.readTemperature gasDevice _ (Reachable.fresh 0x76))).2.1

/-- Claim C13.  `readUCPres` and `readUCHum` leave the stored fine-temperature term as it
was; their results are determined by the raw code, the stored term and the pressure
(respectively humidity) coefficients; the stored term is indeed read, as changing it alone
changes both results; and the term of a fresh instance is 0. -/
theorem readUCPres_readUCHum_frame (s : BME688) (adc : ℤ) (address : ℕ) :
    (s.readUCPres adc).2.t_fine = s.t_fine ∧
    (s.readUCHum adc).2.t_fine = s.t_fine ∧
    (∀ s' : BME688, s'.t_fine = s.t_fine → s'.par_p1 = s.par_p1 →
      s'.par_p16_1 = s.par_p16_1 → s'.par_p16_2 = s.par_p16_2 → s'.par_p16_3 = s.par_p16_3 →
      s'.par_p16_4 = s.par_p16_4 → s'.par_p16_5 = s.par_p16_5 → s'.par_p8_0 = s.par_p8_0 →
      s'.par_p8_1 = s.par_p8_1 → s'.par_p8_2 = s.par_p8_2 → s'.par_p10 = s.par_p10 →
      (s'.readUCPres adc).1 = (s.readUCPres adc).1) ∧
    (∀ s' : BME688, s'.t_fine = s.t_fine → s'.par_h16_0 = s.par_h16_0 →
      s'.par_h16_1 = s.par_h16_1 → s'.par_h8_0 = s.par_h8_0 → s'.par_h8_1 = s.par_h8_1 →
      s'.par_h8_2 = s.par_h8_2 → s'.par_h6 = s.par_h6 → s'.par_h8_4 = s.par_h8_4 →
      (s'.readUCHum adc).1 = (s.readUCHum adc).1) ∧
    (({ fresh 0x76 with par_p1 := 1, par_p16_1 := 16384, t_fine := FP.fin 1024 } :
        BME688).readUCPres 0).1 ≠
      (({ fresh 0x76 with par_p1 := 1, par_p16_1 := 16384 } : BME688).readUCPres 0).1 ∧
    (({ fresh 0x76 with par_h8_0 := 2, par_h16_1 := 1, t_fine := FP.fin 5120 } :
        BME688).readUCHum 0).1 ≠
      (({ fresh 0x76 with par_h8_0 := 2, par_h16_1 := 1 } : BME688).readUCHum 0).1 ∧
    (fresh address).t_fine = FP.fin 0 := by
  refine ⟨rfl, rfl, ?_, ?_, by decide!, by decide!, rfl⟩
  · intro s' e0 e1 e2 e3 e4 e5 e6 e7 e8 e9 e10
    unfold readUCPres presDivisor
    simp only [e0, e1, e2, e3, e4, e5, e6, e7, e8, e9, e10]
  · intro s' e0 e1 e2 e3 e4 e5 e6 e7
    unfold readUCHum
    simp only [e0, e1, e2, e3, e4, e5, e6, e7]

/-- Witness for C13: switching the logs on changes neither compensation of raw code 1000 on
a fresh instance. -/
theorem readUCPres_readUCHum_frame_witness :
    (((fresh 0x76).showLogs true).readUCPres 1000).1 = ((fresh 0x76).readUCPres 1000).1 ∧
    (((fresh 0x76).showLogs true).readUCHum 1000).1 = ((fresh 0x76).readUCHum 1000).1 :=
  ⟨(readUCPres_readUCHum_frame (fresh 0x76) 1000 0x76).2.2.1 ((fresh 0x76).showLogs true)
      rfl rfl rfl rfl rfl rfl rfl rfl rfl rfl rfl,
   (readUCPres_readUCHum_frame (fresh 0x76) 1000 0x76).2.2.2.1 ((fresh 0x76).showLogs true)
      rfl rfl rfl rfl rfl rfl rfl rfl⟩

/-! ## Order of the register writes of a gas measurement -/

theorem readGasForTemperature_accepted (env : Env) (s : BME688) (t : ℕ)
    (h : t ≤ 425 ∨ (t < 600 ∧ s.allowHighTemps = true)) :
    s.readGasForTemperature env t =
      (programmedState env s t).startGasMeasurement env BME_688_GAS_PROFILE_START
        (waitCode env (s.readUCGas env t).1 17 + 5) := by
  have hc : (s.allowHighTemps || decide (t ≤ BME_688_HEAT_PLATE_MAX_TEMP)) = true := by
    unfold BME_688_HEAT_PLATE_MAX_TEMP
    rcases h with h | ⟨_, h⟩
    · simp [h]
    · simp [h]
  have hu : t < BME_688_HEAT_PLATE_ULTRA_TEMP := by
    unfold BME_688_HEAT_PLATE_ULTRA_TEMP
    rcases h with h | ⟨h, _⟩ <;> omega
  unfold readGasForTemperature programmedState
  simp only [hc, hu, if_true]

theorem programmedState_trace (env : Env) (s : BME688) (t : ℕ) :
    (programmedState env s t).trace = s.trace ++
      [Event.write BME_688_CTRL_GAS_REG 0x20,
       Event.write BME_688_GAS_WAIT_PROFILE_REG (waitCode env (s.readUCGas env t).1 17),
       Event.write BME_688_GAS_RES_HEAT_PROFILE_REG (s.readUCGas env t).1] := by
  simp only [programmedState, i2c_execute, emit, readUCGas_trace, List.append_assoc,
    List.singleton_append, List.cons_append, List.nil_append,
    Nat.mod_eq_of_lt (waitCode_lt _ _ _), Nat.mod_eq_of_lt (readUCGas_lt _ _ _)]
  rfl

theorem programmedState_mode (env : Env) (s : BME688) (t : ℕ) :
    (programmedState env s t).mode = s.mode := readUCGas_mode env s t

theorem programmedState_printLogs (env : Env) (s : BME688) (t : ℕ) :
    (programmedState env s t).printLogs = s.printLogs := readUCGas_printLogs env s t

/-- Claim C11.  For an accepted target the transcript of `readGasForTemperature` continues
with exactly: gas control 0x71 <- 0x20, wait-time slot 0 (0x64) <- wait code, heater slot 0
(0x5A) <- heater code `readUCGas(t)`, gas control 0x71 <- 0x20 | 0, measurement control
0x74 <- mode, then the delay of wait code + 5 and the status read; whatever follows
contains no register write. -/
theorem readGasForTemperature_write_order (env : Env) (s : BME688) (t : ℕ)
    (h : t ≤ 425 ∨ (t < 600 ∧ s.allowHighTemps = true)) :
    ∃ rest, writes rest = [] ∧
      (s.readGasForTemperature env t).2.trace = s.trace ++
        [Event.write BME_688_CTRL_GAS_REG 0x20,
         Event.write BME_688_GAS_WAIT_PROFILE_REG (waitCode env (s.readUCGas env t).1 17),
         Event.write BME_688_GAS_RES_HEAT_PROFILE_REG (s.readUCGas env t).1,
         Event.write BME_688_CTRL_GAS_REG (BME_688_GAS_RUN ||| 0),
         Event.write BME_688_CTRL_MEAS_REG (s.mode % 256),
         Event.delay ((waitCode env (s.readUCGas env t).1 17 + 5) % 256),
         Event.read BME_688_GAS_MEAS_STATUS_REG1 1] ++ rest := by
  rw [readGasForTemperature_accepted env s t h]
  by_cases hc : statusByte env (startedTrace (programmedState env s t) BME_688_GAS_PROFILE_START
      (waitCode env (s.readUCGas env t).1 17 + 5)) &&& 0x30 = 0x30
  · refine ⟨[Event.read BME_688_GAS_ADC_REG 2, Event.read BME_688_GAS_RANGE_REG 1], rfl, ?_⟩
    rw [startGasMeasurement_complete_trace _ _ _ _ hc]
    simp [startedTrace, programmedState_trace, programmedState_mode, BME_688_GAS_PROFILE_START]
  · refine ⟨if s.printLogs then [Event.print Msg.GAS_MEAS_FAILURE] else [], ?_, ?_⟩
    · split_ifs <;> rfl
    · rw [startGasMeasurement_incomplete _ _ _ _ hc, printLog_trace, check_trace,
        check_printLogs, startedState_trace, startedState_printLogs, programmedState_printLogs]
      simp [startedTrace, programmedState_trace, programmedState_mode, BME_688_GAS_PROFILE_START]

/-- Witness for C11: target 300 on a fresh instance. -/
theorem readGasForTemperature_write_order_witness :
    ∃ rest, writes rest = [] ∧
      ((fresh 0x76).readGasForTemperature gasDevice 300).2.trace = (fresh 0x76).trace ++
        [Event.write BME_688_CTRL_GAS_REG 0x20,
         Event.write BME_688_GAS_WAIT_PROFILE_REG
           (waitCode gasDevice ((fresh 0x76).readUCGas gasDevice 300).1 17),
         Event.write BME_688_GAS_RES_HEAT_PROFILE_REG ((fresh 0x76).readUCGas gasDevice 300).1,
         Event.write BME_688_CTRL_GAS_REG (BME_688_GAS_RUN ||| 0),
         Event.write BME_688_CTRL_MEAS_REG ((fresh 0x76).mode % 256),
         Event.delay ((waitCode gasDevice ((fresh 0x76).readUCGas gasDevice 300).1 17 + 5) % 256),
         Event.read BME_688_GAS_MEAS_STATUS_REG1 1] ++ rest :=
  readGasForTemperature_write_order gasDevice (fresh 0x76) 300 (Or.inl (by decide))

/-! ## Wait code and the reference resistance -/

/-- The double-precision value `0.25 * c - 17` is exact for an 8-bit code, so the wait code is
the truncation of the exact quotient. -/
theorem waitCode_eq (env : Env) (c : ℕ) (hc : c ≤ 255) :
    waitCode env c 17 = castU8 env.ub (FP.fin ((c : ℚ) / 4 - 17)) := by
  unfold waitCode
  have h1 : binary64.ofInt (c : ℤ) = FP.fin ((c : ℤ) : ℚ) :=
    ofInt_exact binary64 c (by
      rw [abs_of_nonneg (by positivity)]
      have : (c : ℤ) ≤ 255 := by exact_mod_cast hc
      have h2 : (256 : ℤ) ≤ 2 ^ binary64.prec := by decide
      omega) (by decide) (by decide)
  have h2 : binary64.ofRat (1 / 4 * ((c : ℤ) : ℚ)) = FP.fin (1 / 4 * ((c : ℤ) : ℚ)) :=
    ofRat_of_eq binary64 (c : ℤ) (-2) (by norm_num [zpow_neg]; ring) (by
      rw [abs_of_nonneg (by positivity)]
      have : (c : ℤ) ≤ 255 := by exact_mod_cast hc
      have h2 : (256 : ℤ) ≤ 2 ^ binary64.prec := by decide
      omega) (by decide) (by decide)
  have h3 : binary64.ofRat (1 / 4 * ((c : ℤ) : ℚ) - 17) = FP.fin (1 / 4 * ((c : ℤ) : ℚ) - 17) :=
    ofRat_of_eq binary64 ((c : ℤ) - 68) (-2) (by push_cast; norm_num [zpow_neg]; ring) (by
      have : (c : ℤ) ≤ 255 := by exact_mod_cast hc
      have h0 : (0 : ℤ) ≤ c := by positivity
      have h2 : (256 : ℤ) ≤ 2 ^ binary64.prec := by decide
      rw [abs_lt]; constructor <;> omega) (by decide) (by decide)
  rw [h1]
  simp only [Fmt.mul, h2, Fmt.sub, h3]
  congr 2
  push_cast
  ring

theorem truncate_quarter (c : ℕ) (h : 65 ≤ c) :
    truncate ((c : ℚ) / 4 - 17) = ((c / 4 - 17 : ℕ) : ℤ) := by
  unfold truncate
  by_cases h68 : 68 ≤ c
  · have hx : (0 : ℚ) ≤ (c : ℚ) / 4 - 17 := by
      have : (68 : ℚ) ≤ c := by exact_mod_cast h68
      linarith
    rw [if_pos hx, Int.floor_eq_iff]
    have h1 : c / 4 * 4 ≤ c := Nat.div_mul_le_self c 4
    have h2 : c < c / 4 * 4 + 4 := by omega
    have h3 : 17 ≤ c / 4 := by omega
    have e : (((c / 4 - 17 : ℕ) : ℤ) : ℚ) = ((c / 4 : ℕ) : ℚ) - 17 := by
      rw [Int.cast_natCast, Nat.cast_sub h3]; norm_num
    have h1q : ((c / 4 : ℕ) : ℚ) * 4 ≤ c := by exact_mod_cast h1
    have h2q : (c : ℚ) < ((c / 4 : ℕ) : ℚ) * 4 + 4 := by exact_mod_cast h2
    rw [e]
    constructor <;> linarith
  · have hx : ¬ (0 : ℚ) ≤ (c : ℚ) / 4 - 17 := by
      have : (c : ℚ) < 68 := by exact_mod_cast (not_le.mp h68)
      intro h0; linarith
    rw [if_neg hx, Int.ceil_eq_iff]
    have h3 : c / 4 - 17 = 0 := by omega
    have h65 : (65 : ℚ) ≤ c := by exact_mod_cast h
    have : (c : ℚ) < 68 := by exact_mod_cast (not_le.mp h68)
    rw [h3]
    constructor <;> norm_num <;> linarith

/-- Counterexample for C12: for heater code 65 the value 0.25 * 65 - 17 = -0.75 is converted
to 0 on every device and platform, while its floor is -1 (255 as an 8-bit value). -/
theorem waitCode_floor_counterexample :
    waitCode gasDevice 65 17 = 0 ∧ ⌊(1 / 4 : ℚ) * 65 - 17⌋ = -1 ∧
      (⌊(1 / 4 : ℚ) * 65 - 17⌋ % 256).toNat = 255 ∧
      (waitCode gasDevice 65 17 : ℤ) ≠ ⌊(1 / 4 : ℚ) * 65 - 17⌋ ∧
      (waitCode gasDevice 65 17 : ℤ) ≠ ⌊(1 / 4 : ℚ) * 65 - 17⌋ % 256 := by
  decide!

/-- Claim C12, amended.  For every heater code `c` in 65..255 the wait code is
`0.25 * c - 17` truncated toward zero, whatever the platform: `c / 4 - 17` (integer
division) for `68 ≤ c`, where it is also the floor, and 0 for `c` = 65, 66, 67; it never
exceeds 46. -/
theorem waitCode_truncates (env : Env) (c : ℕ) (h65 : 65 ≤ c) (hc : c ≤ 255) :
    (waitCode env c 17 : ℤ) = truncate ((1 / 4 : ℚ) * c - 17) ∧
    (68 ≤ c → waitCode env c 17 + 17 = c / 4 ∧
      (waitCode env c 17 : ℤ) = ⌊(1 / 4 : ℚ) * c - 17⌋ ∧
      (waitCode env c 17 : ℤ) = ⌊(c : ℚ) / 4⌋ - 17) ∧
    (c < 68 → waitCode env c 17 = 0) ∧
    waitCode env c 17 ≤ 46 := by
  have ht := truncate_quarter c h65
  have hw : waitCode env c 17 = c / 4 - 17 := by
    rw [waitCode_eq env c hc]
    simp only [castU8, ht]
    rw [if_pos ⟨by positivity, by omega⟩, Int.toNat_natCast]
  have e : (1 / 4 : ℚ) * c - 17 = (c : ℚ) / 4 - 17 := by ring
  refine ⟨by rw [e, ht, hw], fun h68 => ?_, fun h => by omega, by omega⟩
  have hx : (0 : ℚ) ≤ (c : ℚ) / 4 - 17 := by
    have : (68 : ℚ) ≤ c := by exact_mod_cast h68
    linarith
  have hf : ⌊(c : ℚ) / 4 - 17⌋ = ((c / 4 - 17 : ℕ) : ℤ) := by
    rw [← ht, truncate, if_pos hx]
  refine ⟨by omega, by rw [e, hf, hw], ?_⟩
  have h17 : ⌊(c : ℚ) / 4 - 17⌋ = ⌊(c : ℚ) / 4⌋ - 17 := by
    have := Int.floor_sub_int ((c : ℚ) / 4) 17
    exact_mod_cast this
  rw [← h17, hf, hw]

/-- Witness for C12: heater code 200 gives wait code 33. -/
theorem waitCode_truncates_witness :
    waitCode gasDevice 200 17 + 17 = 200 / 4 :=
  ((waitCode_truncates gasDevice 200 (by decide) (by decide)).2.1 (by decide)).1

/-- Counterexample for C15: on the device whose gas registers give ADC code 512 and range 0
the completed measurement returns 64000000, which is not a value of the form 64000.976... -/
theorem startGasMeasurement_adc512_counterexample :
    gasAdcRead gasDevice
      (startedTrace (fresh 0x76) 0 0 ++ [Event.read BME_688_GAS_MEAS_STATUS_REG1 1]) = 512 ∧
    gasRangeRead gasDevice
      (startedTrace (fresh 0x76) 0 0 ++ [Event.read BME_688_GAS_MEAS_STATUS_REG1 1] ++
        [Event.read BME_688_GAS_ADC_REG 2]) = 0 ∧
    ((fresh 0x76).startGasMeasurement gasDevice 0 0).1 = FP.fin 64000000 ∧
    ∀ x : ℚ, 64000 ≤ x → x < 64001 →
      ((fresh 0x76).startGasMeasurement gasDevice 0 0).1 ≠ FP.fin x := by
  have h : ((fresh 0x76).startGasMeasurement gasDevice 0 0).1 = FP.fin 64000000 := by decide!
  refine ⟨by decide, by decide, h, fun x h1 h2 he => ?_⟩
  rw [h] at he
  injection he with he
  rw [← he] at h2
  norm_num at h2

theorem gasResistance_512_0 : gasResistance 512 0 = FP.fin 64000000 := by decide!

/-- Claim C15, amended.  A completed `startGasMeasurement` that reads ADC code 512 and range
nibble 0 returns exactly 64000000 ohms, the value of `1e6 * (262144 >> 0) / (3 * 0 + 4096)`. -/
theorem startGasMeasurement_adc512 (env : Env) (s : BME688) (p w : ℕ)
    (h : statusByte env (startedTrace s p w) &&& 0x30 = 0x30)
    (ha : gasAdcRead env (startedTrace s p w ++ [Event.read BME_688_GAS_MEAS_STATUS_REG1 1]) = 512)
    (hr : gasRangeRead env (startedTrace s p w ++ [Event.read BME_688_GAS_MEAS_STATUS_REG1 1] ++
      [Event.read BME_688_GAS_ADC_REG 2]) = 0) :
    (s.startGasMeasurement env p w).1 = FP.fin 64000000 ∧
    (64000000 : ℚ) = 1000000 * ((262144 >>> 0 : ℕ) : ℚ) / (3 * (512 - 512) + 4096) := by
  refine ⟨?_, by norm_num⟩
  rw [startGasMeasurement_complete_value env s p w h, ha, hr]
  exact gasResistance_512_0

/-- Witness for C15: the device with status 0x30 and gas registers 0x80, 0x30. -/
theorem startGasMeasurement_adc512_witness :
    ((fresh 0x76).startGasMeasurement gasDevice 0 0).1 = FP.fin 64000000 :=
  (startGasMeasurement_adc512 gasDevice (fresh 0x76) 0 0 (by decide) (by decide) (by decide)).1

/-! ## Sign of the gas resistance -/

theorem shiftRight_262144_ge {r : ℕ} (hr : r < 16) : 8 ≤ 262144 >>> r := by
  interval_cases r <;> decide

theorem gasResistance_pos {adc r : ℕ} (ha : adc < 1024) (hr : r < 16) :
    ∃ v : ℚ, gasResistance adc r = FP.fin v ∧ 0 < v := by
  refine ⟨_, gasResistance_eq ha hr, ?_⟩
  have h8 : (8 : ℚ) ≤ ((262144 >>> r : ℕ) : ℚ) := by exact_mod_cast shiftRight_262144_ge hr
  have hd1 : (0 : ℚ) < 3 * ((adc : ℚ) - 512) + 4096 := by
    have : (0 : ℚ) ≤ (adc : ℚ) := by positivity
    linarith
  have hd2 : 3 * ((adc : ℚ) - 512) + 4096 ≤ 5629 := by
    have : (adc : ℚ) ≤ 1023 := by exact_mod_cast Nat.le_of_lt_succ ha
    linarith
  have hq : (1 : ℚ) ≤ (1000000 : ℚ) * ((262144 >>> r : ℕ) : ℚ) / (3 * ((adc : ℚ) - 512) + 4096) := by
    rw [le_div_iff₀ hd1]
    linarith
  have hmin : (2 : ℚ) ^ binary32.emin ≤
      (1000000 : ℚ) * ((262144 >>> r : ℕ) : ℚ) / (3 * ((adc : ℚ) - 512) + 4096) := by
    refine le_trans ?_ hq
    exact zpow_le_one_of_nonpos₀ (by norm_num) (by decide)
  have := rnd_half_le binary32 (by decide) hmin
  linarith

theorem startGasMeasurement_pos (env : Env) (s : BME688) (p w : ℕ)
    (h : statusByte env (startedTrace s p w) &&& 0x30 = 0x30) :
    ∃ v : ℚ, (s.startGasMeasurement env p w).1 = FP.fin v ∧ 0 < v := by
  rw [startGasMeasurement_complete_value env s p w h]
  exact gasResistance_pos (gasAdcRead_lt _ _) (gasRangeRead_lt _ _)

theorem startGasMeasurement_eq_neg_two (env : Env) (s : BME688) (p w : ℕ) :
    (s.startGasMeasurement env p w).1 = FP.fin (-2) ↔
      statusByte env (startedTrace s p w) &&& 0x30 ≠ 0x30 := by
  constructor
  · intro h hc
    obtain ⟨v, hv, hpos⟩ := startGasMeasurement_pos env s p w hc
    rw [hv] at h
    injection h with h
    linarith
  · intro h
    rw [startGasMeasurement_incomplete env s p w h]

theorem readGasForTemperature_rejected (env : Env) (s : BME688) (t : ℕ)
    (h : ¬ (t ≤ 425 ∨ (t < 600 ∧ s.allowHighTemps = true))) :
    (s.readGasForTemperature env t).1 = FP.fin (-1) := by
  unfold readGasForTemperature BME_688_HEAT_PLATE_MAX_TEMP BME_688_HEAT_PLATE_ULTRA_TEMP
  push_neg at h
  by_cases h6 : t < 600
  · have ha : s.allowHighTemps = false := by
      cases hb : s.allowHighTemps
      · rfl
      · exact absurd hb (h.2 h6)
    have h' : ¬ t ≤ 425 := by omega
    simp [ha, h']
  · simp only [h6, if_false]
    split_ifs <;> rfl

/-- Claim C18.  Whatever bytes the device returns, the ADC code is below 1024, the divisor
`4096 + (adc - 512) * 3` lies in 2560..5629, the numerator `262144 >> (range & 0x0F)` is at
least 8 and the resistance computed from them is finite and strictly positive.  Hence
`readGasForTemperature` returns -1.0 exactly for a rejected target and -2.0 exactly for an
accepted target whose measurement is incomplete, `readGas` returns -1.0 exactly for an index
of 10 or more and -2.0 exactly for an accepted index whose measurement is incomplete, and
every other result is strictly positive. -/
theorem gas_result_sentinels (env : Env) (s : BME688) (t p : ℕ) (tr tr' : List Event) :
    gasAdcRead env tr < 1024 ∧
    2560 ≤ 4096 + ((gasAdcRead env tr : ℤ) - 512) * 3 ∧
    4096 + ((gasAdcRead env tr : ℤ) - 512) * 3 ≤ 5629 ∧
    8 ≤ 262144 >>> gasRangeRead env tr' ∧
    (∃ v : ℚ, gasResistance (gasAdcRead env tr) (gasRangeRead env tr') = FP.fin v ∧ 0 < v) ∧
    ((s.readGasForTemperature env t).1 = FP.fin (-1) ↔
      ¬ (t ≤ 425 ∨ (t < 600 ∧ s.allowHighTemps = true))) ∧
    ((s.readGasForTemperature env t).1 = FP.fin (-2) ↔
      (t ≤ 425 ∨ (t < 600 ∧ s.allowHighTemps = true)) ∧
      statusByte env (startedTrace (programmedState env s t) BME_688_GAS_PROFILE_START
        (waitCode env (s.readUCGas env t).1 17 + 5)) &&& 0x30 ≠ 0x30) ∧
    ((s.readGasForTemperature env t).1 ≠ FP.fin (-1) →
      (s.readGasForTemperature env t).1 ≠ FP.fin (-2) →
      ∃ v : ℚ, (s.readGasForTemperature env t).1 = FP.fin v ∧ 0 < v) ∧
    ((s.readGas env p).1 = FP.fin (-1) ↔ 10 ≤ p) ∧
    ((s.readGas env p).1 = FP.fin (-2) ↔
      p < 10 ∧
      statusByte env (startedTrace (s.readUCGas env (BME_688_GAS_START_TEMP * p)).2 p
        (waitCode env (s.readUCGas env (BME_688_GAS_START_TEMP * p)).1 17)) &&& 0x30 ≠ 0x30) ∧
    ((s.readGas env p).1 ≠ FP.fin (-1) → (s.readGas env p).1 ≠ FP.fin (-2) →
      ∃ v : ℚ, (s.readGas env p).1 = FP.fin v ∧ 0 < v) := by
  have ha := gasAdcRead_lt env tr
  have hr := gasRangeRead_lt env tr'
  have hg : ∀ p', p' < 10 → (s.readGas env p').1 =
      ((s.readUCGas env (BME_688_GAS_START_TEMP * p')).2.startGasMeasurement env p'
        (waitCode env (s.readUCGas env (BME_688_GAS_START_TEMP * p')).1 17)).1 := by
    intro p' h; unfold readGas; simp only [h, if_true]
  have hg' : ∀ p', ¬ p' < 10 → (s.readGas env p').1 = FP.fin (-1) := by
    intro p' h; unfold readGas; simp only [h, if_false]
  refine ⟨ha, by omega, by omega, shiftRight_262144_ge hr, gasResistance_pos ha hr,
    ⟨?_, readGasForTemperature_rejected env s t⟩, ⟨?_, ?_⟩, ?_, ⟨?_, fun h => hg' p (by omega)⟩,
    ⟨?_, ?_⟩, ?_⟩
  · intro h hacc
    rw [readGasForTemperature_accepted env s t hacc] at h
    exact startGasMeasurement_ne_invalid _ _ _ _ h
  · intro h
    by_cases hacc : t ≤ 425 ∨ (t < 600 ∧ s.allowHighTemps = true)
    · rw [readGasForTemperature_accepted env s t hacc] at h
      exact ⟨hacc, (startGasMeasurement_eq_neg_two _ _ _ _).mp h⟩
    · rw [readGasForTemperature_rejected env s t hacc] at h
      injection h with h
      norm_num at h
  · rintro ⟨hacc, hst⟩
    rw [readGasForTemperature_accepted env s t hacc]
    exact (startGasMeasurement_eq_neg_two _ _ _ _).mpr hst
  · intro h1 h2
    by_cases hacc : t ≤ 425 ∨ (t < 600 ∧ s.allowHighTemps = true)
    · rw [readGasForTemperature_accepted env s t hacc] at h2 ⊢
      by_cases hc : statusByte env (startedTrace (programmedState env s t)
          BME_688_GAS_PROFILE_START (waitCode env (s.readUCGas env t).1 17 + 5)) &&& 0x30 = 0x30
      · exact startGasMeasurement_pos _ _ _ _ hc
      · exact absurd ((startGasMeasurement_eq_neg_two _ _ _ _).mpr hc) h2
    · exact absurd (readGasForTemperature_rejected env s t hacc) h1
  · intro h
    by_contra hp
    rw [hg p (by omega)] at h
    exact startGasMeasurement_ne_invalid _ _ _ _ h
  · intro h
    by_cases hp : p < 10
    · rw [hg p hp] at h
      exact ⟨hp, (startGasMeasurement_eq_neg_two _ _ _ _).mp h⟩
    · rw [hg' p hp] at h
      injection h with h
      norm_num at h
  · rintro ⟨hp, hst⟩
    rw [hg p hp]
    exact (startGasMeasurement_eq_neg_two _ _ _ _).mpr hst
  · intro h1 h2
    by_cases hp : p < 10
    · rw [hg p hp] at h2 ⊢
      by_cases hc : statusByte env (startedTrace (s.readUCGas env (BME_688_GAS_START_TEMP * p)).2 p
          (waitCode env (s.readUCGas env (BME_688_GAS_START_TEMP * p)).1 17)) &&& 0x30 = 0x30
      · exact startGasMeasurement_pos _ _ _ _ hc
      · exact absurd ((startGasMeasurement_eq_neg_two _ _ _ _).mpr hc) h2
    · exact absurd (hg' p hp) h1

/-- Witness for C18: on the device that completes a measurement, profile 0 on a fresh
instance yields a strictly positive resistance. -/
theorem gas_result_sentinels_witness :
    ∃ v : ℚ, ((fresh 0x76).readGas gasDevice 0).1 = FP.fin v ∧ 0 < v :=
  (gas_result_sentinels gasDevice (fresh 0x76) 0 0 [] []).2.2.2.2.2.2.2.2.2.2
    (by decide!) (by decide!)

/-! ## The divisor of the pressure compensation -/

/-- With a zero `par_p1` the divisor of `readUCPres` is zero as soon as the other factor
stays finite. -/
theorem presDivisor_of_inRange {s : BME688} (h : InRange s) (hp : s.par_p1 = 0) :
    presDivisor s = FP.fin 0 := by
  obtain ⟨ht, _, _, _, h8, h16⟩ := h
  unfold presDivisor
  simp only [hp, Nat.cast_zero]
  have v1 : FP.Bdd 30 (binary64.sub (binary64.div s.t_fine (FP.fin 2)) (FP.fin 64000)) :=
    bdd_sub (c := 27) (bdd_div ht (by norm_num) (by norm_num))
      (bdd_fin (k := 16) (by norm_num [abs_of_pos])) (by norm_num) (by norm_num) (by norm_num)
  have c8 : FP.Bdd 9 (binary64.ofInt s.par_p8_0) :=
    bdd_ofInt (k := 7) (by rw [abs_le]; constructor <;> norm_num <;> omega) (by norm_num)
  have c16 : FP.Bdd 17 (binary64.ofInt s.par_p16_1) :=
    bdd_ofInt (k := 15) (by rw [abs_le]; constructor <;> norm_num <;> omega) (by norm_num)
  generalize binary64.sub (binary64.div s.t_fine (FP.fin 2)) (FP.fin 64000) = w at v1
  have m2 := bdd_mul (bdd_mul c8 v1 (by norm_num)) v1 (by norm_num)
  have d1 := bdd_div (c := 16384) m2 (by norm_num) (by norm_num)
  have m3 := bdd_mul c16 v1 (by norm_num)
  have a2 := bdd_add (c := 80) d1 m3 (by norm_num) (by norm_num) (by norm_num)
  have d2 := bdd_div (c := 524288) a2 (by norm_num) (by norm_num)
  have d3 := bdd_div (c := 32768) d2 (by norm_num) (by norm_num)
  have a3 := bdd_add (c := 90) (bdd_fin (k := 0) (v := 1) (by norm_num)) d3 (by norm_num)
    (by norm_num) (by norm_num)
  exact mul_ofInt_zero a3

/-- A division by a zero divisor makes the whole result of `readUCPres` non-finite. -/
theorem readUCPres_of_presDivisor_zero (s : BME688) (adc : ℤ) (h : presDivisor s = FP.fin 0) :
    (s.readUCPres adc).1 = FP.nonfin := by
  have hd : ∀ x : FP, binary64.div x (FP.fin 0) = FP.nonfin := by
    intro x; cases x <;> simp [Fmt.div]
  have hl : ∀ x : FP, binary64.div FP.nonfin x = FP.nonfin := by
    intro x; cases x <;> simp [Fmt.div]
  have ha : ∀ x : FP, binary64.add FP.nonfin x = FP.nonfin := by
    intro x; cases x <;> simp [Fmt.add]
  unfold readUCPres
  simp only [h, hd, hl, ha]

theorem thermal_emit (s : BME688) (e : Event) : thermal (s.emit e) = thermal s := rfl

theorem thermal_printLog (s : BME688) (m : Msg) : thermal (s.printLog m) = thermal s := by
  unfold printLog; split_ifs <;> rfl

theorem thermal_i2c_execute (s : BME688) (r d : ℕ) : thermal (s.i2c_execute r d) = thermal s := rfl

theorem thermal_requestFrom (env : Env) (s : BME688) (r n : ℕ) :
    thermal (s.requestFrom env r n).2 = thermal s := rfl

theorem thermal_i2c_readByte (env : Env) (s : BME688) (r d n : ℕ) :
    thermal (s.i2c_readByte env r d n).2 = thermal s := by
  rw [i2c_readByte_state]; rfl

theorem thermal_i2c_readByte_signed (env : Env) (s : BME688) (r : ℕ) (d : ℤ) (n : ℕ) :
    thermal (s.i2c_readByte_signed env r d n).2 = thermal s := by
  unfold i2c_readByte_signed; simp only; split_ifs <;> rfl

theorem thermal_i2c_read_Xbit (T : IntTy) (env : Env) (s : BME688) (r d n : ℕ) :
    thermal (s.i2c_read_Xbit T env r d n).2 = thermal s := by
  rw [i2c_read_Xbit_state]; rfl

theorem thermal_i2c_read_Xbit_LE (T : IntTy) (env : Env) (s : BME688) (r d n : ℕ) :
    thermal (s.i2c_read_Xbit_LE T env r d n).2 = thermal s := by
  rw [i2c_read_Xbit_LE_state]; rfl

theorem thermal_isConnected (env : Env) (s : BME688) : thermal (s.isConnected env).2 = thermal s := by
  unfold isConnected is_sensor_connected
  simp only [if_true]
  split_ifs <;> rw [thermal_i2c_readByte] <;> rfl

theorem thermal_showLogs (s : BME688) (b : Bool) : thermal (s.showLogs b) = thermal s := rfl

theorem thermal_readRawTemp (env : Env) (s : BME688) : thermal (s.readRawTemp env).2 = thermal s := by
  unfold readRawTemp; simp only
  split_ifs
  · exact thermal_i2c_read_Xbit _ _ _ _ _ _
  · rw [thermal_printLog]; exact thermal_i2c_read_Xbit _ _ _ _ _ _

theorem thermal_readRawPres (env : Env) (s : BME688) : thermal (s.readRawPres env).2 = thermal s := by
  unfold readRawPres; simp only
  split_ifs
  · exact thermal_i2c_read_Xbit _ _ _ _ _ _
  · rw [thermal_printLog]; exact thermal_i2c_read_Xbit _ _ _ _ _ _

theorem thermal_readRawHum (env : Env) (s : BME688) : thermal (s.readRawHum env).2 = thermal s := by
  unfold readRawHum; simp only
  split_ifs
  · exact thermal_i2c_read_Xbit _ _ _ _ _ _
  · rw [thermal_printLog]; exact thermal_i2c_read_Xbit _ _ _ _ _ _

theorem thermal_readUCPres (s : BME688) (a : ℤ) : thermal (s.readUCPres a).2 = thermal s := rfl

theorem thermal_readUCHum (s : BME688) (a : ℤ) : thermal (s.readUCHum a).2 = thermal s := rfl

theorem thermal_readUCGas (env : Env) (s : BME688) (t : ℕ) :
    thermal (s.readUCGas env t).2 = thermal s := rfl

theorem thermal_readPressure (env : Env) (s : BME688) :
    thermal (s.readPressure env).2 = thermal s := by
  unfold readPressure
  simp only [thermal_readUCPres, thermal_readRawPres, thermal_emit, thermal_i2c_execute]

theorem thermal_readHumidity (env : Env) (s : BME688) :
    thermal (s.readHumidity env).2 = thermal s := by
  unfold readHumidity
  simp only [thermal_readUCHum, thermal_readRawHum, thermal_emit, thermal_i2c_execute]

theorem thermal_checkGas (env : Env) (s : BME688) :
    thermal (s.checkGasMeasurementCompletion env).2 = thermal s := by
  unfold checkGasMeasurementCompletion; exact thermal_i2c_readByte _ _ _ _ _

theorem thermal_startGasMeasurement (env : Env) (s : BME688) (p w : ℕ) :
    thermal (s.startGasMeasurement env p w).2 = thermal s := by
  unfold startGasMeasurement
  simp only
  split_ifs
  · simp only [thermal_printLog, thermal_checkGas, thermal_emit, thermal_i2c_execute]
  · show thermal (i2c_readByte env _ _ _ _).2 = _
    simp only [thermal_i2c_readByte, thermal_i2c_read_Xbit, thermal_checkGas, thermal_emit,
      thermal_i2c_execute]

theorem thermal_readGasForTemperature (env : Env) (s : BME688) (t : ℕ) :
    thermal (s.readGasForTemperature env t).2 = thermal s := by
  unfold readGasForTemperature
  split_ifs
  · simp only [thermal_startGasMeasurement, thermal_i2c_execute, thermal_readUCGas]
  · exact thermal_printLog _ _
  · exact thermal_printLog _ _

theorem thermal_readGas (env : Env) (s : BME688) (p : ℕ) :
    thermal (s.readGas env p).2 = thermal s := by
  unfold readGas
  split_ifs
  · simp only [thermal_startGasMeasurement, thermal_readUCGas]
  · exact thermal_printLog _ _

theorem thermal_heatProfileStep (env : Env) (s : BME688) (i : ℕ) :
    thermal (heatProfileStep env s i) = thermal s := by
  unfold heatProfileStep
  simp only [thermal_i2c_execute, thermal_readUCGas, thermal_emit]

theorem thermal_foldl_heatProfileStep (env : Env) (l : List ℕ) (s : BME688) :
    thermal (l.foldl (heatProfileStep env) s) = thermal s := by
  induction l generalizing s with
  | nil => rfl
  | cons i l ih => rw [List.foldl_cons, ih, thermal_heatProfileStep]

theorem inRange_of_thermal {s s' : BME688} (h : thermal s' = thermal s) (hs : InRange s) :
    InRange s' := by
  simp only [thermal, Prod.mk.injEq] at h
  obtain ⟨h1, h2, h3, h4, h5, h6⟩ := h
  unfold InRange
  rw [h1, h2, h3, h4, h5, h6]
  exact hs

theorem toInt_i16_range {p : ℕ} (h : p < 2 ^ 16) : -32768 ≤ i16.toInt p ∧ i16.toInt p ≤ 32767 := by
  unfold IntTy.toInt i16
  simp only [true_and]
  have e1 : (2 : ℕ) ^ (16 - 1) = 32768 := by norm_num
  have e2 : (2 : ℤ) ^ 16 = 65536 := by norm_num
  have e3 : (2 : ℕ) ^ 16 = 65536 := by norm_num
  rw [e1, e2]
  split_ifs <;> omega

theorem toInt_i8_range {p : ℕ} (h : p < 256) : -128 ≤ i8.toInt p ∧ i8.toInt p ≤ 127 := by
  unfold IntTy.toInt i8
  simp only [true_and]
  have e1 : (2 : ℕ) ^ (8 - 1) = 128 := by norm_num
  have e2 : (2 : ℤ) ^ 8 = 256 := by norm_num
  rw [e1, e2]
  split_ifs <;> omega

theorem requestFrom_bytes (env : Env) (s : BME688) (r n : ℕ) :
    ∀ b ∈ (s.requestFrom env r n).1, b < 256 := by
  intro b hb
  unfold requestFrom at hb
  simp only [List.mem_map] at hb
  obtain ⟨a, _, rfl⟩ := hb
  exact Nat.mod_lt _ (by norm_num)

theorem headD_lt {l : List ℕ} (h : ∀ b ∈ l, b < 256) : l.headD 0 < 256 := by
  cases l with
  | nil => simp
  | cons a t => exact h a (List.mem_cons_self _ _)

theorem i2c_read_Xbit_LE_lt (T : IntTy) (env : Env) (s : BME688) (reg d n : ℕ)
    (h : (s.i2c_read_Xbit_LE T env reg d n).1.1 = true) :
    (s.i2c_read_Xbit_LE T env reg d n).1.2 < 2 ^ T.bits := by
  unfold i2c_read_Xbit_LE at h ⊢
  simp only at h ⊢
  by_cases hl : (s.requestFrom env reg (byteCount n)).1.length = byteCount n
  · simp only [hl, if_true]
    exact wrap_lt T _
  · simp only [hl, if_false] at h
    exact absurd h (by simp)

theorem i2c_readByte_signed_range (env : Env) (s : BME688) (reg : ℕ) (d : ℤ)
    (h : (s.i2c_readByte_signed env reg d 1).1.1 = true) :
    -128 ≤ (s.i2c_readByte_signed env reg d 1).1.2 ∧
      (s.i2c_readByte_signed env reg d 1).1.2 ≤ 127 := by
  have h1 : (0 : ℕ) < 1 % 256 := by norm_num
  unfold i2c_readByte_signed at h ⊢
  simp only at h ⊢
  by_cases hl : (s.requestFrom env reg 1).1.length < 1 % 256
  · simp only [hl, if_true] at h
    exact absurd h (by simp)
  · simp only [hl, if_false, h1, if_true]
    exact toInt_i8_range (headD_lt (requestFrom_bytes env s reg 1))

theorem readRawTemp_range (env : Env) (s : BME688) :
    0 ≤ (s.readRawTemp env).1 ∧ (s.readRawTemp env).1 < 2 ^ 20 := by
  have hb : byteCount 20 = 3 := by decide
  have h20 : (20 : ℕ) % 8 ≠ 0 := by decide
  have h4 : 8 - (20 : ℕ) % 8 = 4 := by decide
  unfold readRawTemp i2c_read_Xbit
  simp only [hb]
  by_cases hlen : (s.requestFrom env BME_688_TEMP_RAW_REG 3).1.length = 3
  · have hbytes := requestFrom_bytes env s BME_688_TEMP_RAW_REG 3
    have hbe := assembleBE_eq i32 3 _ hbytes 0 0 (by simpa using hlen)
    simp only [IntTy.wrap, Nat.zero_mod, zero_mul, zero_add] at hbe
    have hlt := beValue_lt _ hbytes
    rw [hlen] at hlt
    have e24 : (2 : ℕ) ^ (8 * 3) = 16777216 := by norm_num
    have e32 : (2 : ℕ) ^ i32.bits = 4294967296 := by norm_num [i32]
    have e31 : (2 : ℕ) ^ (i32.bits - 1) = 2147483648 := by norm_num [i32]
    have hlt' : beValue (s.requestFrom env BME_688_TEMP_RAW_REG 3).1 < 2 ^ i32.bits := by omega
    simp only [hlen, if_true, h20, ne_eq, not_false_eq_true, h4, hbe, ← IntTy.wrap.eq_1,
      wrap_of_lt i32 hlt']
    rw [wrap_of_lt i32 (shr_lt i32 _ _), shr_eq_shiftRight i32 4 hlt' (Or.inr (by omega))]
    have hs : beValue (s.requestFrom env BME_688_TEMP_RAW_REG 3).1 >>> 4 < 1048576 := by
      rw [Nat.shiftRight_eq_div_pow]; omega
    unfold IntTy.toInt
    rw [if_neg (by rw [e31]; omega)]
    constructor
    · positivity
    · have : (2 : ℤ) ^ 20 = 1048576 := by norm_num
      rw [this]; exact_mod_cast hs
  · simp only [hlen, if_false]
    constructor <;> simp [IntTy.toInt]

theorem inRange_readTemperature (env : Env) (s : BME688) (h : InRange s) :
    InRange (s.readTemperature env).2 := by
  unfold readTemperature
  simp only
  set s2 := (s.i2c_execute BME_688_CTRL_MEAS_REG
    (((s.temp_oss <<< 5) ||| (s.press_oss <<< 2)) ||| s.mode)).emit (Event.delay 10) with hs2
  have hth : thermal (s2.readRawTemp env).2 = thermal s := by
    rw [thermal_readRawTemp]; rfl
  have hr := inRange_of_thermal hth h
  obtain ⟨_, h0, h1, h3, h8, h16⟩ := hr
  have hex := (readUCTemp_exact (s2.readRawTemp env).2 (s2.readRawTemp env).1
    (readRawTemp_range env s2) h0 h1 h3).1
  have hb := tFineNum_bound (readRawTemp_range env s2) h0 h1 h3
  refine ⟨?_, h0, h1, h3, h8, h16⟩
  rw [hex]
  show |_| ≤ _
  rw [abs_mul, abs_of_pos (by positivity : (0 : ℚ) < 2 ^ (-30 : ℤ))]
  have hbq : |((tFineNum (s2.readRawTemp env).1 (s2.readRawTemp env).2.par_t16_0
      (s2.readRawTemp env).2.par_t16_1 (s2.readRawTemp env).2.par_t3 : ℤ) : ℚ)| ≤ 2 ^ 52 := by
    rw [← Int.cast_abs]
    exact_mod_cast le_of_lt hb
  calc _ ≤ (2 : ℚ) ^ 52 * 2 ^ (-30 : ℤ) := mul_le_mul_of_nonneg_right hbq (by positivity)
    _ = 2 ^ 22 := by norm_num [zpow_neg]

theorem inRange_setHeatProfiles (env : Env) (s : BME688) (h : InRange s) :
    InRange (s.setHeatProfiles env).2 := by
  unfold setHeatProfiles
  exact inRange_of_thermal (thermal_foldl_heatProfileStep env _ _) (inRange_readTemperature env s h)

theorem keepsInRange_readS16 (env : Env) (reg : ℕ) (get : BME688 → ℤ) (set : BME688 → ℤ → BME688)
    (hset : ∀ s v, -32768 ≤ v ∧ v ≤ 32767 → InRange s → InRange (set s v)) :
    KeepsInRange (readS16 env reg get set) := by
  intro s hs
  have hfr := inRange_of_thermal (thermal_i2c_read_Xbit_LE i16 env s reg (i16.ofInt (get s)) 16) hs
  unfold readS16; simp only
  split_ifs with hc
  · exact hset _ _ (toInt_i16_range (i2c_read_Xbit_LE_lt i16 env s reg _ 16 hc)) hfr
  · exact hfr

theorem keepsInRange_readU16 (env : Env) (le : Bool) (reg width : ℕ) (get : BME688 → ℕ)
    (set : BME688 → ℕ → BME688) (hset : ∀ s v, InRange s → InRange (set s v)) :
    KeepsInRange (readU16 env le reg width get set) := by
  intro s hs
  have h1 := inRange_of_thermal (thermal_i2c_read_Xbit_LE u16 env s reg (get s) width) hs
  have h2 := inRange_of_thermal (thermal_i2c_read_Xbit u16 env s reg (get s) width) hs
  unfold readU16; simp only
  cases le <;> simp only [Bool.false_eq_true, if_false, if_true] <;> split_ifs <;>
    first
      | exact hset _ _ h1
      | exact hset _ _ h2
      | exact h1
      | exact h2

theorem keepsInRange_readS8 (env : Env) (reg : ℕ) (get : BME688 → ℤ) (set : BME688 → ℤ → BME688)
    (hset : ∀ s v, -128 ≤ v ∧ v ≤ 127 → InRange s → InRange (set s v)) :
    KeepsInRange (readS8 env reg get set) := by
  intro s hs
  have hfr := inRange_of_thermal (thermal_i2c_readByte_signed env s reg (get s) 1) hs
  unfold readS8; simp only
  split_ifs with hc
  · exact hset _ _ (i2c_readByte_signed_range env s reg _ hc) hfr
  · exact hfr

theorem keepsInRange_readU8 (env : Env) (reg : ℕ) (get : BME688 → ℕ) (set : BME688 → ℕ → BME688)
    (hset : ∀ s v, InRange s → InRange (set s v)) : KeepsInRange (readU8 env reg get set) := by
  intro s hs
  have hfr := inRange_of_thermal (thermal_i2c_readByte env s reg (get s) 1) hs
  unfold readU8; simp only
  split_ifs
  · exact hset _ _ hfr
  · exact hfr

theorem inRange_chain (steps : List (BME688 → Bool × BME688))
    (h : ∀ f ∈ steps, KeepsInRange f) (s : BME688) (hs : InRange s) :
    InRange (chain steps s).2 := by
  unfold chain
  suffices H : ∀ (acc : Bool × BME688), InRange acc.2 →
      InRange (steps.foldl (fun acc step => if acc.1 then step acc.2 else acc) acc).2 from
    H (true, s) hs
  induction steps with
  | nil => intro acc ha; exact ha
  | cons f fs ih =>
    intro acc ha
    rw [List.foldl_cons]
    apply ih (fun g hg => h g (List.mem_cons_of_mem _ hg))
    split_ifs
    · exact h f (List.mem_cons_self _ _) _ ha
    · exact ha

theorem inRange_group (m : Msg) (steps : List (BME688 → Bool × BME688))
    (h : ∀ f ∈ steps, KeepsInRange f) (s : BME688) (hs : InRange s) :
    InRange (logUnless m (chain steps s)) := by
  have := inRange_chain steps h s hs
  unfold logUnless; split_ifs
  · exact this
  · exact inRange_of_thermal (thermal_printLog _ _) this

theorem inRange_readCalibParams (env : Env) (s : BME688) (hs : InRange s) :
    InRange (s.readCalibParams env) := by
  have k16 := fun reg get set h => keepsInRange_readS16 env reg get set h
  have k8 := fun reg get set h => keepsInRange_readS8 env reg get set h
  have u16 := fun le reg w get set h => keepsInRange_readU16 env le reg w get set h
  have u8 := fun reg get set h => keepsInRange_readU8 env reg get set h
  unfold readCalibParams
  refine inRange_setHeatProfiles env _ (inRange_group _ _ ?_ _ (inRange_group _ _ ?_ _
    (inRange_group _ _ ?_ _ (inRange_group _ _ ?_ _ hs))))
  · exact forall_mem_cons_of (k8 _ _ _ fun _ _ _ h => h) <|
      forall_mem_cons_of (k16 _ _ _ fun _ _ _ h => h) <|
      forall_mem_cons_of (k8 _ _ _ fun _ _ _ h => h) <|
      forall_mem_cons_of (u8 _ _ _ fun _ _ h => h) <|
      forall_mem_cons_of (k8 _ _ _ fun _ _ _ h => h) forall_mem_nil_of
  · exact forall_mem_cons_of (u16 _ _ _ _ _ fun _ _ h => h) <|
      forall_mem_cons_of (u16 _ _ _ _ _ fun _ _ h => h) <|
      forall_mem_cons_of (k8 _ _ _ fun _ _ _ h => h) <|
      forall_mem_cons_of (k8 _ _ _ fun _ _ _ h => h) <|
      forall_mem_cons_of (k8 _ _ _ fun _ _ _ h => h) <|
      forall_mem_cons_of (u8 _ _ _ fun _ _ h => h) <|
      forall_mem_cons_of (k8 _ _ _ fun _ _ _ h => h) forall_mem_nil_of
  · exact forall_mem_cons_of (u16 _ _ _ _ _ fun _ _ h => h) <|
      forall_mem_cons_of
        (k16 _ _ _ fun _ _ hv h => ⟨h.1, h.2.1, h.2.2.1, h.2.2.2.1, h.2.2.2.2.1, hv⟩) <|
      forall_mem_cons_of
        (k8 _ _ _ fun _ _ hv h => ⟨h.1, h.2.1, h.2.2.1, h.2.2.2.1, hv, h.2.2.2.2.2⟩) <|
      forall_mem_cons_of (k16 _ _ _ fun _ _ _ h => h) <|
      forall_mem_cons_of (k16 _ _ _ fun _ _ _ h => h) <|
      forall_mem_cons_of (k8 _ _ _ fun _ _ _ h => h) <|
      forall_mem_cons_of (k8 _ _ _ fun _ _ _ h => h) <|
      forall_mem_cons_of (k16 _ _ _ fun _ _ _ h => h) <|
      forall_mem_cons_of (k16 _ _ _ fun _ _ _ h => h) <|
      forall_mem_cons_of (u8 _ _ _ fun _ _ h => h) forall_mem_nil_of
  · exact forall_mem_cons_of (k16 _ _ _ fun _ _ hv h => ⟨h.1, hv, h.2.2⟩) <|
      forall_mem_cons_of (k16 _ _ _ fun _ _ hv h => ⟨h.1, h.2.1, hv, h.2.2.2⟩) <|
      forall_mem_cons_of (k8 _ _ _ fun _ _ hv h => ⟨h.1, h.2.1, h.2.2.1, hv, h.2.2.2.2⟩)
        forall_mem_nil_of

theorem inRange_configure (env : Env) (s : BME688) (h c : ℕ) (hs : InRange s) :
    InRange (configure env s h c) := by
  unfold configure
  exact inRange_readCalibParams env _ hs

theorem inRange_begin (env : Env) (s : BME688) (hs : InRange s) : InRange (s.begin env).2 := by
  unfold begin
  simp only
  refine inRange_of_thermal (thermal_isConnected _ _) ?_
  have hc : InRange ((s.emit Event.wireBegin).isConnected env).2 :=
    inRange_of_thermal (thermal_isConnected _ _) hs
  split_ifs
  · exact inRange_configure env _ _ _ hc
  · exact inRange_of_thermal (thermal_printLog _ _) hc

theorem inRange_beginMode (env : Env) (s : BME688) (m : ℕ) (hs : InRange s) :
    InRange (s.beginMode env m).2 := by
  have hc : InRange ((s.emit Event.wireBegin).isConnected env).2 :=
    inRange_of_thermal (thermal_isConnected _ _) hs
  unfold beginMode
  simp only
  split_ifs
  · exact inRange_of_thermal (thermal_isConnected _ _) (inRange_configure env _ _ _ hc)
  · exact inRange_of_thermal (thermal_printLog _ _) hc
  · exact inRange_of_thermal (thermal_isConnected _ _)
      (inRange_of_thermal (thermal_printLog _ _) hc)

theorem inRange_beginModeOss (env : Env) (s : BME688) (m o : ℕ) (hs : InRange s) :
    InRange (s.beginModeOss env m o).2 := by
  have hc : InRange ((s.emit Event.wireBegin).isConnected env).2 :=
    inRange_of_thermal (thermal_isConnected _ _) hs
  unfold beginModeOss
  simp only
  split_ifs
  · exact inRange_of_thermal (thermal_isConnected _ _) (inRange_configure env _ _ _ hc)
  · exact inRange_of_thermal (thermal_printLog _ _) hc
  · exact inRange_of_thermal (thermal_isConnected _ _)
      (inRange_of_thermal (thermal_printLog _ _) hc)

theorem inRange_fresh (address : ℕ) : InRange (fresh address) := by
  refine ⟨?_, ?_, ?_, ?_, ?_, ?_⟩
  · show |(0 : ℚ)| ≤ 2 ^ 22
    norm_num
  all_goals
    constructor
    · show (-_ : ℤ) ≤ 0
      decide
    · show (0 : ℤ) ≤ _
      decide

theorem reachable_inRange {s : BME688} (h : Reachable s) : InRange s := by
  induction h with
  | fresh a => exact inRange_fresh a
  | begin env s _ ih => exact inRange_begin env s ih
  | beginMode env s m _ ih => exact inRange_beginMode env s m ih
  | beginModeOss env s m o _ ih => exact inRange_beginModeOss env s m o ih
  | readTemperature env s _ ih => exact inRange_readTemperature env s ih
  | readPressure env s _ ih => exact inRange_of_thermal (thermal_readPressure env s) ih
  | readHumidity env s _ ih => exact inRange_of_thermal (thermal_readHumidity env s) ih
  | readGasForTemperature env s t _ ih =>
    exact inRange_of_thermal (thermal_readGasForTemperature env s t) ih
  | readGas env s p _ ih => exact inRange_of_thermal (thermal_readGas env s p) ih
  | showLogs s b _ ih => exact ih
  | setTemperatureOversampling s o _ ih =>
    refine inRange_of_thermal ?_ ih
    unfold setTemperatureOversampling
    split_ifs
    · rfl
    · exact thermal_printLog _ _
  | ignoreUnsafeTemperatureWarnings s b _ ih =>
    refine inRange_of_thermal ?_ ih
    unfold ignoreUnsafeTemperatureWarnings
    exact (thermal_printLog _ _).trans rfl
  | isConnected env s _ ih => exact inRange_of_thermal (thermal_isConnected env s) ih

theorem div_zero_nonfin (x : FP) : binary64.div x (FP.fin 0) = FP.nonfin := by
  cases x <;> simp [Fmt.div]

theorem readRawPres_par_p1 (env : Env) (s : BME688) :
    (s.readRawPres env).2.par_p1 = s.par_p1 := by
  unfold readRawPres
  simp only [i2c_read_Xbit_state]
  split_ifs
  · rfl
  · unfold printLog; split_ifs <;> rfl

theorem readPressure_of_par_p1_zero (env : Env) (s : BME688) (h : InRange s)
    (hp : s.par_p1 = 0) : (s.readPressure env).1 = FP.nonfin := by
  unfold readPressure
  simp only
  set s2 := (s.i2c_execute BME_688_CTRL_MEAS_REG s.ctrlWord).emit (Event.delay 10) with hs2
  have hth : thermal (s2.readRawPres env).2 = thermal s := by
    rw [thermal_readRawPres]; rfl
  have hp2 : (s2.readRawPres env).2.par_p1 = 0 := by
    rw [readRawPres_par_p1]; exact hp
  rw [readUCPres_of_presDivisor_zero _ _ (presDivisor_of_inRange (inRange_of_thermal hth h) hp2)]
  rfl

/-- Claim C17.  In every state and for every raw code `readUCPres` returns what the
statements after the division make of the quotient `presDividend / presDivisor`: the
division by `(1 + x / 32768) * par_p1` is made unconditionally.  In every reachable state
whose `par_p1` is 0 - a fresh instance is one - the divisor is exactly 0 whatever the stored
fine temperature, the quotient and the result are non-finite, and so is the result of
`readPressure`.  Where the divisor is not 0 the quotient is returned: with all other
coefficients 0 and raw code 0 the result is 6553600000 divided by the divisor. -/
theorem readUCPres_divides_unguarded (s : BME688) (adc : ℤ) (address : ℕ) :
    (s.readUCPres adc).1 =
      presAfterDivision s (binary64.div (presDividend s adc) (presDivisor s)) ∧
    (s.readUCPres adc).2.p_fine = (s.readUCPres adc).1 ∧
    (Reachable s → s.par_p1 = 0 →
      presDivisor s = FP.fin 0 ∧
      binary64.div (presDividend s adc) (presDivisor s) = FP.nonfin ∧
      (s.readUCPres adc).1 = FP.nonfin ∧
      ∀ env : Env, (s.readPressure env).1 = FP.nonfin) ∧
    (fresh address).par_p1 = 0 ∧ presDivisor (fresh address) = FP.fin 0 ∧
    presDivisor ({ fresh 0x76 with par_p1 := 2 } : BME688) = FP.fin 2 ∧
    (({ fresh 0x76 with par_p1 := 2 } : BME688).readUCPres 0).1 = FP.fin 3276800000 ∧
    (({ fresh 0x76 with par_p1 := 1 } : BME688).readUCPres 0).1 = FP.fin 6553600000 ∧
    presDivisor ({ fresh 0x76 with par_p1 := 1, par_p16_1 := 16384, t_fine := FP.fin 1024 } :
      BME688) = FP.fin (481 / 512) ∧
    (({ fresh 0x76 with par_p1 := 1, par_p16_1 := 16384, t_fine := FP.fin 1024 } :
      BME688).readUCPres 0).1 = FP.fin (binary64.rnd ((6553600000 : ℚ) / (481 / 512))) := by
  refine ⟨rfl, rfl, fun h hp => ?_, rfl, presDivisor_of_inRange (inRange_fresh address) rfl,
    by decide!, by decide!, by decide!, by decide!, by decide!⟩
  have h0 := presDivisor_of_inRange (reachable_inRange h) hp
  exact ⟨h0, by rw [h0]; exact div_zero_nonfin _, readUCPres_of_presDivisor_zero s adc h0,
    fun env => readPressure_of_par_p1_zero env s (reachable_inRange h) hp⟩

/-- Witness for C17: after a temperature reading on a fresh instance the coefficient is
still 0, the pressure conversion of raw code 400000 divides by zero and a pressure reading
returns a non-finite value. -/
theorem readUCPres_divides_unguarded_witness :
    presDivisor ((fresh 0x76).readTemperature gasDevice).2 = FP.fin 0 ∧
    binary64.div (presDividend ((fresh 0x76).readTemperature gasDevice).2 400000)
      (presDivisor ((fresh 0x76).readTemperature gasDevice).2) = FP.nonfin ∧
    (((fresh 0x76).readTemperature gasDevice).2.readUCPres 400000).1 = FP.nonfin ∧
    (((fresh 0x76).readTemperature gasDevice).2.readPressure gasDevice).1 = FP.nonfin :=
  (fun h => ⟨h.1, h.2.1, h.2.2.1, h.2.2.2 gasDevice⟩)
    ((readUCPres_divides_unguarded _ 400000 0x76).2.2.1
      (Reachable.readTemperature gasDevice _ (Reachable.fresh 0x76)) rfl)

/-! ## Argument checks of `begin` -/

theorem isConnected_trace (env : Env) (s : BME688) :
    (s.isConnected env).2.trace =
      s.trace ++ [Event.probe, Event.printBool (env.ack s.trace),
        Event.read BME_688_CHIP_ID_REG 1] := by
  unfold isConnected is_sensor_connected
  simp only [if_true]
  split_ifs <;> simp [BME_688_CHIP_ID_REG]

theorem isConnected_printLogs (env : Env) (s : BME688) :
    (s.isConnected env).2.printLogs = s.printLogs := by
  unfold isConnected is_sensor_connected
  simp only [if_true]
  split_ifs <;> simp

theorem isConnected_check (env : Env) (s : BME688) :
    (s.isConnected env).1 = chipIdCheck env s.trace := by
  have h1 : (1 : ℕ) % 256 = 1 := by decide
  have h0 : (0 : ℕ) < 1 := by decide
  have hreg : BME_688_CHIP_ID_REG % 256 = BME_688_CHIP_ID_REG := by decide
  unfold isConnected is_sensor_connected chipIdCheck i2c_readByte requestFrom
  simp only [if_true, h1, h0, hreg, emit_trace, List.append_assoc, List.singleton_append]
  generalize List.map (· % 256) (env.rx (s.trace ++ [Event.probe, Event.printBool (env.ack s.trace)])
      BME_688_CHIP_ID_REG 1) = rx
  cases rx <;> simp

theorem prefix_printLog (s : BME688) (m : Msg) : s.trace <+: (s.printLog m).trace := by
  rw [printLog_trace]; exact List.prefix_append _ _

theorem prefix_i2c_readByte (env : Env) (s : BME688) (r d n : ℕ) :
    s.trace <+: (s.i2c_readByte env r d n).2.trace := by
  rw [i2c_readByte_state]; exact List.prefix_append _ _

theorem prefix_i2c_readByte_signed (env : Env) (s : BME688) (r : ℕ) (d : ℤ) (n : ℕ) :
    s.trace <+: (s.i2c_readByte_signed env r d n).2.trace := by
  unfold i2c_readByte_signed; simp only; split_ifs <;> exact List.prefix_append _ _

theorem prefix_i2c_read_Xbit (T : IntTy) (env : Env) (s : BME688) (r d n : ℕ) :
    s.trace <+: (s.i2c_read_Xbit T env r d n).2.trace := by
  rw [i2c_read_Xbit_state]; exact List.prefix_append _ _

theorem prefix_i2c_read_Xbit_LE (T : IntTy) (env : Env) (s : BME688) (r d n : ℕ) :
    s.trace <+: (s.i2c_read_Xbit_LE T env r d n).2.trace := by
  rw [i2c_read_Xbit_LE_state]; exact List.prefix_append _ _

theorem prefix_readRawTemp (env : Env) (s : BME688) : s.trace <+: (s.readRawTemp env).2.trace := by
  unfold readRawTemp; simp only
  split_ifs
  · exact prefix_i2c_read_Xbit _ _ _ _ _ _
  · exact (prefix_i2c_read_Xbit _ _ _ _ _ _).trans (prefix_printLog _ _)

theorem prefix_readTemperature (env : Env) (s : BME688) :
    s.trace <+: (s.readTemperature env).2.trace := by
  unfold readTemperature
  simp only [readUCTemp_trace]
  refine List.IsPrefix.trans ?_ (prefix_readRawTemp env _)
  simp only [emit_trace, i2c_execute_trace, List.append_assoc]
  exact List.prefix_append _ _

theorem prefix_heatProfileStep (env : Env) (s : BME688) (i : ℕ) :
    s.trace <+: (heatProfileStep env s i).trace := by
  unfold heatProfileStep
  simp only [i2c_execute_trace, readUCGas_trace, emit_trace, List.append_assoc]
  exact List.prefix_append _ _

theorem prefix_foldl_heatProfileStep (env : Env) (l : List ℕ) (s : BME688) :
    s.trace <+: (l.foldl (heatProfileStep env) s).trace := by
  induction l generalizing s with
  | nil => exact List.prefix_refl _
  | cons i l ih => rw [List.foldl_cons]; exact (prefix_heatProfileStep env s i).trans (ih _)

theorem prefix_setHeatProfiles (env : Env) (s : BME688) :
    s.trace <+: (s.setHeatProfiles env).2.trace := by
  unfold setHeatProfiles
  exact (prefix_readTemperature env s).trans (prefix_foldl_heatProfileStep env _ _)

theorem extendsTrace_readS16 (env : Env) (reg : ℕ) (get : BME688 → ℤ) (set : BME688 → ℤ → BME688)
    (hset : ∀ s v, (set s v).trace = s.trace) : ExtendsTrace (readS16 env reg get set) := by
  intro s
  unfold readS16; simp only
  split_ifs
  · rw [hset]; exact prefix_i2c_read_Xbit_LE _ _ _ _ _ _
  · exact prefix_i2c_read_Xbit_LE _ _ _ _ _ _

theorem extendsTrace_readU16 (env : Env) (le : Bool) (reg width : ℕ) (get : BME688 → ℕ)
    (set : BME688 → ℕ → BME688) (hset : ∀ s v, (set s v).trace = s.trace) :
    ExtendsTrace (readU16 env le reg width get set) := by
  intro s
  unfold readU16; simp only
  cases le <;> simp only [Bool.false_eq_true, if_false, if_true] <;> split_ifs <;>
    first
      | (rw [hset]; first | exact prefix_i2c_read_Xbit_LE _ _ _ _ _ _ | exact prefix_i2c_read_Xbit _ _ _ _ _ _)
      | exact prefix_i2c_read_Xbit_LE _ _ _ _ _ _
      | exact prefix_i2c_read_Xbit _ _ _ _ _ _

theorem extendsTrace_readS8 (env : Env) (reg : ℕ) (get : BME688 → ℤ) (set : BME688 → ℤ → BME688)
    (hset : ∀ s v, (set s v).trace = s.trace) : ExtendsTrace (readS8 env reg get set) := by
  intro s
  unfold readS8; simp only
  split_ifs
  · rw [hset]; exact prefix_i2c_readByte_signed _ _ _ _ _
  · exact prefix_i2c_readByte_signed _ _ _ _ _

theorem extendsTrace_readU8 (env : Env) (reg : ℕ) (get : BME688 → ℕ) (set : BME688 → ℕ → BME688)
    (hset : ∀ s v, (set s v).trace = s.trace) : ExtendsTrace (readU8 env reg get set) := by
  intro s
  unfold readU8; simp only
  split_ifs
  · rw [hset]; exact prefix_i2c_readByte _ _ _ _ _
  · exact prefix_i2c_readByte _ _ _ _ _

theorem prefix_chain (steps : List (BME688 → Bool × BME688))
    (h : ∀ f ∈ steps, ExtendsTrace f) (s : BME688) : s.trace <+: (chain steps s).2.trace := by
  unfold chain
  suffices H : ∀ (acc : Bool × BME688),
      acc.2.trace <+: (steps.foldl (fun acc step => if acc.1 then step acc.2 else acc) acc).2.trace
    from H (true, s)
  induction steps with
  | nil => intro acc; exact List.prefix_refl _
  | cons f fs ih =>
    intro acc
    rw [List.foldl_cons]
    refine List.IsPrefix.trans ?_ (ih (fun g hg => h g (List.mem_cons_of_mem _ hg)) _)
    split_ifs
    · exact h f (List.mem_cons_self _ _) _
    · exact List.prefix_refl _

theorem prefix_group (m : Msg) (steps : List (BME688 → Bool × BME688))
    (h : ∀ f ∈ steps, ExtendsTrace f) (s : BME688) :
    s.trace <+: (logUnless m (chain steps s)).trace := by
  have := prefix_chain steps h s
  unfold logUnless; split_ifs
  · exact this
  · exact this.trans (prefix_printLog _ _)

theorem prefix_readCalibParams (env : Env) (s : BME688) :
    s.trace <+: (s.readCalibParams env).trace := by
  have k16 := fun reg get set h => extendsTrace_readS16 env reg get set h
  have k8 := fun reg get set h => extendsTrace_readS8 env reg get set h
  have u16 := fun le reg w get set h => extendsTrace_readU16 env le reg w get set h
  have u8 := fun reg get set h => extendsTrace_readU8 env reg get set h
  unfold readCalibParams
  refine List.IsPrefix.trans ?_ (prefix_setHeatProfiles env _)
  refine (prefix_group _ _ ?_ _).trans ((prefix_group _ _ ?_ _).trans
    ((prefix_group _ _ ?_ _).trans (prefix_group _ _ ?_ _)))
  · exact forall_mem_cons_of (k16 _ _ _ fun _ _ => rfl) <|
      forall_mem_cons_of (k16 _ _ _ fun _ _ => rfl) <|
      forall_mem_cons_of (k8 _ _ _ fun _ _ => rfl) forall_mem_nil_of
  · exact forall_mem_cons_of (u16 _ _ _ _ _ fun _ _ => rfl) <|
      forall_mem_cons_of (k16 _ _ _ fun _ _ => rfl) <|
      forall_mem_cons_of (k8 _ _ _ fun _ _ => rfl) <|
      forall_mem_cons_of (k16 _ _ _ fun _ _ => rfl) <|
      forall_mem_cons_of (k16 _ _ _ fun _ _ => rfl) <|
      forall_mem_cons_of (k8 _ _ _ fun _ _ => rfl) <|
      forall_mem_cons_of (k8 _ _ _ fun _ _ => rfl) <|
      forall_mem_cons_of (k16 _ _ _ fun _ _ => rfl) <|
      forall_mem_cons_of (k16 _ _ _ fun _ _ => rfl) <|
      forall_mem_cons_of (u8 _ _ _ fun _ _ => rfl) forall_mem_nil_of
  · exact forall_mem_cons_of (u16 _ _ _ _ _ fun _ _ => rfl) <|
      forall_mem_cons_of (u16 _ _ _ _ _ fun _ _ => rfl) <|
      forall_mem_cons_of (k8 _ _ _ fun _ _ => rfl) <|
      forall_mem_cons_of (k8 _ _ _ fun _ _ => rfl) <|
      forall_mem_cons_of (k8 _ _ _ fun _ _ => rfl) <|
      forall_mem_cons_of (u8 _ _ _ fun _ _ => rfl) <|
      forall_mem_cons_of (k8 _ _ _ fun _ _ => rfl) forall_mem_nil_of
  · exact forall_mem_cons_of (k8 _ _ _ fun _ _ => rfl) <|
      forall_mem_cons_of (k16 _ _ _ fun _ _ => rfl) <|
      forall_mem_cons_of (k8 _ _ _ fun _ _ => rfl) <|
      forall_mem_cons_of (u8 _ _ _ fun _ _ => rfl) <|
      forall_mem_cons_of (k8 _ _ _ fun _ _ => rfl) forall_mem_nil_of

theorem configure_trace (env : Env) (s : BME688) (h c : ℕ) :
    ∃ rest, (configure env s h c).trace = s.trace ++
      [Event.write BME_688_CTRL_MEAS_HUM_REG (h % 256), Event.write BME_688_CTRL_MEAS_REG (c % 256),
       Event.write BME_688_IIR_FILTER_REG BME_688_IIR_FILTER_C15] ++ rest := by
  unfold configure
  obtain ⟨rest, hr⟩ := prefix_readCalibParams env
    (((s.i2c_execute BME_688_CTRL_MEAS_HUM_REG h).i2c_execute BME_688_CTRL_MEAS_REG c).i2c_execute
      BME_688_IIR_FILTER_REG BME_688_IIR_FILTER_C15)
  refine ⟨rest, ?_⟩
  rw [← hr]
  simp [BME_688_CTRL_MEAS_HUM_REG, BME_688_CTRL_MEAS_REG, BME_688_IIR_FILTER_REG,
    BME_688_IIR_FILTER_C15]

theorem connected_trace (env : Env) (s : BME688) :
    ((s.emit Event.wireBegin).isConnected env).2.trace = connectedTrace env s := by
  rw [isConnected_trace]
  simp [connectedTrace]

theorem begin_rejected (env : Env) (s : BME688) :
    (((s.emit Event.wireBegin).isConnected env).2.printLog Msg.VALUE_INVALID).trace =
      connectedTrace env s ++ (if s.printLogs then [Event.print Msg.VALUE_INVALID] else []) := by
  rw [printLog_trace, connected_trace, isConnected_printLogs]
  rfl

theorem begin_accepted (env : Env) (s : BME688) (h c : ℕ) :
    ∃ rest,
      ((configure env ((s.emit Event.wireBegin).isConnected env).2 h c).isConnected env).2.trace =
        connectedTrace env s ++
          [Event.write BME_688_CTRL_MEAS_HUM_REG (h % 256),
           Event.write BME_688_CTRL_MEAS_REG (c % 256),
           Event.write BME_688_IIR_FILTER_REG BME_688_IIR_FILTER_C15] ++ rest ++
          [Event.probe,
           Event.printBool (env.ack (connectedTrace env s ++
            [Event.write BME_688_CTRL_MEAS_HUM_REG (h % 256),
             Event.write BME_688_CTRL_MEAS_REG (c % 256),
             Event.write BME_688_IIR_FILTER_REG BME_688_IIR_FILTER_C15] ++ rest)),
           Event.read BME_688_CHIP_ID_REG 1] ∧
      ((configure env ((s.emit Event.wireBegin).isConnected env).2 h c).isConnected env).1 =
        chipIdCheck env (connectedTrace env s ++
          [Event.write BME_688_CTRL_MEAS_HUM_REG (h % 256),
           Event.write BME_688_CTRL_MEAS_REG (c % 256),
           Event.write BME_688_IIR_FILTER_REG BME_688_IIR_FILTER_C15] ++ rest) := by
  obtain ⟨rest, hr⟩ := configure_trace env ((s.emit Event.wireBegin).isConnected env).2 h c
  rw [connected_trace] at hr
  exact ⟨rest, by rw [isConnected_trace, hr], by rw [isConnected_check, hr]⟩

/-- Claim C14.  On a device that passes the connection check, `begin(mode)` with
`mode > 2` and `begin(mode, oss)` with `mode > 2` or `oss > 5` return false and add to the
transcript only the connection check and the log line: no register write, no calibration
read.  With `mode ≤ 2` (and `oss ≤ 5`) they write the humidity-control, measurement-control
and IIR-filter registers, in this order, and after the calibration return the outcome of a
second chip-ID check. -/
theorem begin_argument_check (env : Env) (s : BME688) (mode oss : ℕ)
    (hc : chipIdCheck env (s.trace ++ [Event.wireBegin]) = true) :
    (2 < mode →
      (s.beginMode env mode).1 = false ∧
      (s.beginMode env mode).2.trace =
        connectedTrace env s ++ (if s.printLogs then [Event.print Msg.VALUE_INVALID] else [])) ∧
    (2 < mode ∨ 5 < oss →
      (s.beginModeOss env mode oss).1 = false ∧
      (s.beginModeOss env mode oss).2.trace =
        connectedTrace env s ++ (if s.printLogs then [Event.print Msg.VALUE_INVALID] else [])) ∧
    (mode ≤ 2 → ∃ rest,
      (s.beginMode env mode).2.trace =
        connectedTrace env s ++
          [Event.write BME_688_CTRL_MEAS_HUM_REG (BME_688_OSS_1 % 256),
           Event.write BME_688_CTRL_MEAS_REG
             ((((BME_688_OSS_1 <<< 5) ||| (BME_688_OSS_1 <<< 2)) ||| mode) % 256),
           Event.write BME_688_IIR_FILTER_REG BME_688_IIR_FILTER_C15] ++ rest ++
          [Event.probe,
           Event.printBool (env.ack (connectedTrace env s ++
            [Event.write BME_688_CTRL_MEAS_HUM_REG (BME_688_OSS_1 % 256),
             Event.write BME_688_CTRL_MEAS_REG
               ((((BME_688_OSS_1 <<< 5) ||| (BME_688_OSS_1 <<< 2)) ||| mode) % 256),
             Event.write BME_688_IIR_FILTER_REG BME_688_IIR_FILTER_C15] ++ rest)),
           Event.read BME_688_CHIP_ID_REG 1] ∧
      (s.beginMode env mode).1 =
        chipIdCheck env (connectedTrace env s ++
          [Event.write BME_688_CTRL_MEAS_HUM_REG (BME_688_OSS_1 % 256),
           Event.write BME_688_CTRL_MEAS_REG
             ((((BME_688_OSS_1 <<< 5) ||| (BME_688_OSS_1 <<< 2)) ||| mode) % 256),
           Event.write BME_688_IIR_FILTER_REG BME_688_IIR_FILTER_C15] ++ rest)) ∧
    (mode ≤ 2 ∧ oss ≤ 5 → ∃ rest,
      (s.beginModeOss env mode oss).2.trace =
        connectedTrace env s ++
          [Event.write BME_688_CTRL_MEAS_HUM_REG (oss % 256),
           Event.write BME_688_CTRL_MEAS_REG ((((oss <<< 5) ||| (oss <<< 2)) ||| mode) % 256),
           Event.write BME_688_IIR_FILTER_REG BME_688_IIR_FILTER_C15] ++ rest ++
          [Event.probe,
           Event.printBool (env.ack (connectedTrace env s ++
            [Event.write BME_688_CTRL_MEAS_HUM_REG (oss % 256),
             Event.write BME_688_CTRL_MEAS_REG ((((oss <<< 5) ||| (oss <<< 2)) ||| mode) % 256),
             Event.write BME_688_IIR_FILTER_REG BME_688_IIR_FILTER_C15] ++ rest)),
           Event.read BME_688_CHIP_ID_REG 1] ∧
      (s.beginModeOss env mode oss).1 =
        chipIdCheck env (connectedTrace env s ++
          [Event.write BME_688_CTRL_MEAS_HUM_REG (oss % 256),
           Event.write BME_688_CTRL_MEAS_REG ((((oss <<< 5) ||| (oss <<< 2)) ||| mode) % 256),
           Event.write BME_688_IIR_FILTER_REG BME_688_IIR_FILTER_C15] ++ rest)) := by
  have hc1 : ((s.emit Event.wireBegin).isConnected env).1 = true := by
    rw [isConnected_check]; exact hc
  refine ⟨fun hm => ?_, fun hm => ?_, fun hm => ?_, fun hm => ?_⟩
  · have h2 : ¬ mode ≤ BME_688_PARALLEL_MODE := by unfold BME_688_PARALLEL_MODE; omega
    unfold beginMode
    simp only [hc1, if_true, h2, if_false]
    exact ⟨trivial, begin_rejected env s⟩
  · have h2 : ¬ (mode ≤ BME_688_PARALLEL_MODE ∧ oss ≤ BME_688_OSS_16) := by
      unfold BME_688_PARALLEL_MODE BME_688_OSS_16; omega
    unfold beginModeOss
    simp only [hc1, if_true, h2, if_false]
    exact ⟨trivial, begin_rejected env s⟩
  · have h2 : mode ≤ BME_688_PARALLEL_MODE := by unfold BME_688_PARALLEL_MODE; omega
    unfold beginMode
    simp only [hc1, if_true, h2]
    exact begin_accepted env s _ _
  · have h2 : mode ≤ BME_688_PARALLEL_MODE ∧ oss ≤ BME_688_OSS_16 := by
      unfold BME_688_PARALLEL_MODE BME_688_OSS_16; omega
    unfold beginModeOss
    simp only [hc1, if_true, h2, and_self]
    exact begin_accepted env s _ _

/-- Witness for C14: on a device that acknowledges and whose chip-ID register reads 0x61,
`begin(3)` is refused without a register write. -/
theorem begin_argument_check_witness :
    ((fresh 0x76).beginMode connectedDevice 3).1 = false ∧
    ((fresh 0x76).beginMode connectedDevice 3).2.trace =
      connectedTrace connectedDevice (fresh 0x76) ++
        (if (fresh 0x76).printLogs then [Event.print Msg.VALUE_INVALID] else []) :=
  (begin_argument_check connectedDevice (fresh 0x76) 3 0 (by decide)).1 (by decide)

end BME688

end BME688Model
